import Mathlib

/-!
# The fixed-size chunk store of the scrmfs runtime

A shallow embedding of `runtime/lib/scrmfs-fixed.c` together with the
constants of `runtime/scrmfs-defs.h`.

Conventions of the embedding.

* C `int` and `off_t` values that can be negative (physical chunk ids, the
  results of a stack pop, target lengths, device offsets) are `Int`; counts,
  logical chunk indices and byte positions, which the code only ever uses at
  non-negative values, are `Nat`.  Arithmetic is unbounded: machine overflow is
  not part of this model.
* The array `meta->chunk_meta` is a `List`; its length is the number of
  descriptor slots of the file.  Reading or writing a slot outside the array is
  undefined behaviour in C and is the result `none` here, as is a `memcpy`
  through the `NULL` pointer returned by `scrmfs_compute_chunk_buf`.
* The global free stacks, the memory pool and the spillover device are passed
  explicitly as state.
-/

namespace Scrmfs

/-! ## Data model -/

/-- Modelled from the spec: the return codes `SCRMFS_SUCCESS`, `SCRMFS_ERR_NOSPC`
and `SCRMFS_ERR_IO` are declared in `scrmfs-internal.h`; the spec's error
taxonomy is `Success`, `NoSpace`, `IOError`, three distinct values. -/
inductive scrmfs_rc where
  | SCRMFS_SUCCESS
  | SCRMFS_ERR_NOSPC
  | SCRMFS_ERR_IO
  deriving DecidableEq

/-- Modelled from the spec: the `CHUNK_LOCATION_*` constants are declared in
`scrmfs-internal.h`; the spec's Chunk Location is the tagged variant `Unset`,
`MemoryPool`, `SpilloverDevice`, with a fourth reserved value `Container`. -/
inductive chunk_location where
  | CHUNK_LOCATION_NULL
  | CHUNK_LOCATION_MEMFS
  | CHUNK_LOCATION_SPILLOVER
  | CHUNK_LOCATION_CONTAINER
  deriving DecidableEq

open scrmfs_rc chunk_location

/-- Modelled from the spec: `scrmfs_chunkmeta_t` (declared in
`scrmfs-internal.h`) is the Chunk Descriptor, a location and a physical id. -/
structure scrmfs_chunkmeta_t where
  location : chunk_location
  id : Int
  deriving DecidableEq

/-- Modelled from the spec: `scrmfs_filemeta_t` (declared in
`scrmfs-internal.h`) is the File Metadata; only the two fields used by
`scrmfs-fixed.c` are kept: `chunks` (the chunk count) and the descriptor array
`chunk_meta`. -/
structure scrmfs_filemeta_t where
  chunks : Nat
  chunk_meta : List scrmfs_chunkmeta_t
  deriving DecidableEq

/-- The process-wide configuration read by `scrmfs-fixed.c`: the static
variables `scrmfs_chunk_bits` and `scrmfs_max_chunks` (lines 26 and 29), the
tier switches `scrmfs_use_memfs` and `scrmfs_use_spillover`, and
`scrmfs_use_containers`, which stands for "compiled with `HAVE_CONTAINER_LIB`
and the container switch set".  `scrmfs_spillover_max_chunks` is the number of
chunks of the spillover device (`SCRMFS_MAX_SPILL_CHUNKS` in the header); the
code of this file never reads it. -/
structure scrmfs_config where
  scrmfs_chunk_bits : Nat
  scrmfs_max_chunks : Nat
  scrmfs_spillover_max_chunks : Nat
  scrmfs_use_memfs : Bool
  scrmfs_use_spillover : Bool
  scrmfs_use_containers : Bool
  deriving DecidableEq

/-- Chunk size in bytes, `1 << chunk_bits` (`SCRMFS_CHUNK_SIZE` in the header;
line 26: "we set chunk size = 2^scrmfs_chunk_bits"). -/
def scrmfs_chunk_size (cfg : scrmfs_config) : Nat :=
  1 <<< cfg.scrmfs_chunk_bits

/-- Mask giving the offset within a chunk, `chunk_size - 1`
(`SCRMFS_CHUNK_MASK` in the header). -/
def scrmfs_chunk_mask (cfg : scrmfs_config) : Nat :=
  scrmfs_chunk_size cfg - 1

/-- Left shift of a signed value by `chunk_bits`, read as multiplication by
`2 ^ chunk_bits`. -/
def shl_chunk_bits (cfg : scrmfs_config) (x : Int) : Int :=
  x * 2 ^ cfg.scrmfs_chunk_bits

/-- Modelled from the spec: `scrmfs_stack_pop` is defined outside
`scrmfs-fixed.c`.  The free-id allocator is a LIFO stack of ids whose pop
returns the top id, or a negative sentinel (here `-1`) when the stack is
empty. -/
def scrmfs_stack_pop (s : List Int) : Int × List Int :=
  match s with
  | [] => (-1, [])
  | x :: r => (x, r)

/-- Modelled from the spec: `scrmfs_stack_push` is defined outside
`scrmfs-fixed.c`; it puts an id on top of the LIFO stack. -/
def scrmfs_stack_push (s : List Int) (v : Int) : List Int :=
  v :: s

/-- The state the allocation side of the store works on: the metadata of the
file at hand and the two global free stacks `free_chunk_stack` (memory pool)
and `free_spillchunk_stack` (spillover device). -/
structure fixed_state where
  fmeta : scrmfs_filemeta_t
  free_chunk_stack : List Int
  free_spillchunk_stack : List Int
  deriving DecidableEq

/-- Assignment of both fields of `meta->chunk_meta[chunk_id]`; `none` when the
slot is outside the array. -/
def store_chunkmeta (m : scrmfs_filemeta_t) (chunk_id : Nat) (cm : scrmfs_chunkmeta_t) :
    Option scrmfs_filemeta_t :=
  if chunk_id < m.chunk_meta.length then
    some { chunks := m.chunks, chunk_meta := m.chunk_meta.set chunk_id cm }
  else none

/-- Assignment `meta->chunk_meta[chunk_id].location = loc`, the id of the slot
is kept; `none` when the slot is outside the array. -/
def store_location (m : scrmfs_filemeta_t) (chunk_id : Nat) (loc : chunk_location) :
    Option scrmfs_filemeta_t :=
  match m.chunk_meta[chunk_id]? with
  | none => none
  | some cm => store_chunkmeta m chunk_id { location := loc, id := cm.id }

/-! ## Chunk allocation and release -/

/-- The spillover branch of `scrmfs_chunk_alloc`, which the source spells out
twice with the same text (lines 133-143 and 157-167): pop a spillover-local id,
add `scrmfs_max_chunks`, fail with `SCRMFS_ERR_NOSPC` when the sum is below
`scrmfs_max_chunks`, else record the chunk as a spillover chunk. -/
def scrmfs_chunk_alloc_spill (cfg : scrmfs_config) (st : fixed_state) (chunk_id : Nat) :
    Option (scrmfs_rc × fixed_state) :=
  let p := scrmfs_stack_pop st.free_spillchunk_stack
  let id : Int := p.1 + (cfg.scrmfs_max_chunks : Int)
  if id < (cfg.scrmfs_max_chunks : Int) then
    some (SCRMFS_ERR_NOSPC,
      { fmeta := st.fmeta, free_chunk_stack := st.free_chunk_stack,
        free_spillchunk_stack := p.2 })
  else
    match store_chunkmeta st.fmeta chunk_id { location := CHUNK_LOCATION_SPILLOVER, id := id } with
    | none => none
    | some m =>
      some (SCRMFS_SUCCESS,
        { fmeta := m, free_chunk_stack := st.free_chunk_stack,
          free_spillchunk_stack := p.2 })

/-- The function `scrmfs_chunk_alloc` (lines 110-183). -/
def scrmfs_chunk_alloc (cfg : scrmfs_config) (st : fixed_state) (chunk_id : Nat) :
    Option (scrmfs_rc × fixed_state) :=
  if cfg.scrmfs_use_memfs then
    let p := scrmfs_stack_pop st.free_chunk_stack
    let id : Int := p.1
    if id ≥ 0 then
      match store_chunkmeta st.fmeta chunk_id { location := CHUNK_LOCATION_MEMFS, id := id } with
      | none => none
      | some m =>
        some (SCRMFS_SUCCESS,
          { fmeta := m, free_chunk_stack := p.2,
            free_spillchunk_stack := st.free_spillchunk_stack })
    else if cfg.scrmfs_use_spillover then
      scrmfs_chunk_alloc_spill cfg
        { fmeta := st.fmeta, free_chunk_stack := p.2,
          free_spillchunk_stack := st.free_spillchunk_stack } chunk_id
    else
      some (SCRMFS_ERR_NOSPC,
        { fmeta := st.fmeta, free_chunk_stack := p.2,
          free_spillchunk_stack := st.free_spillchunk_stack })
  else if cfg.scrmfs_use_spillover then
    scrmfs_chunk_alloc_spill cfg st chunk_id
  else if cfg.scrmfs_use_containers then
    some ( SCRMFS_ERR_IO, st)
  else
    match store_location st.fmeta chunk_id CHUNK_LOCATION_NULL with
    | none => none
    | some m =>
      some ( SCRMFS_ERR_IO,
        { fmeta := m, free_chunk_stack := st.free_chunk_stack,
          free_spillchunk_stack := st.free_spillchunk_stack })

/-- The function `scrmfs_chunk_free` (lines 185-219).  A memory chunk has its
id pushed on `free_chunk_stack`; for a spillover chunk the source has only the
comment "TODO: free spill over chunk", so nothing is pushed.  A container
location is rejected with `SCRMFS_ERR_IO` with or without
`HAVE_CONTAINER_LIB`. -/
def scrmfs_chunk_free (st : fixed_state) (chunk_id : Nat) :
    Option (scrmfs_rc × fixed_state) :=
  match st.fmeta.chunk_meta[chunk_id]? with
  | none => none
  | some cm =>
    let id : Int := cm.id
    if cm.location = CHUNK_LOCATION_MEMFS then
      some (SCRMFS_SUCCESS,
        { fmeta := { chunks := st.fmeta.chunks,
                     chunk_meta := st.fmeta.chunk_meta.set chunk_id
                       { location := CHUNK_LOCATION_NULL, id := cm.id } },
          free_chunk_stack := scrmfs_stack_push st.free_chunk_stack id,
          free_spillchunk_stack := st.free_spillchunk_stack })
    else if cm.location = CHUNK_LOCATION_SPILLOVER then
      some (SCRMFS_SUCCESS,
        { fmeta := { chunks := st.fmeta.chunks,
                     chunk_meta := st.fmeta.chunk_meta.set chunk_id
                       { location := CHUNK_LOCATION_NULL, id := cm.id } },
          free_chunk_stack := st.free_chunk_stack,
          free_spillchunk_stack := st.free_spillchunk_stack })
    else
      some ( SCRMFS_ERR_IO, st)

/-! ## Extend and shrink -/

/-- The statement `meta->chunks++`. -/
def incr_chunks (st : fixed_state) : fixed_state :=
  { fmeta := { chunks := st.fmeta.chunks + 1, chunk_meta := st.fmeta.chunk_meta },
    free_chunk_stack := st.free_chunk_stack,
    free_spillchunk_stack := st.free_spillchunk_stack }

/-- The statement `meta->chunks--`. -/
def decr_chunks (st : fixed_state) : fixed_state :=
  { fmeta := { chunks := st.fmeta.chunks - 1, chunk_meta := st.fmeta.chunk_meta },
    free_chunk_stack := st.free_chunk_stack,
    free_spillchunk_stack := st.free_spillchunk_stack }

/-- The loop `while (additional > 0)` of `scrmfs_fid_store_fixed_extend`
(lines 320-337). -/
def scrmfs_fid_store_fixed_extend_loop (cfg : scrmfs_config) (st : fixed_state)
    (additional : Int) : Option (scrmfs_rc × fixed_state) :=
  if additional > 0 then
    if st.fmeta.chunks = cfg.scrmfs_max_chunks then
      some (SCRMFS_ERR_NOSPC, st)
    else
      match scrmfs_chunk_alloc cfg st st.fmeta.chunks with
      | none => none
      | some (rc, st1) =>
        if rc ≠ SCRMFS_SUCCESS then
          some (SCRMFS_ERR_NOSPC, st1)
        else
          scrmfs_fid_store_fixed_extend_loop cfg (incr_chunks st1)
            (additional - (scrmfs_chunk_size cfg : Int))
  else
    some (SCRMFS_SUCCESS, st)
termination_by additional.toNat
decreasing_by
  have h : 0 < scrmfs_chunk_size cfg := by
    unfold scrmfs_chunk_size
    rw [Nat.one_shiftLeft]
    exact Nat.pos_pow_of_pos _ (by decide)
  omega

/-- The function `scrmfs_fid_store_fixed_extend` (lines 313-341). -/
def scrmfs_fid_store_fixed_extend (cfg : scrmfs_config) (st : fixed_state) (length : Int) :
    Option (scrmfs_rc × fixed_state) :=
  let maxsize : Int := ((st.fmeta.chunks <<< cfg.scrmfs_chunk_bits : Nat) : Int)
  if length > maxsize then
    let additional : Int := length - maxsize
    scrmfs_fid_store_fixed_extend_loop cfg st additional
  else
    some (SCRMFS_SUCCESS, st)

set_option linter.unusedVariables false in
/-- The loop `while (meta->chunks > num_chunks)` of
`scrmfs_fid_store_fixed_shrink` (lines 353-356); the return code of
`scrmfs_chunk_free` is dropped, as in the source.  With `chunks = 0` and a
negative `num_chunks` the decrement would give the index `-1`, outside the
array, hence `none`; `scrmfs_fid_store_fixed_shrink` never passes a negative
`num_chunks`. -/
def scrmfs_fid_store_fixed_shrink_loop (st : fixed_state) (num_chunks : Int) :
    Option fixed_state :=
  if (st.fmeta.chunks : Int) > num_chunks then
    if st.fmeta.chunks = 0 then none
    else
      match hfree : scrmfs_chunk_free (decr_chunks st) (decr_chunks st).fmeta.chunks with
      | none => none
      | some (_, st2) => scrmfs_fid_store_fixed_shrink_loop st2 num_chunks
  else
    some st
termination_by st.fmeta.chunks
decreasing_by
  have hc : st2.fmeta.chunks = st.fmeta.chunks - 1 := by
    unfold scrmfs_chunk_free at hfree
    split at hfree
    · cases hfree
    · split at hfree
      · cases hfree; rfl
      · split at hfree
        · cases hfree; rfl
        · cases hfree; rfl
  omega

/-- The function `scrmfs_fid_store_fixed_shrink` (lines 344-359); it returns
`SCRMFS_SUCCESS` whenever it returns. -/
def scrmfs_fid_store_fixed_shrink (cfg : scrmfs_config) (st : fixed_state) (length : Int) :
    Option (scrmfs_rc × fixed_state) :=
  let num_chunks : Int := if length > 0 then (length >>> cfg.scrmfs_chunk_bits) + 1 else 0
  match scrmfs_fid_store_fixed_shrink_loop st num_chunks with
  | none => none
  | some st1 => some (SCRMFS_SUCCESS, st1)

/-! ## Chunk storage -/

/-- The bytes of the memory pool `scrmfs_chunks` and of the spillover device
`scrmfs_spilloverblock`, each by byte offset from its start. -/
structure chunk_storage where
  scrmfs_chunks : Int → UInt8
  scrmfs_spilloverblock : Int → UInt8

/-- The call `memcpy(mem + a, buf + p, n)`: `n` bytes of the caller buffer,
from its offset `p`, are copied to the storage bytes `a .. a + n - 1`. -/
def copy_to_storage (mem : Int → UInt8) (a : Int) (buf : Nat → UInt8) (p n : Nat) :
    Int → UInt8 :=
  fun i => if a ≤ i ∧ i < a + (n : Int) then buf (p + (i - a).toNat) else mem i

/-- The call `memcpy(buf + p, mem + a, n)`: the storage bytes `a .. a + n - 1`
are copied to the caller buffer from its offset `p`. -/
def copy_from_storage (buf : Nat → UInt8) (p : Nat) (mem : Int → UInt8) (a : Int) (n : Nat) :
    Nat → UInt8 :=
  fun k => if p ≤ k ∧ k < p + n then mem (a + ((k - p : Nat) : Int)) else buf k

/-- The system call `pread(fd, buf + p, count, offset)` on the spillover
device, taken as a byte array with complete transfers; a negative offset is
refused by the system call and nothing is transferred. -/
def pread (dev : Int → UInt8) (buf : Nat → UInt8) (p count : Nat) (offset : Int) :
    Nat → UInt8 :=
  if offset < 0 then buf else copy_from_storage buf p dev offset count

/-- The system call `pwrite(fd, buf + p, count, offset)` on the spillover
device, taken as a byte array with complete transfers; a negative offset is
refused by the system call and nothing is transferred. -/
def pwrite (dev : Int → UInt8) (buf : Nat → UInt8) (p count : Nat) (offset : Int) :
    Int → UInt8 :=
  if offset < 0 then dev else copy_to_storage dev offset buf p count

/-- The function `scrmfs_compute_chunk_buf` (lines 55-79).  The result is the
byte offset of the location from `scrmfs_chunks`; `none` is the `NULL` of the
source (and stands for a slot outside the descriptor array as well). -/
def scrmfs_compute_chunk_buf (cfg : scrmfs_config) (m : scrmfs_filemeta_t)
    (logical_id : Nat) (logical_offset : Nat) : Option Int :=
  match m.chunk_meta[logical_id]? with
  | none => none
  | some chunk_meta =>
    let physical_id : Int := chunk_meta.id
    if physical_id < (cfg.scrmfs_max_chunks : Int) then
      let start : Int := shl_chunk_bits cfg physical_id
      some (start + (logical_offset : Int))
    else
      none

/-- The function `scrmfs_compute_spill_offset` (lines 83-107); `-1` for an id
below `scrmfs_max_chunks` (and for a slot outside the descriptor array). -/
def scrmfs_compute_spill_offset (cfg : scrmfs_config) (m : scrmfs_filemeta_t)
    (logical_id : Nat) (logical_offset : Nat) : Int :=
  match m.chunk_meta[logical_id]? with
  | none => -1
  | some chunk_meta =>
    let physical_id : Int := chunk_meta.id
    if physical_id < (cfg.scrmfs_max_chunks : Int) then
      -1
    else
      let start : Int := shl_chunk_bits cfg (physical_id - (cfg.scrmfs_max_chunks : Int))
      start + (logical_offset : Int)

/-- The function `scrmfs_chunk_read` (lines 223-260).  The caller buffer is
`buf`, the pointer handed over is `buf + ptr`.  The result of `pread` is not
looked at, as in the source. -/
def scrmfs_chunk_read (cfg : scrmfs_config) (m : scrmfs_filemeta_t) (stor : chunk_storage)
    (chunk_id chunk_offset : Nat) (buf : Nat → UInt8) (ptr count : Nat) :
    Option (scrmfs_rc × (Nat → UInt8)) :=
  match m.chunk_meta[chunk_id]? with
  | none => none
  | some chunk_meta =>
    if chunk_meta.location = CHUNK_LOCATION_MEMFS then
      match scrmfs_compute_chunk_buf cfg m chunk_id chunk_offset with
      | none => none
      | some chunk_buf =>
        some (SCRMFS_SUCCESS, copy_from_storage buf ptr stor.scrmfs_chunks chunk_buf count)
    else if chunk_meta.location = CHUNK_LOCATION_SPILLOVER then
      let spill_offset := scrmfs_compute_spill_offset cfg m chunk_id chunk_offset
      some (SCRMFS_SUCCESS, pread stor.scrmfs_spilloverblock buf ptr count spill_offset)
    else
      some ( SCRMFS_ERR_IO, buf)

/-- The function `scrmfs_chunk_write` (lines 264-306).  The caller buffer is
`buf`, the pointer handed over is `buf + ptr`.  The result of `pwrite` is only
printed, as in the source. -/
def scrmfs_chunk_write (cfg : scrmfs_config) (m : scrmfs_filemeta_t) (stor : chunk_storage)
    (chunk_id chunk_offset : Nat) (buf : Nat → UInt8) (ptr count : Nat) :
    Option (scrmfs_rc × chunk_storage) :=
  match m.chunk_meta[chunk_id]? with
  | none => none
  | some chunk_meta =>
    if chunk_meta.location = CHUNK_LOCATION_MEMFS then
      match scrmfs_compute_chunk_buf cfg m chunk_id chunk_offset with
      | none => none
      | some chunk_buf =>
        some (SCRMFS_SUCCESS,
          { scrmfs_chunks := copy_to_storage stor.scrmfs_chunks chunk_buf buf ptr count,
            scrmfs_spilloverblock := stor.scrmfs_spilloverblock })
    else if chunk_meta.location = CHUNK_LOCATION_SPILLOVER then
      let spill_offset := scrmfs_compute_spill_offset cfg m chunk_id chunk_offset
      some (SCRMFS_SUCCESS,
        { scrmfs_chunks := stor.scrmfs_chunks,
          scrmfs_spilloverblock := pwrite stor.scrmfs_spilloverblock buf ptr count spill_offset })
    else
      some ( SCRMFS_ERR_IO, stor)

/-! ## Read and write of a byte range -/

/-- The loop `while (processed < count && rc == SCRMFS_SUCCESS)` of
`scrmfs_fid_store_fixed_read` (lines 383-399). -/
def scrmfs_fid_store_fixed_read_loop (cfg : scrmfs_config) (m : scrmfs_filemeta_t)
    (stor : chunk_storage) (count : Nat) (chunk_id ptr processed : Nat) (rc : scrmfs_rc)
    (buf : Nat → UInt8) : Option (scrmfs_rc × (Nat → UInt8)) :=
  if processed < count ∧ rc = SCRMFS_SUCCESS then
    let chunk_id1 := chunk_id + 1
    let num0 := count - processed
    let num := if num0 > scrmfs_chunk_size cfg then scrmfs_chunk_size cfg else num0
    match scrmfs_chunk_read cfg m stor chunk_id1 0 buf ptr num with
    | none => none
    | some (rc1, buf1) =>
      scrmfs_fid_store_fixed_read_loop cfg m stor count chunk_id1 (ptr + num)
        (processed + num) rc1 buf1
  else
    some (rc, buf)
termination_by count - processed
decreasing_by
  have h : 0 < scrmfs_chunk_size cfg := by
    unfold scrmfs_chunk_size
    rw [Nat.one_shiftLeft]
    exact Nat.pos_pow_of_pos _ (by decide)
  split <;> omega

/-- The function `scrmfs_fid_store_fixed_read` (lines 362-403). -/
def scrmfs_fid_store_fixed_read (cfg : scrmfs_config) (m : scrmfs_filemeta_t)
    (stor : chunk_storage) (pos : Nat) (buf : Nat → UInt8) (count : Nat) :
    Option (scrmfs_rc × (Nat → UInt8)) :=
  let chunk_id := pos >>> cfg.scrmfs_chunk_bits
  let chunk_offset := pos &&& scrmfs_chunk_mask cfg
  let remaining := scrmfs_chunk_size cfg - chunk_offset
  if count ≤ remaining then
    scrmfs_chunk_read cfg m stor chunk_id chunk_offset buf 0 count
  else
    match scrmfs_chunk_read cfg m stor chunk_id chunk_offset buf 0 remaining with
    | none => none
    | some (rc, buf1) =>
      scrmfs_fid_store_fixed_read_loop cfg m stor count chunk_id remaining remaining rc buf1

/-- The loop `while (processed < count && rc == SCRMFS_SUCCESS)` of
`scrmfs_fid_store_fixed_write` (lines 428-444). -/
def scrmfs_fid_store_fixed_write_loop (cfg : scrmfs_config) (m : scrmfs_filemeta_t)
    (buf : Nat → UInt8) (count : Nat) (chunk_id ptr processed : Nat) (rc : scrmfs_rc)
    (stor : chunk_storage) : Option (scrmfs_rc × chunk_storage) :=
  if processed < count ∧ rc = SCRMFS_SUCCESS then
    let chunk_id1 := chunk_id + 1
    let num0 := count - processed
    let num := if num0 > scrmfs_chunk_size cfg then scrmfs_chunk_size cfg else num0
    match scrmfs_chunk_write cfg m stor chunk_id1 0 buf ptr num with
    | none => none
    | some (rc1, stor1) =>
      scrmfs_fid_store_fixed_write_loop cfg m buf count chunk_id1 (ptr + num)
        (processed + num) rc1 stor1
  else
    some (rc, stor)
termination_by count - processed
decreasing_by
  have h : 0 < scrmfs_chunk_size cfg := by
    unfold scrmfs_chunk_size
    rw [Nat.one_shiftLeft]
    exact Nat.pos_pow_of_pos _ (by decide)
  split <;> omega

/-- The function `scrmfs_fid_store_fixed_write` (lines 406-448). -/
def scrmfs_fid_store_fixed_write (cfg : scrmfs_config) (m : scrmfs_filemeta_t)
    (stor : chunk_storage) (pos : Nat) (buf : Nat → UInt8) (count : Nat) :
    Option (scrmfs_rc × chunk_storage) :=
  let chunk_id := pos >>> cfg.scrmfs_chunk_bits
  let chunk_offset := pos &&& scrmfs_chunk_mask cfg
  let remaining := scrmfs_chunk_size cfg - chunk_offset
  if count ≤ remaining then
    scrmfs_chunk_write cfg m stor chunk_id chunk_offset buf 0 count
  else
    match scrmfs_chunk_write cfg m stor chunk_id chunk_offset buf 0 remaining with
    | none => none
    | some (rc, stor1) =>
      scrmfs_fid_store_fixed_write_loop cfg m buf count chunk_id remaining remaining rc stor1

/-! ## Several files over the shared free stacks -/

/-- The files of the process, indexed by file id, with the two global free
stacks they share. -/
structure fixed_system where
  files : List scrmfs_filemeta_t
  free_chunk_stack : List Int
  free_spillchunk_stack : List Int
  deriving DecidableEq

/-- A call of one of the two capacity operations on the file `fid`. -/
inductive fixed_call where
  | extend (fid : Nat) (length : Int)
  | shrink (fid : Nat) (length : Int)
  deriving DecidableEq

/-- The state a call on file `fid` works on. -/
def fixed_system.select (sys : fixed_system) (fid : Nat) : Option fixed_state :=
  match sys.files[fid]? with
  | none => none
  | some m =>
    some { fmeta := m, free_chunk_stack := sys.free_chunk_stack,
           free_spillchunk_stack := sys.free_spillchunk_stack }

/-- The system after a call on file `fid` has left the state `st`. -/
def fixed_system.update (sys : fixed_system) (fid : Nat) (st : fixed_state) : fixed_system :=
  { files := sys.files.set fid st.fmeta,
    free_chunk_stack := st.free_chunk_stack,
    free_spillchunk_stack := st.free_spillchunk_stack }

/-- One call of `scrmfs_fid_store_fixed_extend` or
`scrmfs_fid_store_fixed_shrink` on a file of the system; `none` when the file id
is unknown or the call has undefined behaviour. -/
def fixed_system.call (cfg : scrmfs_config) (sys : fixed_system) (c : fixed_call) :
    Option (scrmfs_rc × fixed_system) :=
  match c with
  | fixed_call.extend fid length =>
    match sys.select fid with
    | none => none
    | some st =>
      match scrmfs_fid_store_fixed_extend cfg st length with
      | none => none
      | some (rc, st1) => some (rc, sys.update fid st1)
  | fixed_call.shrink fid length =>
    match sys.select fid with
    | none => none
    | some st =>
      match scrmfs_fid_store_fixed_shrink cfg st length with
      | none => none
      | some (rc, st1) => some (rc, sys.update fid st1)

/-- The states of the system reachable from `init` by calls of extend and
shrink, whatever their return code. -/
inductive fixed_reachable (cfg : scrmfs_config) (init : fixed_system) : fixed_system → Prop where
  | start : fixed_reachable cfg init init
  | call (sys sys1 : fixed_system) (c : fixed_call) (rc : scrmfs_rc) :
      fixed_reachable cfg init sys → sys.call cfg c = some (rc, sys1) →
      fixed_reachable cfg init sys1

/-! ## Vocabulary of the properties -/

/-- Capacity of a file in bytes, `chunk_count * chunk_size`. -/
def capacity (cfg : scrmfs_config) (m : scrmfs_filemeta_t) : Nat :=
  m.chunks * scrmfs_chunk_size cfg

/-- The first `k` iterations of the extend loop for the target `length`, when
each of them finds the capacity below the target, the chunk count different
from the per-file maximum and the allocation successful; `none` when one of
the `k` iterations is not of this kind. -/
def extend_iter (cfg : scrmfs_config) (length : Int) : Nat → fixed_state → Option fixed_state
  | 0, st => some st
  | k + 1, st =>
    if (capacity cfg st.fmeta : Int) < length ∧ st.fmeta.chunks ≠ cfg.scrmfs_max_chunks then
      match scrmfs_chunk_alloc cfg st st.fmeta.chunks with
      | some (SCRMFS_SUCCESS, st1) => extend_iter cfg length k (incr_chunks st1)
      | _ => none
    else none

/-- The allocation requested in state `st` fails: `scrmfs_chunk_alloc` returns
a code other than `SCRMFS_SUCCESS`. -/
def alloc_fails (cfg : scrmfs_config) (st : fixed_state) : Prop :=
  ∃ rc st1, scrmfs_chunk_alloc cfg st st.fmeta.chunks = some (rc, st1) ∧ rc ≠ SCRMFS_SUCCESS

/-- A descriptor is allocated: its location is the memory pool or the
spillover device. -/
def is_allocated (d : scrmfs_chunkmeta_t) : Prop :=
  d.location = CHUNK_LOCATION_MEMFS ∨ d.location = CHUNK_LOCATION_SPILLOVER

/-- The tier-id encoding of a descriptor: memory pool iff the physical id is
below `max_memory_chunks`, spillover device iff it is in
`max_memory_chunks .. max_memory_chunks + max_spill_chunks - 1`. -/
def tier_encoding (cfg : scrmfs_config) (d : scrmfs_chunkmeta_t) : Prop :=
  (d.location = CHUNK_LOCATION_MEMFS ↔ d.id < (cfg.scrmfs_max_chunks : Int)) ∧
  (d.location = CHUNK_LOCATION_SPILLOVER ↔
    ((cfg.scrmfs_max_chunks : Int) ≤ d.id ∧
      d.id < (cfg.scrmfs_max_chunks : Int) + (cfg.scrmfs_spillover_max_chunks : Int)))

/-- Every id of the stack is in `0 .. bound - 1`. -/
def ids_below (s : List Int) (bound : Nat) : Prop :=
  ∀ x ∈ s, 0 ≤ x ∧ x < (bound : Int)

/-- The metadata invariant of a file: the descriptors below `chunks` are
allocated, those from `chunks` on are unset. -/
def meta_invariant (m : scrmfs_filemeta_t) : Prop :=
  m.chunks ≤ m.chunk_meta.length ∧
  ∀ i d, m.chunk_meta[i]? = some d →
    (i < m.chunks → is_allocated d) ∧ (m.chunks ≤ i → d.location = CHUNK_LOCATION_NULL)

/-- The memory ids pushed by freeing the descriptors `ds` one after the other
from the last to the first, as they lie on the stack afterwards (top first). -/
def freed_memfs_ids (ds : List scrmfs_chunkmeta_t) : List Int :=
  (ds.filter (fun d => d.location = CHUNK_LOCATION_MEMFS)).map (fun d => d.id)

/-- The location a descriptor has after `scrmfs_chunk_free` was called on it. -/
def location_after_free (d : scrmfs_chunkmeta_t) : chunk_location :=
  if d.location = CHUNK_LOCATION_MEMFS ∨ d.location = CHUNK_LOCATION_SPILLOVER then
    CHUNK_LOCATION_NULL
  else d.location

/-- What a successful allocation at slot `i` has done: the slot holds a fresh
descriptor `d`, taken from the memory stack (then the spillover stack is as
before) or from the spillover stack; the stacks have only lost ids from their
top. -/
def alloc_success_spec (cfg : scrmfs_config) (st : fixed_state) (i : Nat) (st1 : fixed_state) :
    Prop :=
  ∃ d pm ps, i < st.fmeta.chunk_meta.length ∧
    st1.fmeta = { chunks := st.fmeta.chunks, chunk_meta := st.fmeta.chunk_meta.set i d } ∧
    st.free_chunk_stack = pm ++ st1.free_chunk_stack ∧
    st.free_spillchunk_stack = ps ++ st1.free_spillchunk_stack ∧
    ((d.location = CHUNK_LOCATION_MEMFS ∧ d.id ∈ pm ∧ 0 ≤ d.id ∧ ps = []) ∨
     (d.location = CHUNK_LOCATION_SPILLOVER ∧ d.id - (cfg.scrmfs_max_chunks : Int) ∈ ps ∧
        (cfg.scrmfs_max_chunks : Int) ≤ d.id))

/-- What a failed allocation at slot `i` has done: nothing to the chunk count,
nothing to the descriptors but, possibly, the location of slot `i` set to
unset; the stacks have only lost ids from their top. -/
def alloc_failure_spec (st : fixed_state) (i : Nat) (st1 : fixed_state) : Prop :=
  st1.fmeta.chunks = st.fmeta.chunks ∧
  (st1.fmeta.chunk_meta = st.fmeta.chunk_meta ∨
    ∃ d, st.fmeta.chunk_meta[i]? = some d ∧
      st1.fmeta.chunk_meta =
        st.fmeta.chunk_meta.set i { location := CHUNK_LOCATION_NULL, id := d.id }) ∧
  (∃ pm, st.free_chunk_stack = pm ++ st1.free_chunk_stack) ∧
  (∃ ps, st.free_spillchunk_stack = ps ++ st1.free_spillchunk_stack)

/-- The configuration of the spec's concrete scenario: `chunk_size = 4`
(`chunk_bits = 2`), `max_memory_chunks = 2`, `max_spill_chunks = 2`, both tiers
enabled. -/
def scenario_config : scrmfs_config :=
  { scrmfs_chunk_bits := 2, scrmfs_max_chunks := 2, scrmfs_spillover_max_chunks := 2,
    scrmfs_use_memfs := true, scrmfs_use_spillover := true, scrmfs_use_containers := false }

/-- An unset descriptor, as a file has them at creation. -/
def unset_descriptor : scrmfs_chunkmeta_t :=
  { location := CHUNK_LOCATION_NULL, id := 0 }

/-- The start of the spec's concrete scenario: a file with `chunk_count = 0`
and three unset descriptor slots, the memory free stack yielding the ids 0 then
1, the spillover free stack yielding the local ids 0 then 1. -/
def scenario_start : fixed_state :=
  { fmeta := { chunks := 0,
               chunk_meta := [unset_descriptor, unset_descriptor, unset_descriptor] },
    free_chunk_stack := [0, 1],
    free_spillchunk_stack := [0, 1] }

/-- How a run of the extend loop for the target `length` ends after its last
successful iteration has left the state `stk`: with success in `stk` once the
capacity has reached the target, or with `NoSpace` while the capacity is below
the target, the chunk count being at the per-file maximum (state `stk`) or the
allocation having failed (leaving `st1`). -/
def extend_outcome (cfg : scrmfs_config) (length : Int) (stk : fixed_state) (rc : scrmfs_rc)
    (st1 : fixed_state) : Prop :=
  (rc = SCRMFS_SUCCESS ∧ st1 = stk ∧ length ≤ (capacity cfg stk.fmeta : Int)) ∨
  (rc = SCRMFS_ERR_NOSPC ∧ (capacity cfg stk.fmeta : Int) < length ∧
    ((stk.fmeta.chunks = cfg.scrmfs_max_chunks ∧ st1 = stk) ∨
     (stk.fmeta.chunks ≠ cfg.scrmfs_max_chunks ∧
       ∃ rc1, scrmfs_chunk_alloc cfg stk stk.fmeta.chunks = some (rc1, st1) ∧
         rc1 ≠ SCRMFS_SUCCESS)))

/-- What `k` successful iterations of the extend loop, leading from `st` to
`stk`, have done: `k` chunks more, every iteration run below the target, below
the per-file maximum and on an existing slot, the descriptors outside
`chunks .. chunks + k - 1` untouched, the new descriptors filled with ids popped
from the top of the free stacks. -/
def extend_iter_post (cfg : scrmfs_config) (length : Int) (k : Nat) (st stk : fixed_state) :
    Prop :=
  stk.fmeta.chunks = st.fmeta.chunks + k ∧
  stk.fmeta.chunk_meta.length = st.fmeta.chunk_meta.length ∧
  (∀ j, j < k →
    (((st.fmeta.chunks + j) * scrmfs_chunk_size cfg : Nat) : Int) < length ∧
    st.fmeta.chunks + j < st.fmeta.chunk_meta.length ∧
    st.fmeta.chunks + j ≠ cfg.scrmfs_max_chunks) ∧
  (st.fmeta.chunks ≤ cfg.scrmfs_max_chunks → stk.fmeta.chunks ≤ cfg.scrmfs_max_chunks) ∧
  (∀ i, (i < st.fmeta.chunks ∨ st.fmeta.chunks + k ≤ i) →
    stk.fmeta.chunk_meta[i]? = st.fmeta.chunk_meta[i]?) ∧
  ∃ pm ps, st.free_chunk_stack = pm ++ stk.free_chunk_stack ∧
    st.free_spillchunk_stack = ps ++ stk.free_spillchunk_stack ∧
    ∀ i, st.fmeta.chunks ≤ i → i < st.fmeta.chunks + k →
      ∃ d, stk.fmeta.chunk_meta[i]? = some d ∧
        ((d.location = CHUNK_LOCATION_MEMFS ∧ d.id ∈ pm ∧ 0 ≤ d.id) ∨
         (d.location = CHUNK_LOCATION_SPILLOVER ∧ d.id - (cfg.scrmfs_max_chunks : Int) ∈ ps ∧
            (cfg.scrmfs_max_chunks : Int) ≤ d.id))

/-- The quotient `a / b` rounded up, for a positive `b`. -/
def ceil_div (a : Int) (b : Nat) : Int :=
  (a + (b : Int) - 1) / (b : Int)

/-- The state of the concrete scenario after two memory chunks were
allocated: `chunk_count = 2`, descriptors `{MemoryPool, 0}` and
`{MemoryPool, 1}`, the memory stack used up. -/
def scenario_extended : fixed_state :=
  { fmeta := { chunks := 2,
               chunk_meta := [{ location := CHUNK_LOCATION_MEMFS, id := 0 },
                              { location := CHUNK_LOCATION_MEMFS, id := 1 },
                              unset_descriptor] },
    free_chunk_stack := [],
    free_spillchunk_stack := [0, 1] }

/-- The descriptor left in a slot by `scrmfs_chunk_free`: the location is
cleared when the chunk was allocated, the physical id stays. -/
def freed_descriptor (d : scrmfs_chunkmeta_t) : scrmfs_chunkmeta_t :=
  { location := location_after_free d, id := d.id }

/-- The number of chunks `scrmfs_fid_store_fixed_shrink` keeps for a target
length, as the spec words it: 0 for the length 0, else
`(target_length >> chunk_bits) + 1`. -/
def shrink_target_chunks (cfg : scrmfs_config) (length : Int) : Int :=
  if length = 0 then 0 else (length >>> cfg.scrmfs_chunk_bits) + 1

/-- The spec's concrete scenario after its extend, as the spec describes it:
three chunks, two in the memory pool and one on the spillover device. -/
def scenario_three_chunks : fixed_state :=
  { fmeta := { chunks := 3,
               chunk_meta := [{ location := CHUNK_LOCATION_MEMFS, id := 0 },
                              { location := CHUNK_LOCATION_MEMFS, id := 1 },
                              { location := CHUNK_LOCATION_SPILLOVER, id := 2 }] },
    free_chunk_stack := [],
    free_spillchunk_stack := [1] }

/-- The live descriptors of a file exist and carry an id of the range of their
tier: `0 .. max_memory_chunks - 1` in the memory pool,
`max_memory_chunks .. max_memory_chunks + max_spill_chunks - 1` on the
spillover device. -/
def live_encoded (cfg : scrmfs_config) (m : scrmfs_filemeta_t) : Prop :=
  ∀ i, i < m.chunks → ∃ d, m.chunk_meta[i]? = some d ∧
    ((d.location = CHUNK_LOCATION_MEMFS ∧ 0 ≤ d.id ∧ d.id < (cfg.scrmfs_max_chunks : Int)) ∨
     (d.location = CHUNK_LOCATION_SPILLOVER ∧ (cfg.scrmfs_max_chunks : Int) ≤ d.id ∧
        d.id < (cfg.scrmfs_max_chunks : Int) + (cfg.scrmfs_spillover_max_chunks : Int)))

/-- A system with the one file of the concrete scenario, not yet extended. -/
def scenario_system : fixed_system :=
  { files := [scenario_start.fmeta],
    free_chunk_stack := scenario_start.free_chunk_stack,
    free_spillchunk_stack := scenario_start.free_spillchunk_stack }

/-- The system of the concrete scenario after the call extending file 0 to 10
bytes. -/
def scenario_system_extended : fixed_system :=
  { files := [scenario_extended.fmeta],
    free_chunk_stack := scenario_extended.free_chunk_stack,
    free_spillchunk_stack := scenario_extended.free_spillchunk_stack }

/-- The state invariant behind the tier-id encoding: both free stacks hold ids
of their range and the live descriptors carry ids of the range of their
tier. -/
def encoded_state (cfg : scrmfs_config) (st : fixed_state) : Prop :=
  (ids_below st.free_chunk_stack cfg.scrmfs_max_chunks ∧
    ids_below st.free_spillchunk_stack cfg.scrmfs_spillover_max_chunks) ∧
  live_encoded cfg st.fmeta

/-- Byte `r` of the logical chunk `j` of a file, as it lies in the memory pool
or on the spillover device. -/
def chunk_byte (cfg : scrmfs_config) (m : scrmfs_filemeta_t) (stor : chunk_storage)
    (j r : Nat) : UInt8 :=
  match m.chunk_meta[j]? with
  | none => 0
  | some d =>
    if d.location = CHUNK_LOCATION_MEMFS then
      stor.scrmfs_chunks (shl_chunk_bits cfg d.id + (r : Int))
    else if d.location = CHUNK_LOCATION_SPILLOVER then
      stor.scrmfs_spilloverblock
        (shl_chunk_bits cfg (d.id - (cfg.scrmfs_max_chunks : Int)) + (r : Int))
    else 0

/-- Byte at the offset `x` of a file: byte `x mod chunk_size` of the logical
chunk `x / chunk_size`. -/
def file_byte (cfg : scrmfs_config) (m : scrmfs_filemeta_t) (stor : chunk_storage)
    (x : Nat) : UInt8 :=
  chunk_byte cfg m stor (x / scrmfs_chunk_size cfg) (x % scrmfs_chunk_size cfg)

/-- The descriptors below the chunk count exist, are allocated and satisfy the
tier-id encoding. -/
def allocated_encoded (cfg : scrmfs_config) (m : scrmfs_filemeta_t) : Prop :=
  ∀ i, i < m.chunks → ∃ d, m.chunk_meta[i]? = some d ∧ is_allocated d ∧ tier_encoding cfg d

/-- The descriptors below the chunk count have pairwise distinct physical
ids. -/
def distinct_ids (m : scrmfs_filemeta_t) : Prop :=
  ∀ i j di dj, i < m.chunks → j < m.chunks →
    m.chunk_meta[i]? = some di → m.chunk_meta[j]? = some dj → di.id = dj.id → i = j

/-- A file with one chunk in the memory pool and one further, unset descriptor
slot; its capacity is one chunk. -/
def one_chunk_file : scrmfs_filemeta_t :=
  { chunks := 1,
    chunk_meta := [{ location := CHUNK_LOCATION_MEMFS, id := 0 }, unset_descriptor] }

/-- A memory pool and a spillover device filled with zero bytes. -/
def zero_storage : chunk_storage :=
  { scrmfs_chunks := fun _ => 0, scrmfs_spilloverblock := fun _ => 0 }

/-- A caller buffer filled with zero bytes. -/
def zero_buffer : Nat → UInt8 :=
  fun _ => 0

/-- The constant `SCRMFS_MAX_MEM` of `scrmfs-defs.h` (the branch without
`MACHINE_BGQ`). -/
def SCRMFS_MAX_MEM : Nat := 256 * 1024 * 1024

/-- The constant `SCRMFS_SPILLOVER_SIZE` of `scrmfs-defs.h`. -/
def SCRMFS_SPILLOVER_SIZE : Nat := 1 * 1024 * 1024 * 1024

/-- The constant `SCRMFS_CHUNK_BITS` of `scrmfs-defs.h`. -/
def SCRMFS_CHUNK_BITS : Nat := 24

/-- The constant `SCRMFS_MAX_CHUNKS` of `scrmfs-defs.h`. -/
def SCRMFS_MAX_CHUNKS : Nat := SCRMFS_MAX_MEM >>> SCRMFS_CHUNK_BITS

/-- The constant `SCRMFS_MAX_SPILL_CHUNKS` of `scrmfs-defs.h`. -/
def SCRMFS_MAX_SPILL_CHUNKS : Nat := SCRMFS_SPILLOVER_SIZE >>> SCRMFS_CHUNK_BITS

/-- The value a 32-bit C `int` holds for the mathematical value `x`: `x`
wrapped into `-2^31 .. 2^31 - 1`. -/
def int32_wrap (x : Int) : Int :=
  (x + 2 ^ 31) % 2 ^ 32 - 2 ^ 31

/-- One chunk-level call `scrmfs_chunk_read` or `scrmfs_chunk_write` as the
read and write of a byte range issue them: the logical chunk, the offset in
the chunk, the offset `ptr` of the pointer in the caller buffer and the number
of bytes. -/
structure chunk_segment where
  chunk_id : Nat
  chunk_offset : Nat
  ptr : Nat
  count : Nat
  deriving DecidableEq

/-- The chunk-level calls of the loop of `scrmfs_fid_store_fixed_read` (lines
383-399) and of `scrmfs_fid_store_fixed_write` (lines 428-444), the two loops
being the same, as long as no call fails: the loop with the test on `rc` left
out and the calls collected. -/
def fixed_loop_segments (cfg : scrmfs_config) (count chunk_id ptr processed : Nat) :
    List chunk_segment :=
  if processed < count then
    let chunk_id1 := chunk_id + 1
    let num0 := count - processed
    let num := if num0 > scrmfs_chunk_size cfg then scrmfs_chunk_size cfg else num0
    { chunk_id := chunk_id1, chunk_offset := 0, ptr := ptr, count := num } ::
      fixed_loop_segments cfg count chunk_id1 (ptr + num) (processed + num)
  else
    []
termination_by count - processed
decreasing_by
  have h : 0 < scrmfs_chunk_size cfg := by
    unfold scrmfs_chunk_size
    rw [Nat.one_shiftLeft]
    exact Nat.pos_pow_of_pos _ (by decide)
  split <;> omega

/-- The chunk-level calls of `scrmfs_fid_store_fixed_read` (lines 367-399) and
of `scrmfs_fid_store_fixed_write` (lines 411-444) for the range `pos, count`,
as long as no call fails. -/
def fixed_segments (cfg : scrmfs_config) (pos count : Nat) : List chunk_segment :=
  let chunk_id := pos >>> cfg.scrmfs_chunk_bits
  let chunk_offset := pos &&& scrmfs_chunk_mask cfg
  let remaining := scrmfs_chunk_size cfg - chunk_offset
  if count ≤ remaining then
    [{ chunk_id := chunk_id, chunk_offset := chunk_offset, ptr := 0, count := count }]
  else
    { chunk_id := chunk_id, chunk_offset := chunk_offset, ptr := 0, count := remaining } ::
      fixed_loop_segments cfg count chunk_id remaining remaining

/-- The calls `scrmfs_chunk_read` of a list of segments issued in order, up to
and including the first one that does not return `SCRMFS_SUCCESS`. -/
def read_segments (cfg : scrmfs_config) (m : scrmfs_filemeta_t) (stor : chunk_storage) :
    List chunk_segment → (Nat → UInt8) → Option (scrmfs_rc × (Nat → UInt8))
  | [], buf => some (SCRMFS_SUCCESS, buf)
  | s :: rest, buf =>
    match scrmfs_chunk_read cfg m stor s.chunk_id s.chunk_offset buf s.ptr s.count with
    | none => none
    | some (rc, buf1) =>
      if rc = SCRMFS_SUCCESS then read_segments cfg m stor rest buf1 else some (rc, buf1)

/-- The calls `scrmfs_chunk_write` of a list of segments issued in order, up
to and including the first one that does not return `SCRMFS_SUCCESS`. -/
def write_segments (cfg : scrmfs_config) (m : scrmfs_filemeta_t) (buf : Nat → UInt8) :
    List chunk_segment → chunk_storage → Option (scrmfs_rc × chunk_storage)
  | [], stor => some (SCRMFS_SUCCESS, stor)
  | s :: rest, stor =>
    match scrmfs_chunk_write cfg m stor s.chunk_id s.chunk_offset buf s.ptr s.count with
    | none => none
    | some (rc, stor1) =>
      if rc = SCRMFS_SUCCESS then write_segments cfg m buf rest stor1 else some (rc, stor1)

/-- The chunk-level call on the logical chunk `c` returns `SCRMFS_SUCCESS`:
the slot exists and holds a spillover chunk, or a memory chunk whose id is
below `scrmfs_max_chunks` (so that the chunk address is not `NULL`). -/
def chunk_call_succeeds (cfg : scrmfs_config) (m : scrmfs_filemeta_t) (c : Nat) : Prop :=
  ∃ d, m.chunk_meta[c]? = some d ∧
    ((d.location = CHUNK_LOCATION_MEMFS ∧ d.id < (cfg.scrmfs_max_chunks : Int)) ∨
      d.location = CHUNK_LOCATION_SPILLOVER)

/-- The number of bytes of the loop iteration that starts with `processed`
bytes done: `num = count - processed`, cut down to the chunk size (lines
388-391 and 433-436). -/
def loop_num (cfg : scrmfs_config) (count processed : Nat) : Nat :=
  if count - processed > scrmfs_chunk_size cfg then scrmfs_chunk_size cfg
  else count - processed

/-- The id of a descriptor is on the free stack of its tier: the physical id
of a memory descriptor on `free_chunk_stack`, the spillover-local id
`physical_id - max_memory_chunks` of a spillover descriptor on
`free_spillchunk_stack`. -/
def on_free_stack (cfg : scrmfs_config) (mem spill : List Int) (d : scrmfs_chunkmeta_t) :
    Prop :=
  (d.location = CHUNK_LOCATION_MEMFS ∧ d.id ∈ mem) ∨
    (d.location = CHUNK_LOCATION_SPILLOVER ∧ d.id - (cfg.scrmfs_max_chunks : Int) ∈ spill)

/-- The `(location, physical_id)` pairs of the live descriptors (index below
the chunk count) of all files are pairwise distinct: two equal live
descriptors are the same slot of the same file. -/
def live_distinct (sys : fixed_system) : Prop :=
  ∀ (f g i j : Nat) (m n : scrmfs_filemeta_t) (d e : scrmfs_chunkmeta_t),
    sys.files[f]? = some m → sys.files[g]? = some n → i < m.chunks → j < n.chunks →
    m.chunk_meta[i]? = some d → n.chunk_meta[j]? = some e → d = e → f = g ∧ i = j

/-- No live descriptor of any file has its id on the free stack of its
tier. -/
def live_off_stacks (cfg : scrmfs_config) (sys : fixed_system) : Prop :=
  ∀ (f i : Nat) (m : scrmfs_filemeta_t) (d : scrmfs_chunkmeta_t),
    sys.files[f]? = some m → i < m.chunks → m.chunk_meta[i]? = some d →
    ¬ on_free_stack cfg sys.free_chunk_stack sys.free_spillchunk_stack d

/-- The state a call works on holds no chunk twice, `others` being the live
descriptors of the other files: each free stack holds pairwise distinct ids,
the live descriptors of the file are pairwise distinct and none of them is
one of `others`, and no live descriptor, of the file or of `others`, has its
id on the free stack of its tier. -/
def exclusive_state (cfg : scrmfs_config) (others : scrmfs_chunkmeta_t → Prop)
    (st : fixed_state) : Prop :=
  st.free_chunk_stack.Nodup ∧ st.free_spillchunk_stack.Nodup ∧
  (∀ (i j : Nat) (d : scrmfs_chunkmeta_t), i < st.fmeta.chunks → j < st.fmeta.chunks →
    st.fmeta.chunk_meta[i]? = some d → st.fmeta.chunk_meta[j]? = some d → i = j) ∧
  (∀ (i : Nat) (d : scrmfs_chunkmeta_t), i < st.fmeta.chunks →
    st.fmeta.chunk_meta[i]? = some d →
    ¬ others d ∧ ¬ on_free_stack cfg st.free_chunk_stack st.free_spillchunk_stack d) ∧
  (∀ d : scrmfs_chunkmeta_t, others d →
    ¬ on_free_stack cfg st.free_chunk_stack st.free_spillchunk_stack d)

/-- The live descriptors of the files of a system other than the file
`fid`. -/
def other_live (sys : fixed_system) (fid : Nat) (d : scrmfs_chunkmeta_t) : Prop :=
  ∃ (g j : Nat) (n : scrmfs_filemeta_t), g ≠ fid ∧ sys.files[g]? = some n ∧ j < n.chunks ∧
    n.chunk_meta[j]? = some d

/-- The no-double-allocation invariant of a system. -/
def no_double_allocation (cfg : scrmfs_config) (sys : fixed_system) : Prop :=
  sys.free_chunk_stack.Nodup ∧ sys.free_spillchunk_stack.Nodup ∧ live_distinct sys ∧
    live_off_stacks cfg sys

/-- Two files of one chunk that both hold the memory chunk 0, with both free
stacks empty. -/
def duplicate_system : fixed_system :=
  { files := [one_chunk_file, one_chunk_file],
    free_chunk_stack := [],
    free_spillchunk_stack := [] }

/-! # Properties of the embedding -/

/-! ## Arithmetic of the chunk size -/

theorem scrmfs_chunk_size_eq (cfg : scrmfs_config) :
    scrmfs_chunk_size cfg = 2 ^ cfg.scrmfs_chunk_bits := by
  unfold scrmfs_chunk_size
  rw [Nat.one_shiftLeft]

theorem scrmfs_chunk_size_pos (cfg : scrmfs_config) : 0 < scrmfs_chunk_size cfg := by
  rw [scrmfs_chunk_size_eq]
  exact Nat.pos_pow_of_pos _ (by decide)

theorem shiftLeft_chunk_bits (cfg : scrmfs_config) (n : Nat) :
    n <<< cfg.scrmfs_chunk_bits = n * scrmfs_chunk_size cfg := by
  rw [Nat.shiftLeft_eq, scrmfs_chunk_size_eq]

/-! ## Descriptor stores -/

theorem store_chunkmeta_eq_some {m m1 : scrmfs_filemeta_t} {i : Nat} {cm : scrmfs_chunkmeta_t}
    (h : store_chunkmeta m i cm = some m1) :
    i < m.chunk_meta.length ∧ m1 = { chunks := m.chunks, chunk_meta := m.chunk_meta.set i cm } := by
  unfold store_chunkmeta at h
  split at h
  · rename_i hi
    exact ⟨hi, (Option.some.inj h).symm⟩
  · cases h

theorem store_chunkmeta_of_lt (m : scrmfs_filemeta_t) {i : Nat} (cm : scrmfs_chunkmeta_t)
    (h : i < m.chunk_meta.length) :
    store_chunkmeta m i cm = some { chunks := m.chunks, chunk_meta := m.chunk_meta.set i cm } := by
  unfold store_chunkmeta
  rw [if_pos h]

/-! ## Outcomes of an allocation -/

theorem scrmfs_stack_pop_split (s : List Int) :
    (s = [] ∧ scrmfs_stack_pop s = (-1, [])) ∨
    (∃ x r, s = x :: r ∧ scrmfs_stack_pop s = (x, r)) := by
  cases s with
  | nil => exact Or.inl ⟨rfl, rfl⟩
  | cons x r => exact Or.inr ⟨x, r, rfl, rfl⟩

theorem scrmfs_stack_pop_suffix (s : List Int) :
    ∃ p, s = p ++ (scrmfs_stack_pop s).2 ∧
      (0 ≤ (scrmfs_stack_pop s).1 → (scrmfs_stack_pop s).1 ∈ p) := by
  cases s with
  | nil => exact ⟨[], rfl, fun h => absurd h (by decide)⟩
  | cons x r => exact ⟨[x], rfl, fun _ => List.mem_singleton.mpr rfl⟩

theorem alloc_spill_success {cfg : scrmfs_config} {st st1 : fixed_state} {i : Nat}
    (h : scrmfs_chunk_alloc_spill cfg st i = some (SCRMFS_SUCCESS, st1)) :
    ∃ d ps, i < st.fmeta.chunk_meta.length ∧
      st1.fmeta = { chunks := st.fmeta.chunks, chunk_meta := st.fmeta.chunk_meta.set i d } ∧
      st1.free_chunk_stack = st.free_chunk_stack ∧
      st.free_spillchunk_stack = ps ++ st1.free_spillchunk_stack ∧
      d.location = CHUNK_LOCATION_SPILLOVER ∧ d.id - (cfg.scrmfs_max_chunks : Int) ∈ ps ∧
      (cfg.scrmfs_max_chunks : Int) ≤ d.id := by
  unfold scrmfs_chunk_alloc_spill at h
  obtain ⟨p, hp, hmem⟩ := scrmfs_stack_pop_suffix st.free_spillchunk_stack
  simp only at h
  split at h
  · cases h
  · rename_i hge
    split at h
    · cases h
    · rename_i m hm
      obtain ⟨hi, hm1⟩ := store_chunkmeta_eq_some hm
      cases h
      refine ⟨_, p, hi, hm1, rfl, hp, rfl, ?_, ?_⟩
      · simp only [add_sub_cancel_right]
        exact hmem (by omega)
      · simp only
        omega

theorem alloc_spill_failure {cfg : scrmfs_config} {st st1 : fixed_state} {i : Nat}
    {rc : scrmfs_rc} (h : scrmfs_chunk_alloc_spill cfg st i = some (rc, st1))
    (hrc : rc ≠ SCRMFS_SUCCESS) :
    rc = SCRMFS_ERR_NOSPC ∧ st1.fmeta = st.fmeta ∧
      st1.free_chunk_stack = st.free_chunk_stack ∧
      ∃ ps, st.free_spillchunk_stack = ps ++ st1.free_spillchunk_stack := by
  unfold scrmfs_chunk_alloc_spill at h
  obtain ⟨p, hp, _⟩ := scrmfs_stack_pop_suffix st.free_spillchunk_stack
  simp only at h
  split at h
  · cases h
    exact ⟨rfl, rfl, rfl, p, hp⟩
  · split at h
    · cases h
    · cases h
      exact absurd rfl hrc

theorem alloc_success {cfg : scrmfs_config} {st st1 : fixed_state} {i : Nat}
    (h : scrmfs_chunk_alloc cfg st i = some (SCRMFS_SUCCESS, st1)) :
    alloc_success_spec cfg st i st1 := by
  unfold scrmfs_chunk_alloc at h
  obtain ⟨p, hp, hmem⟩ := scrmfs_stack_pop_suffix st.free_chunk_stack
  simp only at h
  split at h
  · split at h
    · rename_i hge
      split at h
      · cases h
      · rename_i m hm
        obtain ⟨hi, hm1⟩ := store_chunkmeta_eq_some hm
        cases h
        exact ⟨_, p, [], hi, hm1, hp, rfl, Or.inl ⟨rfl, hmem hge, hge, rfl⟩⟩
    · split at h
      · obtain ⟨d, ps, hi, hm1, hfc, hsp, hl, hin, hge⟩ := alloc_spill_success h
        exact ⟨d, p, ps, hi, hm1, by rw [hfc]; exact hp, hsp, Or.inr ⟨hl, hin, hge⟩⟩
      · cases h
  · split at h
    · obtain ⟨d, ps, hi, hm1, hfc, hsp, hl, hin, hge⟩ := alloc_spill_success h
      exact ⟨d, [], ps, hi, hm1, by rw [hfc]; rfl, hsp, Or.inr ⟨hl, hin, hge⟩⟩
    · split at h
      · cases h
      · split at h
        · cases h
        · cases h

theorem store_location_eq_some {m m1 : scrmfs_filemeta_t} {i : Nat} {loc : chunk_location}
    (h : store_location m i loc = some m1) :
    ∃ d, m.chunk_meta[i]? = some d ∧
      m1 = { chunks := m.chunks,
             chunk_meta := m.chunk_meta.set i { location := loc, id := d.id } } := by
  unfold store_location at h
  split at h
  · cases h
  · rename_i d hd
    exact ⟨d, hd, (store_chunkmeta_eq_some h).2⟩

theorem alloc_failure {cfg : scrmfs_config} {st st1 : fixed_state} {i : Nat} {rc : scrmfs_rc}
    (h : scrmfs_chunk_alloc cfg st i = some (rc, st1)) (hrc : rc ≠ SCRMFS_SUCCESS) :
    alloc_failure_spec st i st1 := by
  unfold scrmfs_chunk_alloc at h
  obtain ⟨p, hp, _⟩ := scrmfs_stack_pop_suffix st.free_chunk_stack
  simp only at h
  split at h
  · split at h
    · split at h
      · cases h
      · cases h
        exact absurd rfl hrc
    · split at h
      · obtain ⟨_, hm, hfc, ps, hsp⟩ := alloc_spill_failure h hrc
        exact ⟨by rw [hm], Or.inl (by rw [hm]), ⟨p, by rw [hfc]; exact hp⟩, ps, hsp⟩
      · cases h
        exact ⟨rfl, Or.inl rfl, ⟨p, hp⟩, [], rfl⟩
  · split at h
    · obtain ⟨_, hm, hfc, ps, hsp⟩ := alloc_spill_failure h hrc
      exact ⟨by rw [hm], Or.inl (by rw [hm]), ⟨[], by rw [hfc]; rfl⟩, ps, hsp⟩
    · split at h
      · cases h
        exact ⟨rfl, Or.inl rfl, ⟨[], rfl⟩, [], rfl⟩
      · split at h
        · cases h
        · rename_i m hm
          obtain ⟨d, hd, hm1⟩ := store_location_eq_some hm
          cases h
          exact ⟨by rw [hm1], Or.inr ⟨d, hd, by rw [hm1]⟩, ⟨[], rfl⟩, [], rfl⟩

/-! ## The tiering algorithm of `scrmfs_chunk_alloc` -/

/-- C8: `scrmfs_chunk_alloc` on an existing descriptor slot follows the tiering
algorithm.  (a) Memory tier enabled and its stack non-empty with top id `id`
(ids are non-negative): the id is popped, the descriptor becomes
`{MemoryPool, id}`, the spillover stack is unchanged, success.  (b) Otherwise
(memory tier disabled or its stack empty), spillover tier enabled and its stack
non-empty with top local id `s`: `s` is popped, the descriptor becomes
`{SpilloverDevice, s + max_memory_chunks}`, success.  (c) Some tier enabled and
the stack of every enabled tier empty: `NoSpace`, descriptor (and the whole
state) unchanged.  (d) The call returns `IOError` if and only if neither tier
is enabled. -/
theorem C8_scrmfs_chunk_alloc_tiering (cfg : scrmfs_config) (st : fixed_state) (chunk_id : Nat)
    (hslot : chunk_id < st.fmeta.chunk_meta.length) :
    (∀ id rest, cfg.scrmfs_use_memfs = true → st.free_chunk_stack = id :: rest → 0 ≤ id →
      scrmfs_chunk_alloc cfg st chunk_id = some (SCRMFS_SUCCESS,
        { fmeta := { chunks := st.fmeta.chunks,
                     chunk_meta := st.fmeta.chunk_meta.set chunk_id
                       { location := CHUNK_LOCATION_MEMFS, id := id } },
          free_chunk_stack := rest,
          free_spillchunk_stack := st.free_spillchunk_stack })) ∧
    (∀ s rest, (cfg.scrmfs_use_memfs = false ∨ st.free_chunk_stack = []) →
      cfg.scrmfs_use_spillover = true → st.free_spillchunk_stack = s :: rest → 0 ≤ s →
      scrmfs_chunk_alloc cfg st chunk_id = some (SCRMFS_SUCCESS,
        { fmeta := { chunks := st.fmeta.chunks,
                     chunk_meta := st.fmeta.chunk_meta.set chunk_id
                       { location := CHUNK_LOCATION_SPILLOVER,
                         id := s + (cfg.scrmfs_max_chunks : Int) } },
          free_chunk_stack := st.free_chunk_stack,
          free_spillchunk_stack := rest })) ∧
    ((cfg.scrmfs_use_memfs = true ∨ cfg.scrmfs_use_spillover = true) →
      (cfg.scrmfs_use_memfs = true → st.free_chunk_stack = []) →
      (cfg.scrmfs_use_spillover = true → st.free_spillchunk_stack = []) →
      scrmfs_chunk_alloc cfg st chunk_id = some (SCRMFS_ERR_NOSPC, st)) ∧
    (∃ rc st1, scrmfs_chunk_alloc cfg st chunk_id = some (rc, st1) ∧
      (rc = SCRMFS_ERR_IO ↔
        (cfg.scrmfs_use_memfs = false ∧ cfg.scrmfs_use_spillover = false))) := by
  obtain ⟨⟨n, descs⟩, ms, ss⟩ := st
  simp only at hslot
  refine ⟨?_, ?_, ?_, ?_⟩
  · intro id rest hm hs hid
    simp only at hs
    subst hs
    simp [scrmfs_chunk_alloc, hm, scrmfs_stack_pop, hid, store_chunkmeta, hslot]
  · intro s rest hm hsp hs hs0
    simp only at hs hm
    subst hs
    rcases hm with hm | hm
    · simp [scrmfs_chunk_alloc, hm, hsp, scrmfs_chunk_alloc_spill, scrmfs_stack_pop, hs0,
        store_chunkmeta, hslot]
    · subst hm
      cases hmf : cfg.scrmfs_use_memfs <;>
        simp [scrmfs_chunk_alloc, hmf, hsp, scrmfs_chunk_alloc_spill, scrmfs_stack_pop, hs0,
          store_chunkmeta, hslot]
  · intro hen hm hs
    simp only at hm hs
    cases hmf : cfg.scrmfs_use_memfs <;> cases hsf : cfg.scrmfs_use_spillover
    · simp [hmf, hsf] at hen
    · have := hs hsf
      subst this
      simp [scrmfs_chunk_alloc, hmf, hsf, scrmfs_chunk_alloc_spill, scrmfs_stack_pop]
    · have := hm hmf
      subst this
      simp [scrmfs_chunk_alloc, hmf, hsf, scrmfs_stack_pop]
    · have h1 := hm hmf
      have h2 := hs hsf
      subst h1
      subst h2
      simp [scrmfs_chunk_alloc, hmf, hsf, scrmfs_chunk_alloc_spill, scrmfs_stack_pop]
  · have hget : ∃ d, descs[chunk_id]? = some d := ⟨descs[chunk_id], List.getElem?_eq_getElem hslot⟩
    obtain ⟨d, hd⟩ := hget
    cases hmf : cfg.scrmfs_use_memfs <;> cases hsf : cfg.scrmfs_use_spillover
    · cases hcf : cfg.scrmfs_use_containers
      · simp [scrmfs_chunk_alloc, hmf, hsf, hcf, store_location, hd, store_chunkmeta, hslot]
      · simp [scrmfs_chunk_alloc, hmf, hsf, hcf]
    · simp only [scrmfs_chunk_alloc, hmf, hsf, scrmfs_chunk_alloc_spill, store_chunkmeta, hslot]
      simp only [Bool.false_eq_true, if_false, if_true]
      split <;> simp
    · simp only [scrmfs_chunk_alloc, hmf, hsf, store_chunkmeta, hslot]
      simp only [Bool.false_eq_true, if_false, if_true]
      split <;> simp
    · simp only [scrmfs_chunk_alloc, hmf, hsf, scrmfs_chunk_alloc_spill, store_chunkmeta, hslot]
      simp only [Bool.false_eq_true, if_false, if_true]
      split
      · simp
      · split <;> simp

/-! ## The concrete scenario -/

theorem extend_loop_unfold (cfg : scrmfs_config) (st : fixed_state) (additional : Int) :
    scrmfs_fid_store_fixed_extend_loop cfg st additional =
      if additional > 0 then
        if st.fmeta.chunks = cfg.scrmfs_max_chunks then
          some (SCRMFS_ERR_NOSPC, st)
        else
          match scrmfs_chunk_alloc cfg st st.fmeta.chunks with
          | none => none
          | some (rc, st1) =>
            if rc ≠ SCRMFS_SUCCESS then
              some (SCRMFS_ERR_NOSPC, st1)
            else
              scrmfs_fid_store_fixed_extend_loop cfg (incr_chunks st1)
                (additional - (scrmfs_chunk_size cfg : Int))
      else
        some (SCRMFS_SUCCESS, st) := by
  rw [scrmfs_fid_store_fixed_extend_loop]

theorem shrink_loop_unfold (st : fixed_state) (num_chunks : Int) :
    scrmfs_fid_store_fixed_shrink_loop st num_chunks =
      if (st.fmeta.chunks : Int) > num_chunks then
        if st.fmeta.chunks = 0 then none
        else
          match scrmfs_chunk_free (decr_chunks st) (decr_chunks st).fmeta.chunks with
          | none => none
          | some (_, st2) => scrmfs_fid_store_fixed_shrink_loop st2 num_chunks
      else
        some st := by
  rw [scrmfs_fid_store_fixed_shrink_loop]
  split
  · split
    · rfl
    · split <;> simp_all
  · rfl

/-- C3 (as stated, refuted): in the scenario `chunk_bits = 2`,
`max_memory_chunks = 2`, `max_spill_chunks = 2`, both tiers enabled, memory
stack yielding 0 then 1, spillover stack yielding 0, extend to
`target_length = 10` on a file with `chunk_count = 0` does not return success
with `chunk_count = 3` and the descriptors `{MemoryPool, 0}`, `{MemoryPool, 1}`,
`{SpilloverDevice, 2}`. -/
theorem C3_extend_scenario_refuted :
    ¬ ∃ st1, scrmfs_fid_store_fixed_extend scenario_config scenario_start 10 =
          some (SCRMFS_SUCCESS, st1) ∧
        st1.fmeta.chunks = 3 ∧
        st1.fmeta.chunk_meta[0]? = some { location := CHUNK_LOCATION_MEMFS, id := 0 } ∧
        st1.fmeta.chunk_meta[1]? = some { location := CHUNK_LOCATION_MEMFS, id := 1 } ∧
        st1.fmeta.chunk_meta[2]? = some { location := CHUNK_LOCATION_SPILLOVER, id := 2 } := by
  rintro ⟨st1, h, -⟩
  simp [scrmfs_fid_store_fixed_extend, scenario_config, scenario_start, extend_loop_unfold,
    scrmfs_chunk_alloc, scrmfs_stack_pop, store_chunkmeta, incr_chunks, scrmfs_chunk_size] at h

/-- C3 (amended): in the scenario `chunk_bits = 2`, `max_memory_chunks = 2`
(which is also the per-file maximum chunk count), both tiers enabled, memory
stack yielding 0 then 1, spillover stack yielding 0, extend to
`target_length = 10` on a file with `chunk_count = 0` returns `NoSpace` and
leaves `chunk_count = 2` with descriptor 0 = `{MemoryPool, 0}` and descriptor
1 = `{MemoryPool, 1}`; the further descriptors and the spillover stack are
untouched. -/
theorem C3_extend_scenario_amended (d0 d1 : scrmfs_chunkmeta_t)
    (rest : List scrmfs_chunkmeta_t) (ms ss : List Int) :
    scrmfs_fid_store_fixed_extend scenario_config
        { fmeta := { chunks := 0, chunk_meta := d0 :: d1 :: rest },
          free_chunk_stack := 0 :: 1 :: ms,
          free_spillchunk_stack := 0 :: ss } 10 =
      some (SCRMFS_ERR_NOSPC,
        { fmeta := { chunks := 2,
                     chunk_meta := { location := CHUNK_LOCATION_MEMFS, id := 0 } ::
                       { location := CHUNK_LOCATION_MEMFS, id := 1 } :: rest },
          free_chunk_stack := ms,
          free_spillchunk_stack := 0 :: ss }) := by
  simp [scrmfs_fid_store_fixed_extend, scenario_config, extend_loop_unfold,
    scrmfs_chunk_alloc, scrmfs_stack_pop, store_chunkmeta, incr_chunks, scrmfs_chunk_size]

/-! ## Shrink and the return code of `scrmfs_chunk_free` -/

/-- C7 (the code at the failing input): on a file with `chunk_count = 1` whose
descriptor 0 is unset, `scrmfs_chunk_free` on slot 0 returns `IOError`, and
yet `scrmfs_fid_store_fixed_shrink` to length 0 returns success and has
decremented `chunk_count` to 0. -/
theorem C7_shrink_drops_free_error :
    scrmfs_chunk_free
        { fmeta := { chunks := 0, chunk_meta := [unset_descriptor] },
          free_chunk_stack := [], free_spillchunk_stack := [] } 0 =
      some ( SCRMFS_ERR_IO,
        { fmeta := { chunks := 0, chunk_meta := [unset_descriptor] },
          free_chunk_stack := [], free_spillchunk_stack := [] }) ∧
    scrmfs_fid_store_fixed_shrink scenario_config
        { fmeta := { chunks := 1, chunk_meta := [unset_descriptor] },
          free_chunk_stack := [], free_spillchunk_stack := [] } 0 =
      some (SCRMFS_SUCCESS,
        { fmeta := { chunks := 0, chunk_meta := [unset_descriptor] },
          free_chunk_stack := [], free_spillchunk_stack := [] }) := by
  constructor
  · simp [scrmfs_chunk_free, unset_descriptor]
  · simp [scrmfs_fid_store_fixed_shrink, shrink_loop_unfold, decr_chunks, scrmfs_chunk_free,
      unset_descriptor]

/-! ## Runs of the extend loop -/

theorem capacity_cast (cfg : scrmfs_config) (m : scrmfs_filemeta_t) :
    ((capacity cfg m : Nat) : Int) = (m.chunks : Int) * (scrmfs_chunk_size cfg : Int) := by
  unfold capacity
  push_cast
  rfl

theorem capacity_incr_chunks (cfg : scrmfs_config) (st : fixed_state) :
    capacity cfg (incr_chunks st).fmeta = capacity cfg st.fmeta + scrmfs_chunk_size cfg := by
  unfold capacity incr_chunks
  simp only
  rw [Nat.add_mul, Nat.one_mul]

theorem alloc_success_chunks {cfg : scrmfs_config} {st st1 : fixed_state} {i : Nat}
    (h : scrmfs_chunk_alloc cfg st i = some (SCRMFS_SUCCESS, st1)) :
    st1.fmeta.chunks = st.fmeta.chunks := by
  obtain ⟨d, pm, ps, _, hm, _⟩ := alloc_success h
  rw [hm]

theorem extend_iter_zero (cfg : scrmfs_config) (length : Int) (st : fixed_state) :
    extend_iter cfg length 0 st = some st := rfl

theorem extend_iter_succ (cfg : scrmfs_config) (length : Int) (k : Nat) (st stk : fixed_state) :
    extend_iter cfg length (k + 1) st = some stk ↔
      ((capacity cfg st.fmeta : Int) < length ∧ st.fmeta.chunks ≠ cfg.scrmfs_max_chunks ∧
        ∃ st1, scrmfs_chunk_alloc cfg st st.fmeta.chunks = some (SCRMFS_SUCCESS, st1) ∧
          extend_iter cfg length k (incr_chunks st1) = some stk) := by
  constructor
  · intro h
    unfold extend_iter at h
    split at h
    · rename_i hc
      split at h
      · rename_i st1 hal
        exact ⟨hc.1, hc.2, st1, hal, h⟩
      · cases h
    · cases h
  · rintro ⟨h1, h2, st1, hal, hk⟩
    unfold extend_iter
    rw [if_pos ⟨h1, h2⟩, hal]
    exact hk

theorem extend_loop_run (cfg : scrmfs_config) (length : Int) (n : Nat) :
    ∀ (st : fixed_state) (a : Int), a.toNat ≤ n →
      a = length - (capacity cfg st.fmeta : Int) →
      ∀ rc st1, scrmfs_fid_store_fixed_extend_loop cfg st a = some (rc, st1) →
        ∃ k stk, extend_iter cfg length k st = some stk ∧
          extend_outcome cfg length stk rc st1 := by
  induction n with
  | zero =>
    intro st a ha hcap rc st1 h
    rw [extend_loop_unfold, if_neg (by omega)] at h
    cases h
    exact ⟨0, st, rfl, Or.inl ⟨rfl, rfl, by omega⟩⟩
  | succ n ih =>
    intro st a ha hcap rc st1 h
    rw [extend_loop_unfold] at h
    split at h
    · rename_i hpos
      split at h
      · rename_i hmax
        cases h
        exact ⟨0, st, rfl, Or.inr ⟨rfl, by omega, Or.inl ⟨hmax, rfl⟩⟩⟩
      · rename_i hmax
        split at h
        · cases h
        · rename_i rc1 st2 hal
          split at h
          · rename_i hrc
            cases h
            exact ⟨0, st, rfl, Or.inr ⟨rfl, by omega, Or.inr ⟨hmax, rc1, hal, hrc⟩⟩⟩
          · rename_i hrc
            have hrc1 : rc1 = SCRMFS_SUCCESS := by
              by_contra hne
              exact hrc hne
            subst hrc1
            have hcs := scrmfs_chunk_size_pos cfg
            have hcap1 : capacity cfg (incr_chunks st2).fmeta =
                capacity cfg st.fmeta + scrmfs_chunk_size cfg := by
              rw [capacity_incr_chunks]
              unfold capacity
              rw [alloc_success_chunks hal]
            obtain ⟨k, stk, hk, hout⟩ := ih (incr_chunks st2)
              (a - (scrmfs_chunk_size cfg : Int)) (by omega) (by rw [hcap1]; push_cast; omega)
              rc st1 h
            exact ⟨k + 1, stk,
              (extend_iter_succ cfg length k st stk).mpr ⟨by omega, hmax, st2, hal, hk⟩, hout⟩
    · cases h
      exact ⟨0, st, rfl, Or.inl ⟨rfl, rfl, by omega⟩⟩

theorem extend_run {cfg : scrmfs_config} {st st1 : fixed_state} {length : Int} {rc : scrmfs_rc}
    (h : scrmfs_fid_store_fixed_extend cfg st length = some (rc, st1)) :
    ∃ k stk, extend_iter cfg length k st = some stk ∧ extend_outcome cfg length stk rc st1 := by
  unfold scrmfs_fid_store_fixed_extend at h
  simp only [shiftLeft_chunk_bits] at h
  have hc : ((st.fmeta.chunks * scrmfs_chunk_size cfg : Nat) : Int) =
      (capacity cfg st.fmeta : Int) := rfl
  rw [hc] at h
  split at h
  · exact extend_loop_run cfg length _ st _ (le_refl _) rfl rc st1 h
  · rename_i hle
    cases h
    exact ⟨0, st, rfl, Or.inl ⟨rfl, rfl, by omega⟩⟩

@[simp] theorem incr_chunks_chunks (st : fixed_state) :
    (incr_chunks st).fmeta.chunks = st.fmeta.chunks + 1 := rfl

@[simp] theorem incr_chunks_chunk_meta (st : fixed_state) :
    (incr_chunks st).fmeta.chunk_meta = st.fmeta.chunk_meta := rfl

@[simp] theorem incr_chunks_free_chunk_stack (st : fixed_state) :
    (incr_chunks st).free_chunk_stack = st.free_chunk_stack := rfl

@[simp] theorem incr_chunks_free_spillchunk_stack (st : fixed_state) :
    (incr_chunks st).free_spillchunk_stack = st.free_spillchunk_stack := rfl

theorem extend_iter_spec (cfg : scrmfs_config) (length : Int) :
    ∀ (k : Nat) (st stk : fixed_state), extend_iter cfg length k st = some stk →
      extend_iter_post cfg length k st stk := by
  intro k
  induction k with
  | zero =>
    intro st stk h
    cases h
    refine ⟨rfl, rfl, ?_, fun h => h, fun _ _ => rfl, [], [], rfl, rfl, ?_⟩
    · intro j hj
      omega
    · intro i h1 h2
      omega
  | succ k ih =>
    intro st stk h
    obtain ⟨hcap, hmax, st1, hal, hk⟩ := (extend_iter_succ cfg length k st stk).mp h
    obtain ⟨d, pm1, ps1, hi, hm1, hms, hss, hd⟩ := alloc_success hal
    obtain ⟨hc, hl, hj, hmx, hfr, pm2, ps2, hms2, hss2, hnew⟩ := ih (incr_chunks st1) stk hk
    simp only [incr_chunks_chunks, incr_chunks_chunk_meta, incr_chunks_free_chunk_stack,
      incr_chunks_free_spillchunk_stack, hm1, List.length_set] at hc hl hj hmx hfr hms2 hss2 hnew
    have hd2 : (d.location = CHUNK_LOCATION_MEMFS ∧ d.id ∈ pm1 ++ pm2 ∧ 0 ≤ d.id) ∨
        (d.location = CHUNK_LOCATION_SPILLOVER ∧
          d.id - (cfg.scrmfs_max_chunks : Int) ∈ ps1 ++ ps2 ∧
          (cfg.scrmfs_max_chunks : Int) ≤ d.id) := by
      rcases hd with ⟨a, b, c, -⟩ | ⟨a, b, c⟩
      · exact Or.inl ⟨a, List.mem_append_left _ b, c⟩
      · exact Or.inr ⟨a, List.mem_append_left _ b, c⟩
    refine ⟨by omega, hl, ?_, ?_, ?_, pm1 ++ pm2, ps1 ++ ps2, ?_, ?_, ?_⟩
    · intro j hjk
      rcases Nat.eq_zero_or_pos j with hj0 | hj0
      · subst hj0
        exact ⟨hcap, hi, hmax⟩
      · have := hj (j - 1) (by omega)
        have e : st.fmeta.chunks + 1 + (j - 1) = st.fmeta.chunks + j := by omega
        rw [e] at this
        exact this
    · intro hle
      exact hmx (by omega)
    · intro i hi2
      rw [hfr i (by omega), List.getElem?_set_ne (by omega)]
    · rw [hms, hms2, List.append_assoc]
    · rw [hss, hss2, List.append_assoc]
    · intro i h1 h2
      rcases Nat.eq_or_lt_of_le h1 with heq | hlt
      · subst heq
        refine ⟨d, ?_, hd2⟩
        rw [hfr _ (Or.inl (Nat.lt_succ_self _)), List.getElem?_set_self hi]
      · obtain ⟨d2, hd2a, hd2b⟩ := hnew i (by omega) (by omega)
        refine ⟨d2, hd2a, ?_⟩
        rcases hd2b with ⟨a, b, c⟩ | ⟨a, b, c⟩
        · exact Or.inl ⟨a, List.mem_append_right _ b, c⟩
        · exact Or.inr ⟨a, List.mem_append_right _ b, c⟩

theorem ceil_div_eq_of_bounds {a : Int} {b : Nat} {m : Int} (hb : 0 < b)
    (h1 : (m - 1) * (b : Int) < a) (h2 : a ≤ m * (b : Int)) : ceil_div a b = m := by
  unfold ceil_div
  have hb' : (0 : Int) < (b : Int) := by exact_mod_cast hb
  apply le_antisymm
  · have : (a + (b : Int) - 1) / (b : Int) < m + 1 := by
      apply Int.ediv_lt_of_lt_mul hb'
      have e : (m + 1) * (b : Int) = m * (b : Int) + (b : Int) := by ring
      rw [e]
      omega
    omega
  · apply Int.le_ediv_of_mul_le hb'
    have e : (m - 1) * (b : Int) = m * (b : Int) - (b : Int) := by ring
    rw [e] at h1
    omega

theorem ceil_div_le_of_le {a : Int} {b : Nat} {m : Int} (hb : 0 < b)
    (h2 : a ≤ m * (b : Int)) : ceil_div a b ≤ m := by
  unfold ceil_div
  have hb' : (0 : Int) < (b : Int) := by exact_mod_cast hb
  have : (a + (b : Int) - 1) / (b : Int) < m + 1 := by
    apply Int.ediv_lt_of_lt_mul hb'
    have e : (m + 1) * (b : Int) = m * (b : Int) + (b : Int) := by ring
    rw [e]
    omega
  omega

theorem extend_of_le_capacity (cfg : scrmfs_config) (st : fixed_state) (length : Int)
    (h : length ≤ (capacity cfg st.fmeta : Int)) :
    scrmfs_fid_store_fixed_extend cfg st length = some (SCRMFS_SUCCESS, st) := by
  unfold scrmfs_fid_store_fixed_extend
  simp only [shiftLeft_chunk_bits]
  have hc : ((st.fmeta.chunks * scrmfs_chunk_size cfg : Nat) : Int) =
      (capacity cfg st.fmeta : Int) := rfl
  rw [hc, if_neg (by omega)]

/-- C2: if `scrmfs_fid_store_fixed_extend` returns success on a file with
`chunk_count = n`, the new chunk count is `max(n, ceil(target_length /
chunk_size))`: the capacity covers the target, no surplus chunk is allocated,
the chunk count does not decrease and the descriptors below `n` are unchanged;
when `target_length <= n * chunk_size` the whole state (metadata and both free
stacks) is unchanged, and extending the result again to the same target
returns success without changing it. -/
theorem C2_extend_postcondition (cfg : scrmfs_config) (st st1 : fixed_state) (length : Int)
    (h : scrmfs_fid_store_fixed_extend cfg st length = some (SCRMFS_SUCCESS, st1)) :
    (st1.fmeta.chunks : Int) =
        max (st.fmeta.chunks : Int) (ceil_div length (scrmfs_chunk_size cfg)) ∧
      length ≤ (capacity cfg st1.fmeta : Int) ∧
      (st.fmeta.chunks < st1.fmeta.chunks →
        (((st1.fmeta.chunks - 1) * scrmfs_chunk_size cfg : Nat) : Int) < length) ∧
      st.fmeta.chunks ≤ st1.fmeta.chunks ∧
      (∀ i, i < st.fmeta.chunks → st1.fmeta.chunk_meta[i]? = st.fmeta.chunk_meta[i]?) ∧
      (length ≤ (capacity cfg st.fmeta : Int) → st1 = st) ∧
      scrmfs_fid_store_fixed_extend cfg st1 length = some (SCRMFS_SUCCESS, st1) := by
  have hcs := scrmfs_chunk_size_pos cfg
  obtain ⟨k, stk, hk, hout⟩ := extend_run h
  obtain ⟨hc, hl, hj, hmx, hfr, -⟩ := extend_iter_spec cfg length k st stk hk
  rcases hout with ⟨-, hst, hcap⟩ | ⟨hrc, -⟩
  · subst hst
    have hsurplus : st.fmeta.chunks < st1.fmeta.chunks →
        (((st1.fmeta.chunks - 1) * scrmfs_chunk_size cfg : Nat) : Int) < length := by
      intro hlt
      have := (hj (k - 1) (by omega)).1
      have e : st.fmeta.chunks + (k - 1) = st1.fmeta.chunks - 1 := by omega
      rw [e] at this
      exact this
    refine ⟨?_, hcap, hsurplus, by omega, fun i hi => hfr i (Or.inl hi), ?_,
      extend_of_le_capacity cfg st1 length hcap⟩
    · rw [capacity_cast] at hcap
      rcases Nat.eq_zero_or_pos k with hk0 | hk0
      · subst hk0
        cases hk
        rw [max_eq_left]
        exact ceil_div_le_of_le hcs hcap
      · have hs := hsurplus (by omega)
        have e : ceil_div length (scrmfs_chunk_size cfg) = (st1.fmeta.chunks : Int) := by
          apply ceil_div_eq_of_bounds hcs _ hcap
          have e2 : ((st1.fmeta.chunks - 1 : Nat) : Int) = (st1.fmeta.chunks : Int) - 1 := by
            omega
          rw [← e2]
          exact_mod_cast hs
        rw [e, max_eq_right]
        omega
    · intro hle
      rcases Nat.eq_zero_or_pos k with hk0 | hk0
      · subst hk0
        cases hk
        rfl
      · exfalso
        have := (hj 0 hk0).1
        simp only [Nat.add_zero] at this
        unfold capacity at hle
        omega
  · cases hrc

theorem scenario_extend_8 :
    scrmfs_fid_store_fixed_extend scenario_config scenario_start 8 =
      some (SCRMFS_SUCCESS, scenario_extended) := by
  simp [scrmfs_fid_store_fixed_extend, scenario_config, scenario_start, scenario_extended,
    extend_loop_unfold, scrmfs_chunk_alloc, scrmfs_stack_pop, store_chunkmeta, incr_chunks,
    scrmfs_chunk_size]

theorem scenario_extend_10 :
    scrmfs_fid_store_fixed_extend scenario_config scenario_start 10 =
      some (SCRMFS_ERR_NOSPC, scenario_extended) := by
  simp [scrmfs_fid_store_fixed_extend, scenario_config, scenario_start, scenario_extended,
    extend_loop_unfold, scrmfs_chunk_alloc, scrmfs_stack_pop, store_chunkmeta, incr_chunks,
    scrmfs_chunk_size]

/-- C2 (witness): in the concrete scenario extend to 8 bytes returns success
with two chunks, and 2 = max(0, ceil(8 / 4)). -/
theorem C2_extend_postcondition_witness :
    scrmfs_fid_store_fixed_extend scenario_config scenario_start 8 =
        some (SCRMFS_SUCCESS, scenario_extended) ∧
      (scenario_extended.fmeta.chunks : Int) =
        max (scenario_start.fmeta.chunks : Int)
          (ceil_div 8 (scrmfs_chunk_size scenario_config)) :=
  ⟨scenario_extend_8,
    (C2_extend_postcondition scenario_config scenario_start scenario_extended 8
      scenario_extend_8).1⟩

/-- C8 (witness): in the start state of the concrete scenario slot 0 exists,
and the allocation pops the memory id 0 into it. -/
theorem C8_scrmfs_chunk_alloc_tiering_witness :
    0 < scenario_start.fmeta.chunk_meta.length ∧
      scrmfs_chunk_alloc scenario_config scenario_start 0 = some (SCRMFS_SUCCESS,
        { fmeta := { chunks := scenario_start.fmeta.chunks,
                     chunk_meta := scenario_start.fmeta.chunk_meta.set 0
                       { location := CHUNK_LOCATION_MEMFS, id := 0 } },
          free_chunk_stack := [1],
          free_spillchunk_stack := scenario_start.free_spillchunk_stack }) :=
  ⟨by decide,
    (C8_scrmfs_chunk_alloc_tiering scenario_config scenario_start 0 (by decide)).1 0 [1] rfl rfl
      (le_refl 0)⟩

/-! ## Failure of extend -/

theorem alloc_defined (cfg : scrmfs_config) (st : fixed_state) (i : Nat)
    (h : i < st.fmeta.chunk_meta.length) :
    ∃ rc st1, scrmfs_chunk_alloc cfg st i = some (rc, st1) := by
  have hget : ∃ d, st.fmeta.chunk_meta[i]? = some d :=
    ⟨st.fmeta.chunk_meta[i], List.getElem?_eq_getElem h⟩
  obtain ⟨d, hd⟩ := hget
  unfold scrmfs_chunk_alloc scrmfs_chunk_alloc_spill store_location
  simp only [store_chunkmeta_of_lt _ _ h, hd]
  split
  · split
    · exact ⟨_, _, rfl⟩
    · split
      · split <;> exact ⟨_, _, rfl⟩
      · exact ⟨_, _, rfl⟩
  · split
    · split <;> exact ⟨_, _, rfl⟩
    · split <;> exact ⟨_, _, rfl⟩

theorem alloc_length {cfg : scrmfs_config} {st st1 : fixed_state} {i : Nat} {rc : scrmfs_rc}
    (h : scrmfs_chunk_alloc cfg st i = some (rc, st1)) :
    st1.fmeta.chunk_meta.length = st.fmeta.chunk_meta.length ∧
      st1.fmeta.chunks = st.fmeta.chunks := by
  by_cases hrc : rc = SCRMFS_SUCCESS
  · subst hrc
    obtain ⟨d, pm, ps, _, hm, _⟩ := alloc_success h
    rw [hm]
    exact ⟨List.length_set _ _ _, rfl⟩
  · obtain ⟨hc, hm, _⟩ := alloc_failure h hrc
    refine ⟨?_, hc⟩
    rcases hm with hm | ⟨d, _, hm⟩
    · rw [hm]
    · rw [hm, List.length_set]

theorem extend_loop_defined (cfg : scrmfs_config) (n : Nat) :
    ∀ (st : fixed_state) (a : Int), a.toNat ≤ n →
      st.fmeta.chunks ≤ cfg.scrmfs_max_chunks →
      cfg.scrmfs_max_chunks ≤ st.fmeta.chunk_meta.length →
      ∃ rc st1, scrmfs_fid_store_fixed_extend_loop cfg st a = some (rc, st1) := by
  induction n with
  | zero =>
    intro st a ha _ _
    rw [extend_loop_unfold, if_neg (by omega)]
    exact ⟨_, _, rfl⟩
  | succ n ih =>
    intro st a ha hmax hlen
    rw [extend_loop_unfold]
    split
    · split
      · exact ⟨_, _, rfl⟩
      · rename_i hne
        obtain ⟨rc1, st2, hal⟩ := alloc_defined cfg st st.fmeta.chunks (by omega)
        rw [hal]
        simp only
        split
        · exact ⟨_, _, rfl⟩
        · have hcs := scrmfs_chunk_size_pos cfg
          obtain ⟨hl2, hc2⟩ := alloc_length hal
          apply ih
          · omega
          · simp only [incr_chunks_chunks]
            omega
          · simp only [incr_chunks_chunk_meta]
            omega
    · exact ⟨_, _, rfl⟩

theorem extend_loop_nospc (cfg : scrmfs_config) (length : Int) :
    ∀ (k : Nat) (st stk : fixed_state), extend_iter cfg length k st = some stk →
      (capacity cfg stk.fmeta : Int) < length →
      (stk.fmeta.chunks = cfg.scrmfs_max_chunks ∨ alloc_fails cfg stk) →
      ∀ a : Int, a = length - (capacity cfg st.fmeta : Int) →
        ∃ st1, scrmfs_fid_store_fixed_extend_loop cfg st a = some (SCRMFS_ERR_NOSPC, st1) := by
  intro k
  induction k with
  | zero =>
    intro st stk h hcap hfail a ha
    cases h
    rw [extend_loop_unfold, if_pos (by omega)]
    split
    · exact ⟨_, rfl⟩
    · rename_i hne
      rcases hfail with hmax | ⟨rc1, st2, hal, hrc⟩
      · exact absurd hmax hne
      · rw [hal]
        simp only
        rw [if_pos hrc]
        exact ⟨_, rfl⟩
  | succ k ih =>
    intro st stk h hcap hfail a ha
    obtain ⟨hlt, hne, st2, hal, hk⟩ := (extend_iter_succ cfg length k st stk).mp h
    rw [extend_loop_unfold, if_pos (by omega), if_neg hne, hal]
    simp only [ne_eq, not_true_eq_false, if_false]
    apply ih (incr_chunks st2) stk hk hcap hfail
    have hcap1 : capacity cfg (incr_chunks st2).fmeta =
        capacity cfg st.fmeta + scrmfs_chunk_size cfg := by
      rw [capacity_incr_chunks]
      unfold capacity
      rw [alloc_success_chunks hal]
    rw [hcap1]
    push_cast
    omega

/-- C4: on a file whose chunk count is at most the per-file maximum
`scrmfs_max_chunks` (and whose descriptor array has that many slots),
`scrmfs_fid_store_fixed_extend` returns `NoSpace` if and only if, after some
number of successful iterations and with the capacity still below the target,
the chunk count has reached the per-file maximum or the allocation fails
(with whatever code); otherwise it returns success.  It never returns
`IOError`; the chunk count never exceeds the per-file maximum, at the end and
at every iteration, so every allocation is requested for an index below the
maximum. -/
theorem C4_extend_failure_condition (cfg : scrmfs_config) (st : fixed_state) (length : Int)
    (hn : st.fmeta.chunks ≤ cfg.scrmfs_max_chunks)
    (hslots : cfg.scrmfs_max_chunks ≤ st.fmeta.chunk_meta.length) :
    ∃ rc st1, scrmfs_fid_store_fixed_extend cfg st length = some (rc, st1) ∧
      (rc = SCRMFS_ERR_NOSPC ↔
        ∃ k stk, extend_iter cfg length k st = some stk ∧
          (capacity cfg stk.fmeta : Int) < length ∧
          (stk.fmeta.chunks = cfg.scrmfs_max_chunks ∨ alloc_fails cfg stk)) ∧
      (rc ≠ SCRMFS_ERR_NOSPC → rc = SCRMFS_SUCCESS) ∧
      rc ≠ SCRMFS_ERR_IO ∧
      st1.fmeta.chunks ≤ cfg.scrmfs_max_chunks ∧
      (∀ k stk, extend_iter cfg length k st = some stk →
        stk.fmeta.chunks ≤ cfg.scrmfs_max_chunks ∧
        ((capacity cfg stk.fmeta : Int) < length →
          stk.fmeta.chunks ≠ cfg.scrmfs_max_chunks →
          stk.fmeta.chunks < cfg.scrmfs_max_chunks)) := by
  have hdef : ∃ rc st1, scrmfs_fid_store_fixed_extend cfg st length = some (rc, st1) := by
    unfold scrmfs_fid_store_fixed_extend
    simp only
    split
    · exact extend_loop_defined cfg _ st _ (le_refl _) hn hslots
    · exact ⟨_, _, rfl⟩
  obtain ⟨rc, st1, h⟩ := hdef
  obtain ⟨k, stk, hk, hout⟩ := extend_run h
  have hstk := (extend_iter_spec cfg length k st stk hk).2.2.2.1 hn
  have hiter : ∀ k stk, extend_iter cfg length k st = some stk →
      stk.fmeta.chunks ≤ cfg.scrmfs_max_chunks ∧
      ((capacity cfg stk.fmeta : Int) < length →
        stk.fmeta.chunks ≠ cfg.scrmfs_max_chunks →
        stk.fmeta.chunks < cfg.scrmfs_max_chunks) := by
    intro k2 stk2 hk2
    have := (extend_iter_spec cfg length k2 st stk2 hk2).2.2.2.1 hn
    exact ⟨this, fun _ hne => Nat.lt_of_le_of_ne this hne⟩
  have hback : (∃ k stk, extend_iter cfg length k st = some stk ∧
      (capacity cfg stk.fmeta : Int) < length ∧
      (stk.fmeta.chunks = cfg.scrmfs_max_chunks ∨ alloc_fails cfg stk)) →
      rc = SCRMFS_ERR_NOSPC := by
    rintro ⟨k2, stk2, hk2, hcap2, hfail2⟩
    have hlt : (capacity cfg st.fmeta : Int) < length := by
      have hc2 := (extend_iter_spec cfg length k2 st stk2 hk2).1
      have hcs := scrmfs_chunk_size_pos cfg
      have : capacity cfg st.fmeta ≤ capacity cfg stk2.fmeta := by
        unfold capacity
        rw [hc2]
        exact Nat.mul_le_mul_right _ (Nat.le_add_right _ _)
      omega
    obtain ⟨st2, h2⟩ := extend_loop_nospc cfg length k2 st stk2 hk2 hcap2 hfail2 _ rfl
    unfold scrmfs_fid_store_fixed_extend at h
    simp only [shiftLeft_chunk_bits] at h
    have hc : ((st.fmeta.chunks * scrmfs_chunk_size cfg : Nat) : Int) =
        (capacity cfg st.fmeta : Int) := rfl
    rw [hc, if_pos (by omega), h2] at h
    cases h
    rfl
  refine ⟨rc, st1, h, ⟨?_, hback⟩, ?_, ?_, ?_, hiter⟩
  · intro hrc
    rcases hout with ⟨hs, -⟩ | ⟨-, hcap, hor⟩
    · rw [hs] at hrc
      cases hrc
    · refine ⟨k, stk, hk, hcap, ?_⟩
      rcases hor with ⟨hmax, -⟩ | ⟨-, rc1, hal, hrc1⟩
      · exact Or.inl hmax
      · exact Or.inr ⟨rc1, st1, hal, hrc1⟩
  · intro hne
    rcases hout with ⟨hs, -⟩ | ⟨hs, -⟩
    · exact hs
    · exact absurd hs hne
  · rcases hout with ⟨hs, -⟩ | ⟨hs, -⟩ <;> rw [hs] <;> decide
  · rcases hout with ⟨-, hs, -⟩ | ⟨-, -, hor⟩
    · rw [hs]
      exact hstk
    · rcases hor with ⟨-, hs⟩ | ⟨-, rc1, hal, -⟩
      · rw [hs]
        exact hstk
      · rw [(alloc_length hal).2]
        exact hstk

/-- C4 (witness): the start state of the concrete scenario has 0 chunks, at
most the per-file maximum 2, and 3 descriptor slots; extend to 10 bytes
returns a code other than `IOError` and leaves at most 2 chunks. -/
theorem C4_extend_failure_condition_witness :
    scenario_start.fmeta.chunks ≤ scenario_config.scrmfs_max_chunks ∧
      scenario_config.scrmfs_max_chunks ≤ scenario_start.fmeta.chunk_meta.length ∧
      ∃ rc st1, scrmfs_fid_store_fixed_extend scenario_config scenario_start 10 =
          some (rc, st1) ∧
        rc ≠ SCRMFS_ERR_IO ∧ st1.fmeta.chunks ≤ scenario_config.scrmfs_max_chunks := by
  refine ⟨by decide, by decide, ?_⟩
  obtain ⟨rc, st1, h, -, -, hio, hmax, -⟩ :=
    C4_extend_failure_condition scenario_config scenario_start 10 (by decide) (by decide)
  exact ⟨rc, st1, h, hio, hmax⟩

/-! ## No rollback of a failed extend -/

/-- C5: if `scrmfs_fid_store_fixed_extend` returns `NoSpace` on a file with
`chunk_count = n` after `k` successful iterations (allocations), the new chunk
count is `n + k`, the descriptors below `n` are unchanged, the descriptors
`n .. n + k - 1` hold the chunks allocated by these iterations (memory pool or
spillover device, with an id popped from the matching free stack), and the
free stacks are what is left below the popped ids: no popped id was pushed
back (with pairwise distinct ids on a stack, none of the ids handed out is on
it any more). -/
theorem C5_extend_no_rollback (cfg : scrmfs_config) (st st1 : fixed_state) (length : Int)
    (h : scrmfs_fid_store_fixed_extend cfg st length = some (SCRMFS_ERR_NOSPC, st1)) :
    ∃ k stk, extend_iter cfg length k st = some stk ∧
      st1.fmeta.chunks = st.fmeta.chunks + k ∧
      (∀ i, i < st.fmeta.chunks → st1.fmeta.chunk_meta[i]? = st.fmeta.chunk_meta[i]?) ∧
      ∃ pm ps, st.free_chunk_stack = pm ++ st1.free_chunk_stack ∧
        st.free_spillchunk_stack = ps ++ st1.free_spillchunk_stack ∧
        ∀ i, st.fmeta.chunks ≤ i → i < st.fmeta.chunks + k →
          ∃ d, st1.fmeta.chunk_meta[i]? = some d ∧ stk.fmeta.chunk_meta[i]? = some d ∧
            ((d.location = CHUNK_LOCATION_MEMFS ∧ d.id ∈ pm ∧
                (st.free_chunk_stack.Nodup → d.id ∉ st1.free_chunk_stack)) ∨
             (d.location = CHUNK_LOCATION_SPILLOVER ∧
                d.id - (cfg.scrmfs_max_chunks : Int) ∈ ps ∧
                (st.free_spillchunk_stack.Nodup →
                  d.id - (cfg.scrmfs_max_chunks : Int) ∉ st1.free_spillchunk_stack))) := by
  obtain ⟨k, stk, hk, hout⟩ := extend_run h
  obtain ⟨hc, hl, hj, hmx, hfr, pm, ps, hms, hss, hnew⟩ := extend_iter_spec cfg length k st stk hk
  have key : st1.fmeta.chunks = stk.fmeta.chunks ∧
      (∀ i, i < stk.fmeta.chunks → st1.fmeta.chunk_meta[i]? = stk.fmeta.chunk_meta[i]?) ∧
      (∃ pm2, stk.free_chunk_stack = pm2 ++ st1.free_chunk_stack) ∧
      (∃ ps2, stk.free_spillchunk_stack = ps2 ++ st1.free_spillchunk_stack) := by
    rcases hout with ⟨hs, -⟩ | ⟨-, -, hor⟩
    · cases hs
    · rcases hor with ⟨-, hs⟩ | ⟨-, rc1, hal, hrc1⟩
      · subst hs
        exact ⟨rfl, fun _ _ => rfl, ⟨[], rfl⟩, ⟨[], rfl⟩⟩
      · obtain ⟨hc2, hm2, hpm2, hps2⟩ := alloc_failure hal hrc1
        refine ⟨hc2, ?_, hpm2, hps2⟩
        intro i hi
        rcases hm2 with hm2 | ⟨d, -, hm2⟩
        · rw [hm2]
        · rw [hm2, List.getElem?_set_ne (by omega)]
  obtain ⟨hc1, hsame, ⟨pm2, hpm2⟩, ⟨ps2, hps2⟩⟩ := key
  refine ⟨k, stk, hk, by omega, ?_, pm ++ pm2, ps ++ ps2, ?_, ?_, ?_⟩
  · intro i hi
    rw [hsame i (by omega), hfr i (Or.inl hi)]
  · rw [hms, hpm2, List.append_assoc]
  · rw [hss, hps2, List.append_assoc]
  · intro i h1 h2
    obtain ⟨d, hd, hdd⟩ := hnew i h1 h2
    refine ⟨d, by rw [hsame i (by omega), hd], hd, ?_⟩
    rcases hdd with ⟨a, b, -⟩ | ⟨a, b, -⟩
    · refine Or.inl ⟨a, List.mem_append_left _ b, ?_⟩
      intro hnd
      rw [hms, hpm2, ← List.append_assoc] at hnd
      exact List.disjoint_left.mp (List.nodup_append.mp hnd).2.2 (List.mem_append_left _ b)
    · refine Or.inr ⟨a, List.mem_append_left _ b, ?_⟩
      intro hnd
      rw [hss, hps2, ← List.append_assoc] at hnd
      exact List.disjoint_left.mp (List.nodup_append.mp hnd).2.2 (List.mem_append_left _ b)

/-- C5 (witness): in the concrete scenario extend to 10 bytes returns
`NoSpace`; the two chunks allocated before the failure stay with the file. -/
theorem C5_extend_no_rollback_witness :
    scrmfs_fid_store_fixed_extend scenario_config scenario_start 10 =
        some (SCRMFS_ERR_NOSPC, scenario_extended) ∧
      ∃ k, scenario_extended.fmeta.chunks = scenario_start.fmeta.chunks + k := by
  refine ⟨scenario_extend_10, ?_⟩
  obtain ⟨k, -, -, hk, -⟩ :=
    C5_extend_no_rollback scenario_config scenario_start scenario_extended 10 scenario_extend_10
  exact ⟨k, hk⟩

/-! ## Shrink -/

@[simp] theorem decr_chunks_chunks (st : fixed_state) :
    (decr_chunks st).fmeta.chunks = st.fmeta.chunks - 1 := rfl

@[simp] theorem decr_chunks_chunk_meta (st : fixed_state) :
    (decr_chunks st).fmeta.chunk_meta = st.fmeta.chunk_meta := rfl

@[simp] theorem decr_chunks_free_chunk_stack (st : fixed_state) :
    (decr_chunks st).free_chunk_stack = st.free_chunk_stack := rfl

@[simp] theorem decr_chunks_free_spillchunk_stack (st : fixed_state) :
    (decr_chunks st).free_spillchunk_stack = st.free_spillchunk_stack := rfl

theorem freed_memfs_ids_append (l1 l2 : List scrmfs_chunkmeta_t) :
    freed_memfs_ids (l1 ++ l2) = freed_memfs_ids l1 ++ freed_memfs_ids l2 := by
  unfold freed_memfs_ids
  rw [List.filter_append, List.map_append]

theorem freed_memfs_ids_singleton (d : scrmfs_chunkmeta_t) :
    freed_memfs_ids [d] = if d.location = CHUNK_LOCATION_MEMFS then [d.id] else [] := by
  unfold freed_memfs_ids
  by_cases h : d.location = CHUNK_LOCATION_MEMFS <;> simp [h]

theorem set_freed_descriptor_of_not_allocated (l : List scrmfs_chunkmeta_t) (i : Nat)
    (d : scrmfs_chunkmeta_t) (hd : l[i]? = some d)
    (h1 : d.location ≠ CHUNK_LOCATION_MEMFS) (h2 : d.location ≠ CHUNK_LOCATION_SPILLOVER) :
    l.set i (freed_descriptor d) = l := by
  have e : freed_descriptor d = d := by
    unfold freed_descriptor location_after_free
    simp [h1, h2]
  rw [e]
  apply List.ext_getElem?
  intro j
  rw [List.getElem?_set]
  split
  · rename_i hij
    subst hij
    rw [hd]
    have : i < l.length := by
      by_contra hlt
      rw [List.getElem?_eq_none (by omega)] at hd
      cases hd
    rw [if_pos this]
  · rfl

/-- The effect of `scrmfs_chunk_free` on an existing slot. -/
theorem scrmfs_chunk_free_spec (st : fixed_state) (i : Nat) (d : scrmfs_chunkmeta_t)
    (hd : st.fmeta.chunk_meta[i]? = some d) :
    scrmfs_chunk_free st i = some
      (if d.location = CHUNK_LOCATION_MEMFS ∨ d.location = CHUNK_LOCATION_SPILLOVER then
          SCRMFS_SUCCESS else SCRMFS_ERR_IO,
        { fmeta := { chunks := st.fmeta.chunks,
                     chunk_meta := st.fmeta.chunk_meta.set i (freed_descriptor d) },
          free_chunk_stack := freed_memfs_ids [d] ++ st.free_chunk_stack,
          free_spillchunk_stack := st.free_spillchunk_stack }) := by
  unfold scrmfs_chunk_free
  rw [hd]
  simp only
  by_cases h1 : d.location = CHUNK_LOCATION_MEMFS
  · simp [h1, freed_descriptor, location_after_free, freed_memfs_ids_singleton,
      scrmfs_stack_push]
  · by_cases h2 : d.location = CHUNK_LOCATION_SPILLOVER
    · simp [h2, freed_descriptor, location_after_free, freed_memfs_ids_singleton]
    · rw [set_freed_descriptor_of_not_allocated _ _ _ hd h1 h2]
      simp [h1, h2, freed_memfs_ids_singleton]

theorem take_set_self {α : Type} (l : List α) (n : Nat) (a : α) :
    (l.set n a).take n = l.take n := by
  apply List.ext_getElem?
  intro j
  rw [List.getElem?_take, List.getElem?_take]
  split
  · rw [List.getElem?_set_ne (by omega)]
  · rfl

/-- The effect of the shrink loop on a file whose live descriptors exist. -/
theorem shrink_loop_spec (t : Int) (ht : 0 ≤ t) :
    ∀ (n : Nat) (st : fixed_state), st.fmeta.chunks = n →
      n ≤ st.fmeta.chunk_meta.length →
      ∃ st1, scrmfs_fid_store_fixed_shrink_loop st t = some st1 ∧
        st1.fmeta.chunks = min n t.toNat ∧
        st1.fmeta.chunk_meta.length = st.fmeta.chunk_meta.length ∧
        (∀ i d, st.fmeta.chunk_meta[i]? = some d →
          st1.fmeta.chunk_meta[i]? =
            some (if min n t.toNat ≤ i ∧ i < n then freed_descriptor d else d)) ∧
        st1.free_chunk_stack =
          freed_memfs_ids ((st.fmeta.chunk_meta.take n).drop (min n t.toNat)) ++
            st.free_chunk_stack ∧
        st1.free_spillchunk_stack = st.free_spillchunk_stack := by
  intro n
  induction n with
  | zero =>
    intro st hn hlen
    rw [shrink_loop_unfold, if_neg (by omega)]
    refine ⟨st, rfl, by omega, rfl, ?_, ?_, rfl⟩
    · intro i d hd
      rw [if_neg (by omega)]
      exact hd
    · simp [freed_memfs_ids]
  | succ n ih =>
    intro st hn hlen
    rw [shrink_loop_unfold]
    split
    · rename_i hgt
      rw [if_neg (by omega)]
      have hget : ∃ d, st.fmeta.chunk_meta[n]? = some d :=
        ⟨st.fmeta.chunk_meta[n], List.getElem?_eq_getElem (by omega)⟩
      obtain ⟨d, hd⟩ := hget
      have hidx : (decr_chunks st).fmeta.chunks = n := by
        simp only [decr_chunks_chunks]
        omega
      rw [hidx, scrmfs_chunk_free_spec (decr_chunks st) n d hd]
      simp only [decr_chunks_chunk_meta, decr_chunks_free_chunk_stack,
        decr_chunks_free_spillchunk_stack]
      obtain ⟨st1, h1, hc, hl, hds, hms, hss⟩ := ih
        { fmeta := { chunks := (decr_chunks st).fmeta.chunks,
                     chunk_meta := st.fmeta.chunk_meta.set n (freed_descriptor d) },
          free_chunk_stack := freed_memfs_ids [d] ++ st.free_chunk_stack,
          free_spillchunk_stack := st.free_spillchunk_stack } hidx
        (by simp only [List.length_set]; omega)
      have hmin : min (n + 1) t.toNat = min n t.toNat := by omega
      refine ⟨st1, h1, by omega, by rw [hl]; simp only [List.length_set], ?_, ?_, hss⟩
      · intro i d2 hd2
        rw [hmin]
        by_cases hin : i = n
        · subst hin
          rw [hd] at hd2
          cases hd2
          have hset : (st.fmeta.chunk_meta.set i (freed_descriptor d))[i]? =
              some (freed_descriptor d) := List.getElem?_set_self (by omega)
          rw [hds i _ hset, if_neg (by omega), if_pos ⟨by omega, by omega⟩]
        · have hset : (st.fmeta.chunk_meta.set n (freed_descriptor d))[i]? = some d2 := by
            rw [List.getElem?_set_ne (fun h => hin h.symm)]
            exact hd2
          rw [hds i _ hset]
          by_cases hc2 : min n t.toNat ≤ i ∧ i < n
          · rw [if_pos hc2, if_pos ⟨hc2.1, by omega⟩]
          · rw [if_neg hc2, if_neg (by omega)]
      · rw [hms, hmin]
        simp only
        rw [take_set_self, List.take_succ, hd]
        simp only [Option.toList]
        rw [List.drop_append_of_le_length (by rw [List.length_take]; omega),
          freed_memfs_ids_append, List.append_assoc]
    · rename_i hle
      have hmin : min (n + 1) t.toNat = n + 1 := by omega
      refine ⟨st, rfl, by omega, rfl, ?_, ?_, rfl⟩
      · intro i d hd
        rw [hmin, if_neg (by omega)]
        exact hd
      · rw [hmin]
        have : (List.take (n + 1) st.fmeta.chunk_meta).drop (n + 1) = [] := by
          apply List.drop_eq_nil_of_le
          rw [List.length_take]
          omega
        rw [this]
        simp [freed_memfs_ids]

theorem shrink_num_chunks (cfg : scrmfs_config) (length : Int) :
    0 ≤ (if length > 0 then (length >>> cfg.scrmfs_chunk_bits) + 1 else 0 : Int) := by
  split
  · rename_i h
    rw [Int.shiftRight_eq_div_pow]
    have : 0 ≤ length / ((2 ^ cfg.scrmfs_chunk_bits : Nat) : Int) :=
      Int.ediv_nonneg (by omega) (by positivity)
    omega
  · exact le_refl 0

/-- C6: on a file with `chunk_count = n` (whose `n` descriptors exist) and for
`target_length >= 0`, `scrmfs_fid_store_fixed_shrink` returns with
`chunk_count = min(n, t)`, `t = 0` for `target_length = 0` and
`t = (target_length >> chunk_bits) + 1` otherwise, so that a positive multiple
`k * chunk_size` gives `t = k + 1`.  The chunk count does not increase, the
descriptors below the new chunk count are unchanged, the descriptors from the
new chunk count up to `n - 1` have been freed, and they were freed from the
highest index downward: the memory ids pushed lie on the memory free stack in
ascending index order from the top, the id of the lowest freed index pushed
last. -/
theorem C6_shrink_postcondition (cfg : scrmfs_config) (st : fixed_state) (length : Int)
    (h0 : 0 ≤ length) (hlive : st.fmeta.chunks ≤ st.fmeta.chunk_meta.length) :
    ∃ st1, scrmfs_fid_store_fixed_shrink cfg st length = some (SCRMFS_SUCCESS, st1) ∧
      (st1.fmeta.chunks : Int) =
        min (st.fmeta.chunks : Int) (shrink_target_chunks cfg length) ∧
      (∀ k : Nat, 0 < k → length = (k : Int) * (scrmfs_chunk_size cfg : Int) →
        shrink_target_chunks cfg length = (k : Int) + 1) ∧
      st1.fmeta.chunks ≤ st.fmeta.chunks ∧
      (∀ i, i < st1.fmeta.chunks → st1.fmeta.chunk_meta[i]? = st.fmeta.chunk_meta[i]?) ∧
      (∀ i d, st1.fmeta.chunks ≤ i → i < st.fmeta.chunks →
        st.fmeta.chunk_meta[i]? = some d →
        st1.fmeta.chunk_meta[i]? = some (freed_descriptor d)) ∧
      st1.free_chunk_stack =
        freed_memfs_ids ((st.fmeta.chunk_meta.take st.fmeta.chunks).drop st1.fmeta.chunks) ++
          st.free_chunk_stack := by
  have ht := shrink_num_chunks cfg length
  obtain ⟨st1, h1, hc, hl, hds, hms, hss⟩ :=
    shrink_loop_spec _ ht st.fmeta.chunks st rfl hlive
  have htarget : (if length > 0 then (length >>> cfg.scrmfs_chunk_bits) + 1 else 0 : Int) =
      shrink_target_chunks cfg length := by
    unfold shrink_target_chunks
    by_cases hz : length = 0
    · rw [if_neg (by omega), if_pos hz]
    · rw [if_pos (by omega), if_neg hz]
  refine ⟨st1, ?_, ?_, ?_, by omega, ?_, ?_, ?_⟩
  · unfold scrmfs_fid_store_fixed_shrink
    simp only
    rw [h1]
  · rw [hc, ← htarget]
    omega
  · intro k hk hlen
    have hcs := scrmfs_chunk_size_pos cfg
    have hne : length ≠ 0 := by
      rw [hlen]
      have : (0 : Int) < (k : Int) * (scrmfs_chunk_size cfg : Int) := by positivity
      omega
    unfold shrink_target_chunks
    rw [if_neg hne, Int.shiftRight_eq_div_pow, hlen, scrmfs_chunk_size_eq,
      Int.mul_ediv_cancel]
    positivity
  · intro i hi
    have hlt : i < st.fmeta.chunk_meta.length := by omega
    have hget : ∃ d, st.fmeta.chunk_meta[i]? = some d :=
      ⟨st.fmeta.chunk_meta[i], List.getElem?_eq_getElem hlt⟩
    obtain ⟨d, hd⟩ := hget
    rw [hds i d hd, if_neg (by omega), hd]
  · intro i d h1 h2 hd
    rw [hds i d hd, if_pos ⟨by omega, h2⟩]
  · rw [hms, hc]

/-- C6 (witness): with `chunk_bits = 2`, `n = 3` and `target_length = 4` the
shrink leaves `chunk_count = 2`. -/
theorem C6_shrink_postcondition_witness :
    (0 : Int) ≤ 4 ∧
      scenario_three_chunks.fmeta.chunks ≤ scenario_three_chunks.fmeta.chunk_meta.length ∧
      ∃ st1, scrmfs_fid_store_fixed_shrink scenario_config scenario_three_chunks 4 =
          some (SCRMFS_SUCCESS, st1) ∧
        st1.fmeta.chunks = 2 := by
  refine ⟨by decide, by decide, ?_⟩
  obtain ⟨st1, h, hc, -⟩ :=
    C6_shrink_postcondition scenario_config scenario_three_chunks 4 (by decide) (by decide)
  refine ⟨st1, h, ?_⟩
  have e : min ((scenario_three_chunks.fmeta.chunks : Nat) : Int)
      (shrink_target_chunks scenario_config 4) = 2 := by decide
  rw [e] at hc
  exact_mod_cast hc

/-! ## Invariants of extend and shrink -/

theorem extend_iter_preserves (cfg : scrmfs_config) (length : Int) (P : fixed_state → Prop)
    (hS : ∀ st st1, P st →
      scrmfs_chunk_alloc cfg st st.fmeta.chunks = some (SCRMFS_SUCCESS, st1) →
      P (incr_chunks st1)) :
    ∀ (k : Nat) (st stk : fixed_state), extend_iter cfg length k st = some stk → P st → P stk := by
  intro k
  induction k with
  | zero =>
    intro st stk h hp
    cases h
    exact hp
  | succ k ih =>
    intro st stk h hp
    obtain ⟨-, -, st1, hal, hk⟩ := (extend_iter_succ cfg length k st stk).mp h
    exact ih _ _ hk (hS st st1 hp hal)

theorem extend_preserves (cfg : scrmfs_config) (P : fixed_state → Prop)
    (hS : ∀ st st1, P st →
      scrmfs_chunk_alloc cfg st st.fmeta.chunks = some (SCRMFS_SUCCESS, st1) →
      P (incr_chunks st1))
    (hF : ∀ st rc st1, P st →
      scrmfs_chunk_alloc cfg st st.fmeta.chunks = some (rc, st1) → rc ≠ SCRMFS_SUCCESS →
      P st1)
    {st st1 : fixed_state} {length : Int} {rc : scrmfs_rc}
    (h : scrmfs_fid_store_fixed_extend cfg st length = some (rc, st1)) (hp : P st) : P st1 := by
  obtain ⟨k, stk, hk, hout⟩ := extend_run h
  have hpk := extend_iter_preserves cfg length P hS k st stk hk hp
  rcases hout with ⟨-, hs, -⟩ | ⟨-, -, hor⟩
  · rw [hs]
    exact hpk
  · rcases hor with ⟨-, hs⟩ | ⟨-, rc1, hal, hrc1⟩
    · rw [hs]
      exact hpk
    · exact hF stk rc1 st1 hpk hal hrc1

theorem shrink_loop_preserves (P : fixed_state → Prop)
    (hstep : ∀ st rc st2, P st → 0 < st.fmeta.chunks →
      scrmfs_chunk_free (decr_chunks st) (st.fmeta.chunks - 1) = some (rc, st2) → P st2)
    (t : Int) :
    ∀ (n : Nat) (st st1 : fixed_state), st.fmeta.chunks = n →
      scrmfs_fid_store_fixed_shrink_loop st t = some st1 → P st → P st1 := by
  intro n
  induction n with
  | zero =>
    intro st st1 hn h hp
    rw [shrink_loop_unfold] at h
    by_cases hgt : (st.fmeta.chunks : Int) > t
    · rw [if_pos hgt, if_pos hn] at h
      cases h
    · rw [if_neg hgt] at h
      cases h
      exact hp
  | succ n ih =>
    intro st st1 hn h hp
    rw [shrink_loop_unfold] at h
    by_cases hgt : (st.fmeta.chunks : Int) > t
    · rw [if_pos hgt, if_neg (by omega)] at h
      simp only [decr_chunks_chunks] at h
      have hlen : ∃ d, st.fmeta.chunk_meta[st.fmeta.chunks - 1]? = some d := by
        cases hd : st.fmeta.chunk_meta[st.fmeta.chunks - 1]? with
        | some d => exact ⟨d, rfl⟩
        | none =>
          exfalso
          unfold scrmfs_chunk_free at h
          simp only [decr_chunks_chunk_meta, hd] at h
          cases h
      obtain ⟨d, hd⟩ := hlen
      have hfree := scrmfs_chunk_free_spec (decr_chunks st) (st.fmeta.chunks - 1) d hd
      rw [hfree] at h
      simp only at h
      have hp2 := hstep st _ _ hp (by omega) hfree
      exact ih _ st1 (by simp only [decr_chunks_chunks]; omega) h hp2
    · rw [if_neg hgt] at h
      cases h
      exact hp

theorem shrink_preserves (cfg : scrmfs_config) (P : fixed_state → Prop)
    (hstep : ∀ st rc st2, P st → 0 < st.fmeta.chunks →
      scrmfs_chunk_free (decr_chunks st) (st.fmeta.chunks - 1) = some (rc, st2) → P st2)
    {st st1 : fixed_state} {length : Int} {rc : scrmfs_rc}
    (h : scrmfs_fid_store_fixed_shrink cfg st length = some (rc, st1)) (hp : P st) : P st1 := by
  unfold scrmfs_fid_store_fixed_shrink at h
  simp only at h
  split at h
  · cases h
  · rename_i st2 hl
    cases h
    exact shrink_loop_preserves P hstep _ _ st st1 rfl hl hp

/-- An invariant made of a condition `G` on the two free stacks and a
condition `F` on each file, kept by extend and shrink on one file, holds in
every reachable state of the system. -/
theorem reachable_invariant (cfg : scrmfs_config) (G : List Int → List Int → Prop)
    (F : scrmfs_filemeta_t → Prop)
    (hext : ∀ st length rc st1,
      scrmfs_fid_store_fixed_extend cfg st length = some (rc, st1) →
      G st.free_chunk_stack st.free_spillchunk_stack → F st.fmeta →
      G st1.free_chunk_stack st1.free_spillchunk_stack ∧ F st1.fmeta)
    (hshr : ∀ st length rc st1,
      scrmfs_fid_store_fixed_shrink cfg st length = some (rc, st1) →
      G st.free_chunk_stack st.free_spillchunk_stack → F st.fmeta →
      G st1.free_chunk_stack st1.free_spillchunk_stack ∧ F st1.fmeta)
    (init sys : fixed_system)
    (h0 : G init.free_chunk_stack init.free_spillchunk_stack ∧ ∀ m ∈ init.files, F m)
    (hr : fixed_reachable cfg init sys) :
    G sys.free_chunk_stack sys.free_spillchunk_stack ∧ ∀ m ∈ sys.files, F m := by
  induction hr with
  | start => exact h0
  | call sys0 sys1 c rc _ hcall ih =>
    obtain ⟨hG, hF⟩ := ih
    have key : ∀ (fid : Nat) (st st1 : fixed_state), sys0.select fid = some st →
        (G st.free_chunk_stack st.free_spillchunk_stack → F st.fmeta →
          G st1.free_chunk_stack st1.free_spillchunk_stack ∧ F st1.fmeta) →
        G (sys0.update fid st1).free_chunk_stack (sys0.update fid st1).free_spillchunk_stack ∧
          ∀ m ∈ (sys0.update fid st1).files, F m := by
      intro fid st st1 hsel hstep
      unfold fixed_system.select at hsel
      split at hsel
      · cases hsel
      · rename_i m hm
        cases hsel
        obtain ⟨hG1, hF1⟩ := hstep hG (hF m (List.getElem?_mem hm))
        refine ⟨hG1, ?_⟩
        intro m2 hm2
        rcases List.mem_or_eq_of_mem_set hm2 with h | h
        · exact hF m2 h
        · rw [h]
          exact hF1
    unfold fixed_system.call at hcall
    split at hcall
    · split at hcall
      · cases hcall
      · rename_i st hsel
        split at hcall
        · cases hcall
        · rename_i hop
          cases hcall
          exact key _ st _ hsel (hext st _ _ _ hop)
    · split at hcall
      · cases hcall
      · rename_i st hsel
        split at hcall
        · cases hcall
        · rename_i hop
          cases hcall
          exact key _ st _ hsel (hshr st _ _ _ hop)

theorem getElem?_exists {α : Type} (l : List α) (i : Nat) (h : i < l.length) :
    ∃ d, l[i]? = some d :=
  ⟨l[i], List.getElem?_eq_getElem h⟩

theorem lt_length_of_getElem? {α : Type} {l : List α} {i : Nat} {d : α}
    (h : l[i]? = some d) : i < l.length := by
  by_contra hlt
  rw [List.getElem?_eq_none (by omega)] at h
  cases h

theorem freed_descriptor_location_of_allocated (d : scrmfs_chunkmeta_t) (h : is_allocated d) :
    (freed_descriptor d).location = CHUNK_LOCATION_NULL := by
  unfold freed_descriptor location_after_free
  unfold is_allocated at h
  simp only
  rw [if_pos h]

theorem scenario_system_call :
    scenario_system.call scenario_config (fixed_call.extend 0 10) =
      some (SCRMFS_ERR_NOSPC, scenario_system_extended) := by
  have h := scenario_extend_10
  unfold fixed_system.call fixed_system.select
  simp only [scenario_system, List.getElem?_cons_zero]
  have e : ({ fmeta := scenario_start.fmeta,
              free_chunk_stack := scenario_start.free_chunk_stack,
              free_spillchunk_stack := scenario_start.free_spillchunk_stack } : fixed_state) =
      scenario_start := rfl
  rw [e, h]
  rfl

theorem scenario_system_reachable :
    fixed_reachable scenario_config scenario_system scenario_system_extended :=
  fixed_reachable.call scenario_system scenario_system_extended (fixed_call.extend 0 10)
    SCRMFS_ERR_NOSPC fixed_reachable.start scenario_system_call

/-! ## The metadata invariant -/

theorem meta_invariant_alloc_success (cfg : scrmfs_config) (st st1 : fixed_state)
    (hp : meta_invariant st.fmeta)
    (hal : scrmfs_chunk_alloc cfg st st.fmeta.chunks = some (SCRMFS_SUCCESS, st1)) :
    meta_invariant (incr_chunks st1).fmeta := by
  obtain ⟨d, pm, ps, hi, hm, -, -, hd⟩ := alloc_success hal
  obtain ⟨hlen, hinv⟩ := hp
  have hdal : is_allocated d := by
    rcases hd with ⟨a, -⟩ | ⟨a, -⟩
    · exact Or.inl a
    · exact Or.inr a
  constructor
  · simp only [incr_chunks_chunks, incr_chunks_chunk_meta, hm, List.length_set]
    omega
  · intro j dj hj
    simp only [incr_chunks_chunks, incr_chunks_chunk_meta, hm] at hj ⊢
    by_cases hjc : j = st.fmeta.chunks
    · subst hjc
      rw [List.getElem?_set_self hi] at hj
      cases hj
      exact ⟨fun _ => hdal, fun h => absurd h (by omega)⟩
    · rw [List.getElem?_set_ne (fun h => hjc h.symm)] at hj
      obtain ⟨h1, h2⟩ := hinv j dj hj
      exact ⟨fun h => h1 (by omega), fun h => h2 (by omega)⟩

theorem meta_invariant_alloc_failure (cfg : scrmfs_config) (st : fixed_state) (rc : scrmfs_rc)
    (st1 : fixed_state) (hp : meta_invariant st.fmeta)
    (hal : scrmfs_chunk_alloc cfg st st.fmeta.chunks = some (rc, st1))
    (hrc : rc ≠ SCRMFS_SUCCESS) : meta_invariant st1.fmeta := by
  obtain ⟨hc, hm, -, -⟩ := alloc_failure hal hrc
  obtain ⟨hlen, hinv⟩ := hp
  rcases hm with hm | ⟨d, hd, hm⟩
  · constructor
    · rw [hc, hm]
      exact hlen
    · intro j dj hj
      rw [hm] at hj
      rw [hc]
      exact hinv j dj hj
  · constructor
    · rw [hc, hm, List.length_set]
      exact hlen
    · intro j dj hj
      rw [hm] at hj
      rw [hc]
      by_cases hjc : j = st.fmeta.chunks
      · subst hjc
        rw [List.getElem?_set_self (lt_length_of_getElem? hd)] at hj
        cases hj
        exact ⟨fun h => absurd h (by omega), fun _ => rfl⟩
      · rw [List.getElem?_set_ne (fun h => hjc h.symm)] at hj
        exact hinv j dj hj

theorem meta_invariant_free (st : fixed_state) (rc : scrmfs_rc) (st2 : fixed_state)
    (hp : meta_invariant st.fmeta) (hpos : 0 < st.fmeta.chunks)
    (hfree : scrmfs_chunk_free (decr_chunks st) (st.fmeta.chunks - 1) = some (rc, st2)) :
    meta_invariant st2.fmeta := by
  obtain ⟨hlen, hinv⟩ := hp
  obtain ⟨d, hd⟩ := getElem?_exists st.fmeta.chunk_meta (st.fmeta.chunks - 1) (by omega)
  rw [scrmfs_chunk_free_spec (decr_chunks st) (st.fmeta.chunks - 1) d hd] at hfree
  cases hfree
  simp only [decr_chunks_chunks, decr_chunks_chunk_meta]
  have hdal := (hinv _ d hd).1 (by omega)
  constructor
  · simp only [List.length_set]
    omega
  · intro j dj hj
    simp only at hj ⊢
    by_cases hjc : j = st.fmeta.chunks - 1
    · subst hjc
      rw [List.getElem?_set_self (by omega)] at hj
      cases hj
      exact ⟨fun h => absurd h (by omega),
        fun _ => freed_descriptor_location_of_allocated d hdal⟩
    · rw [List.getElem?_set_ne (fun h => hjc h.symm)] at hj
      obtain ⟨h1, h2⟩ := hinv j dj hj
      exact ⟨fun h => h1 (by omega), fun h => h2 (by omega)⟩

/-- C10: in every state reachable, by any sequence of extend and shrink calls
with whatever return code, from files whose descriptors are all unset and
whose chunk count is 0, every file has its chunk count within its descriptor
array, every descriptor at an index below the chunk count has the location
memory pool or spillover device, and every descriptor at an index from the
chunk count on has the location unset. -/
theorem C10_metadata_invariant (cfg : scrmfs_config) (init sys : fixed_system)
    (hinit : ∀ m ∈ init.files,
      m.chunks = 0 ∧ ∀ d ∈ m.chunk_meta, d.location = CHUNK_LOCATION_NULL)
    (hr : fixed_reachable cfg init sys) :
    ∀ m ∈ sys.files, m.chunks ≤ m.chunk_meta.length ∧
      ∀ i d, m.chunk_meta[i]? = some d →
        (i < m.chunks →
          d.location = CHUNK_LOCATION_MEMFS ∨ d.location = CHUNK_LOCATION_SPILLOVER) ∧
        (m.chunks ≤ i → d.location = CHUNK_LOCATION_NULL) := by
  have h := reachable_invariant cfg (fun _ _ => True) meta_invariant
    (fun st length rc st1 hop _ hF =>
      ⟨trivial, extend_preserves cfg (fun s => meta_invariant s.fmeta)
        (meta_invariant_alloc_success cfg) (meta_invariant_alloc_failure cfg) hop hF⟩)
    (fun st length rc st1 hop _ hF =>
      ⟨trivial, shrink_preserves cfg (fun s => meta_invariant s.fmeta)
        meta_invariant_free hop hF⟩)
    init sys
    ⟨trivial, fun m hm => by
      obtain ⟨hc, hd⟩ := hinit m hm
      refine ⟨by omega, fun i d hid => ⟨fun hlt => absurd hlt (by omega),
        fun _ => hd d (List.getElem?_mem hid)⟩⟩⟩
    hr
  exact h.2

/-- C10 (witness): the one-file system of the concrete scenario starts with
an empty file of unset descriptors; after the failing extend to 10 bytes its
two first descriptors are allocated and the third is unset. -/
theorem C10_metadata_invariant_witness :
    (∀ m ∈ scenario_system.files,
        m.chunks = 0 ∧ ∀ d ∈ m.chunk_meta, d.location = CHUNK_LOCATION_NULL) ∧
      fixed_reachable scenario_config scenario_system scenario_system_extended ∧
      ∀ m ∈ scenario_system_extended.files, m.chunks ≤ m.chunk_meta.length ∧
        ∀ i d, m.chunk_meta[i]? = some d →
          (i < m.chunks →
            d.location = CHUNK_LOCATION_MEMFS ∨ d.location = CHUNK_LOCATION_SPILLOVER) ∧
          (m.chunks ≤ i → d.location = CHUNK_LOCATION_NULL) :=
  have h0 : ∀ m ∈ scenario_system.files,
      m.chunks = 0 ∧ ∀ d ∈ m.chunk_meta, d.location = CHUNK_LOCATION_NULL := by
    simp [scenario_system, scenario_start, unset_descriptor]
  ⟨h0, scenario_system_reachable,
    C10_metadata_invariant scenario_config scenario_system scenario_system_extended h0
      scenario_system_reachable⟩

/-! ## The tier-id encoding -/

theorem ids_below_of_append {s p r : List Int} {b : Nat} (h : ids_below s b)
    (hs : s = p ++ r) : ids_below p b ∧ ids_below r b := by
  subst hs
  exact ⟨fun x hx => h x (List.mem_append_left _ hx),
    fun x hx => h x (List.mem_append_right _ hx)⟩

theorem encoded_state_alloc_success (cfg : scrmfs_config) (st st1 : fixed_state)
    (hp : encoded_state cfg st)
    (hal : scrmfs_chunk_alloc cfg st st.fmeta.chunks = some (SCRMFS_SUCCESS, st1)) :
    encoded_state cfg (incr_chunks st1) := by
  obtain ⟨d, pm, ps, hi, hm, hms, hss, hd⟩ := alloc_success hal
  obtain ⟨⟨hmem, hsp⟩, hlive⟩ := hp
  obtain ⟨hpm, hrm⟩ := ids_below_of_append hmem hms
  obtain ⟨hps, hrs⟩ := ids_below_of_append hsp hss
  refine ⟨⟨hrm, hrs⟩, ?_⟩
  intro i hi2
  simp only [incr_chunks_chunks, incr_chunks_chunk_meta, hm] at hi2 ⊢
  by_cases hic : i = st.fmeta.chunks
  · subst hic
    refine ⟨d, List.getElem?_set_self hi, ?_⟩
    rcases hd with ⟨a, b, -, -⟩ | ⟨a, b, -⟩
    · exact Or.inl ⟨a, hpm _ b⟩
    · have := hps _ b
      exact Or.inr ⟨a, by omega, by omega⟩
  · rw [List.getElem?_set_ne (fun h => hic h.symm)]
    exact hlive i (by omega)

theorem encoded_state_alloc_failure (cfg : scrmfs_config) (st : fixed_state) (rc : scrmfs_rc)
    (st1 : fixed_state) (hp : encoded_state cfg st)
    (hal : scrmfs_chunk_alloc cfg st st.fmeta.chunks = some (rc, st1))
    (hrc : rc ≠ SCRMFS_SUCCESS) : encoded_state cfg st1 := by
  obtain ⟨hc, hm, ⟨pm, hms⟩, ⟨ps, hss⟩⟩ := alloc_failure hal hrc
  obtain ⟨⟨hmem, hsp⟩, hlive⟩ := hp
  refine ⟨⟨(ids_below_of_append hmem hms).2, (ids_below_of_append hsp hss).2⟩, ?_⟩
  intro i hi
  rw [hc] at hi
  rcases hm with hm | ⟨d, -, hm⟩
  · rw [hm]
    exact hlive i hi
  · rw [hm, List.getElem?_set_ne (by omega)]
    exact hlive i hi

theorem encoded_state_free (cfg : scrmfs_config) (st : fixed_state) (rc : scrmfs_rc)
    (st2 : fixed_state) (hp : encoded_state cfg st) (hpos : 0 < st.fmeta.chunks)
    (hfree : scrmfs_chunk_free (decr_chunks st) (st.fmeta.chunks - 1) = some (rc, st2)) :
    encoded_state cfg st2 := by
  obtain ⟨⟨hmem, hsp⟩, hlive⟩ := hp
  obtain ⟨d, hd, hdenc⟩ := hlive (st.fmeta.chunks - 1) (by omega)
  rw [scrmfs_chunk_free_spec (decr_chunks st) (st.fmeta.chunks - 1) d hd] at hfree
  cases hfree
  simp only [decr_chunks_chunks, decr_chunks_chunk_meta, decr_chunks_free_chunk_stack,
    decr_chunks_free_spillchunk_stack]
  refine ⟨⟨?_, hsp⟩, ?_⟩
  · intro x hx
    simp only at hx
    rw [freed_memfs_ids_singleton] at hx
    rcases List.mem_append.mp hx with h | h
    · split at h
      · rename_i hloc
        rw [List.mem_singleton] at h
        subst h
        rcases hdenc with ⟨-, b⟩ | ⟨a, -⟩
        · exact b
        · rw [hloc] at a
          cases a
      · cases h
    · exact hmem x h
  · intro i hi
    simp only at hi ⊢
    rw [List.getElem?_set_ne (by omega)]
    exact hlive i (by omega)

/-- C9: if the memory free stack holds only ids in `0 .. max_memory_chunks - 1`
and the spillover free stack only local ids in `0 .. max_spill_chunks - 1`,
then in every state reachable from files with no chunks by calls of extend
and shrink every descriptor below the chunk count of a file exists and
satisfies: location memory pool iff `physical_id < max_memory_chunks`, and
location spillover device iff `max_memory_chunks <= physical_id <
max_memory_chunks + max_spill_chunks`. -/
theorem C9_tier_encoding_invariant (cfg : scrmfs_config) (init sys : fixed_system)
    (hmem : ids_below init.free_chunk_stack cfg.scrmfs_max_chunks)
    (hsp : ids_below init.free_spillchunk_stack cfg.scrmfs_spillover_max_chunks)
    (hinit : ∀ m ∈ init.files, m.chunks = 0)
    (hr : fixed_reachable cfg init sys) :
    ∀ m ∈ sys.files, ∀ i, i < m.chunks → ∃ d, m.chunk_meta[i]? = some d ∧
      (d.location = CHUNK_LOCATION_MEMFS ↔ d.id < (cfg.scrmfs_max_chunks : Int)) ∧
      (d.location = CHUNK_LOCATION_SPILLOVER ↔
        ((cfg.scrmfs_max_chunks : Int) ≤ d.id ∧
          d.id < (cfg.scrmfs_max_chunks : Int) + (cfg.scrmfs_spillover_max_chunks : Int))) := by
  have h := reachable_invariant cfg
    (fun ms ss => ids_below ms cfg.scrmfs_max_chunks ∧
      ids_below ss cfg.scrmfs_spillover_max_chunks)
    (live_encoded cfg)
    (fun st length rc st1 hop hG hF =>
      extend_preserves cfg (encoded_state cfg) (encoded_state_alloc_success cfg)
        (encoded_state_alloc_failure cfg) hop ⟨hG, hF⟩)
    (fun st length rc st1 hop hG hF =>
      shrink_preserves cfg (encoded_state cfg) (encoded_state_free cfg) hop ⟨hG, hF⟩)
    init sys
    ⟨⟨hmem, hsp⟩, fun m hm i hi => by
      rw [hinit m hm] at hi
      omega⟩
    hr
  intro m hm i hi
  obtain ⟨d, hd, henc⟩ := h.2 m hm i hi
  refine ⟨d, hd, ?_⟩
  rcases henc with ⟨a, b, c⟩ | ⟨a, b, c⟩
  · refine ⟨⟨fun _ => c, fun _ => a⟩, ⟨fun hl => ?_, fun hl => ?_⟩⟩
    · rw [a] at hl
      cases hl
    · omega
  · refine ⟨⟨fun hl => ?_, fun hl => ?_⟩, ⟨fun _ => ⟨b, c⟩, fun _ => a⟩⟩
    · rw [a] at hl
      cases hl
    · omega

/-- C9 (witness): in the concrete scenario (memory ids 0 and 1 below 2, local
spillover ids 0 and 1 below 2, one empty file) the state after the extend to
10 bytes is reachable, and its two live descriptors obey the encoding. -/
theorem C9_tier_encoding_invariant_witness :
    ids_below scenario_system.free_chunk_stack scenario_config.scrmfs_max_chunks ∧
      ids_below scenario_system.free_spillchunk_stack
        scenario_config.scrmfs_spillover_max_chunks ∧
      (∀ m ∈ scenario_system.files, m.chunks = 0) ∧
      fixed_reachable scenario_config scenario_system scenario_system_extended ∧
      ∀ m ∈ scenario_system_extended.files, ∀ i, i < m.chunks →
        ∃ d, m.chunk_meta[i]? = some d ∧
          (d.location = CHUNK_LOCATION_MEMFS ↔
            d.id < (scenario_config.scrmfs_max_chunks : Int)) ∧
          (d.location = CHUNK_LOCATION_SPILLOVER ↔
            ((scenario_config.scrmfs_max_chunks : Int) ≤ d.id ∧
              d.id < (scenario_config.scrmfs_max_chunks : Int) +
                (scenario_config.scrmfs_spillover_max_chunks : Int))) :=
  have h1 : ids_below scenario_system.free_chunk_stack scenario_config.scrmfs_max_chunks := by
    simp [ids_below, scenario_system, scenario_start, scenario_config]
  have h2 : ids_below scenario_system.free_spillchunk_stack
      scenario_config.scrmfs_spillover_max_chunks := by
    simp [ids_below, scenario_system, scenario_start, scenario_config]
  have h3 : ∀ m ∈ scenario_system.files, m.chunks = 0 := by
    simp [scenario_system, scenario_start]
  ⟨h1, h2, h3, scenario_system_reachable,
    C9_tier_encoding_invariant scenario_config scenario_system scenario_system_extended
      h1 h2 h3 scenario_system_reachable⟩

/-! ## Chunk storage: one segment -/

theorem shl_chunk_bits_eq (cfg : scrmfs_config) (x : Int) :
    shl_chunk_bits cfg x = x * (scrmfs_chunk_size cfg : Int) := by
  unfold shl_chunk_bits
  rw [scrmfs_chunk_size_eq]
  push_cast
  rfl

/-- Two chunk-sized blocks with different numbers do not overlap. -/
theorem block_number_unique (P x y a : Int) (h1 : x * P ≤ a)
    (h2 : a < x * P + P) (h3 : y * P ≤ a) (h4 : a < y * P + P) : x = y := by
  have hP : 0 < P := by omega
  rcases lt_trichotomy x y with hlt | heq | hgt
  · exfalso
    have : (x + 1) * P ≤ y * P := Int.mul_le_mul_of_nonneg_right (by omega) (by omega)
    have e : (x + 1) * P = x * P + P := by ring
    omega
  · exact heq
  · exfalso
    have : (y + 1) * P ≤ x * P := Int.mul_le_mul_of_nonneg_right (by omega) (by omega)
    have e : (y + 1) * P = y * P + P := by ring
    omega

theorem compute_chunk_buf_memfs (cfg : scrmfs_config) (m : scrmfs_filemeta_t) (c off : Nat)
    (d : scrmfs_chunkmeta_t) (hd : m.chunk_meta[c]? = some d)
    (hid : d.id < (cfg.scrmfs_max_chunks : Int)) :
    scrmfs_compute_chunk_buf cfg m c off = some (shl_chunk_bits cfg d.id + (off : Int)) := by
  unfold scrmfs_compute_chunk_buf
  rw [hd]
  simp only
  rw [if_pos hid]

theorem compute_spill_offset_spill (cfg : scrmfs_config) (m : scrmfs_filemeta_t) (c off : Nat)
    (d : scrmfs_chunkmeta_t) (hd : m.chunk_meta[c]? = some d)
    (hid : (cfg.scrmfs_max_chunks : Int) ≤ d.id) :
    scrmfs_compute_spill_offset cfg m c off =
      shl_chunk_bits cfg (d.id - (cfg.scrmfs_max_chunks : Int)) + (off : Int) := by
  unfold scrmfs_compute_spill_offset
  rw [hd]
  simp only
  rw [if_neg (by omega)]

theorem spill_offset_nonneg (cfg : scrmfs_config) (x : Int) (off : Nat)
    (hx : (cfg.scrmfs_max_chunks : Int) ≤ x) :
    ¬ (shl_chunk_bits cfg (x - (cfg.scrmfs_max_chunks : Int)) + (off : Int) < 0) := by
  rw [shl_chunk_bits_eq]
  have : 0 ≤ (x - (cfg.scrmfs_max_chunks : Int)) * (scrmfs_chunk_size cfg : Int) :=
    Int.mul_nonneg (by omega) (by omega)
  omega

/-- The effect of `scrmfs_chunk_read` on a live chunk: the bytes
`off .. off + num - 1` of the chunk arrive in the buffer from `ptr` on. -/
theorem chunk_read_spec (cfg : scrmfs_config) (m : scrmfs_filemeta_t) (stor : chunk_storage)
    (hv : allocated_encoded cfg m) (c off : Nat) (buf : Nat → UInt8) (ptr num : Nat)
    (hc : c < m.chunks) :
    scrmfs_chunk_read cfg m stor c off buf ptr num =
      some (SCRMFS_SUCCESS,
        fun k => if ptr ≤ k ∧ k < ptr + num then chunk_byte cfg m stor c (off + (k - ptr))
          else buf k) := by
  obtain ⟨d, hd, hal, henc⟩ := hv c hc
  unfold scrmfs_chunk_read
  rw [hd]
  simp only
  rcases hal with hl | hl
  · rw [if_pos hl, compute_chunk_buf_memfs cfg m c off d hd (henc.1.mp hl)]
    simp only
    congr 2
    funext k
    unfold copy_from_storage chunk_byte
    rw [hd]
    simp only
    rw [if_pos hl]
    push_cast
    split
    · congr 1
      omega
    · rfl
  · have hne : d.location ≠ CHUNK_LOCATION_MEMFS := by
      rw [hl]
      decide
    have hge := (henc.2.mp hl).1
    rw [if_neg hne, if_pos hl, compute_spill_offset_spill cfg m c off d hd hge]
    congr 2
    unfold pread
    rw [if_neg (spill_offset_nonneg cfg d.id off hge)]
    funext k
    unfold copy_from_storage chunk_byte
    rw [hd]
    simp only
    rw [if_neg hne, if_pos hl]
    push_cast
    split
    · congr 1
      omega
    · rfl

theorem copy_to_storage_same_block (cfg : scrmfs_config) (mem : Int → UInt8) (x : Int)
    (off r : Nat) (buf : Nat → UInt8) (ptr num : Nat) :
    copy_to_storage mem (shl_chunk_bits cfg x + (off : Int)) buf ptr num
        (shl_chunk_bits cfg x + (r : Int)) =
      if off ≤ r ∧ r < off + num then buf (ptr + (r - off))
      else mem (shl_chunk_bits cfg x + (r : Int)) := by
  unfold copy_to_storage
  by_cases h : off ≤ r ∧ r < off + num
  · rw [if_pos h, if_pos (by omega)]
    congr 1
    omega
  · rw [if_neg h, if_neg (by omega)]

theorem copy_to_storage_other_block (cfg : scrmfs_config) (mem : Int → UInt8) (x y : Int)
    (hxy : x ≠ y) (off r : Nat) (buf : Nat → UInt8) (ptr num : Nat)
    (hfit : off + num ≤ scrmfs_chunk_size cfg) (hr : r < scrmfs_chunk_size cfg) :
    copy_to_storage mem (shl_chunk_bits cfg x + (off : Int)) buf ptr num
        (shl_chunk_bits cfg y + (r : Int)) =
      mem (shl_chunk_bits cfg y + (r : Int)) := by
  unfold copy_to_storage
  rw [if_neg]
  rintro ⟨h1, h2⟩
  rw [shl_chunk_bits_eq, shl_chunk_bits_eq] at h1 h2
  exact hxy (block_number_unique (scrmfs_chunk_size cfg : Int) x y
    (y * (scrmfs_chunk_size cfg : Int) + (r : Int)) (by omega) (by omega) (by omega) (by omega))

theorem chunk_byte_memfs (cfg : scrmfs_config) (m : scrmfs_filemeta_t) (stor : chunk_storage)
    (j r : Nat) (d : scrmfs_chunkmeta_t) (hd : m.chunk_meta[j]? = some d)
    (hl : d.location = CHUNK_LOCATION_MEMFS) :
    chunk_byte cfg m stor j r = stor.scrmfs_chunks (shl_chunk_bits cfg d.id + (r : Int)) := by
  unfold chunk_byte
  rw [hd]
  simp only
  rw [if_pos hl]

theorem chunk_byte_spill (cfg : scrmfs_config) (m : scrmfs_filemeta_t) (stor : chunk_storage)
    (j r : Nat) (d : scrmfs_chunkmeta_t) (hd : m.chunk_meta[j]? = some d)
    (hl : d.location = CHUNK_LOCATION_SPILLOVER) :
    chunk_byte cfg m stor j r =
      stor.scrmfs_spilloverblock
        (shl_chunk_bits cfg (d.id - (cfg.scrmfs_max_chunks : Int)) + (r : Int)) := by
  have hne : d.location ≠ CHUNK_LOCATION_MEMFS := by
    rw [hl]
    decide
  unfold chunk_byte
  rw [hd]
  simp only
  rw [if_neg hne, if_pos hl]

/-- The effect of `scrmfs_chunk_write` on a live chunk of a file with distinct
physical ids: the bytes `off .. off + num - 1` of the chunk `c` are those of
the buffer from `ptr` on, every other byte of the file is as before. -/
theorem chunk_write_spec (cfg : scrmfs_config) (m : scrmfs_filemeta_t) (stor : chunk_storage)
    (hv : allocated_encoded cfg m) (hdis : distinct_ids m) (c off : Nat) (buf : Nat → UInt8)
    (ptr num : Nat) (hc : c < m.chunks) (hfit : off + num ≤ scrmfs_chunk_size cfg) :
    ∃ stor1, scrmfs_chunk_write cfg m stor c off buf ptr num = some (SCRMFS_SUCCESS, stor1) ∧
      ∀ j r, j < m.chunks → r < scrmfs_chunk_size cfg →
        chunk_byte cfg m stor1 j r =
          if j = c ∧ off ≤ r ∧ r < off + num then buf (ptr + (r - off))
          else chunk_byte cfg m stor j r := by
  obtain ⟨d, hd, hal, henc⟩ := hv c hc
  rcases hal with hl | hl
  · refine ⟨{ scrmfs_chunks := copy_to_storage stor.scrmfs_chunks
                (shl_chunk_bits cfg d.id + (off : Int)) buf ptr num,
              scrmfs_spilloverblock := stor.scrmfs_spilloverblock }, ?_, ?_⟩
    · unfold scrmfs_chunk_write
      rw [hd]
      simp only
      rw [if_pos hl, compute_chunk_buf_memfs cfg m c off d hd (henc.1.mp hl)]
    · intro j r hj hr
      obtain ⟨dj, hdj, halj, -⟩ := hv j hj
      rcases halj with hlj | hlj
      · rw [chunk_byte_memfs cfg m _ j r dj hdj hlj, chunk_byte_memfs cfg m stor j r dj hdj hlj]
        simp only
        by_cases hjc : j = c
        · subst hjc
          rw [hd] at hdj
          cases hdj
          rw [copy_to_storage_same_block]
          by_cases h : off ≤ r ∧ r < off + num
          · rw [if_pos h, if_pos ⟨rfl, h⟩]
          · rw [if_neg h, if_neg (fun hh => h hh.2)]
        · have hne : d.id ≠ dj.id := fun h => hjc (hdis c j d dj hc hj hd hdj h).symm
          rw [copy_to_storage_other_block cfg _ _ _ hne off r buf ptr num hfit hr,
            if_neg (fun hh => hjc hh.1)]
      · have hjc : j ≠ c := by
          intro h
          subst h
          rw [hd] at hdj
          cases hdj
          rw [hl] at hlj
          cases hlj
        rw [chunk_byte_spill cfg m _ j r dj hdj hlj, chunk_byte_spill cfg m stor j r dj hdj hlj,
          if_neg (fun hh => hjc hh.1)]
  · have hne : d.location ≠ CHUNK_LOCATION_MEMFS := by
      rw [hl]
      decide
    have hge := (henc.2.mp hl).1
    refine ⟨{ scrmfs_chunks := stor.scrmfs_chunks,
              scrmfs_spilloverblock := copy_to_storage stor.scrmfs_spilloverblock
                (shl_chunk_bits cfg (d.id - (cfg.scrmfs_max_chunks : Int)) + (off : Int))
                buf ptr num }, ?_, ?_⟩
    · unfold scrmfs_chunk_write
      rw [hd]
      simp only
      rw [if_neg hne, if_pos hl, compute_spill_offset_spill cfg m c off d hd hge]
      unfold pwrite
      rw [if_neg (spill_offset_nonneg cfg d.id off hge)]
    · intro j r hj hr
      obtain ⟨dj, hdj, halj, -⟩ := hv j hj
      rcases halj with hlj | hlj
      · have hjc : j ≠ c := by
          intro h
          subst h
          rw [hd] at hdj
          cases hdj
          exact hne hlj
        rw [chunk_byte_memfs cfg m _ j r dj hdj hlj, chunk_byte_memfs cfg m stor j r dj hdj hlj,
          if_neg (fun hh => hjc hh.1)]
      · rw [chunk_byte_spill cfg m _ j r dj hdj hlj, chunk_byte_spill cfg m stor j r dj hdj hlj]
        simp only
        by_cases hjc : j = c
        · subst hjc
          rw [hd] at hdj
          cases hdj
          rw [copy_to_storage_same_block]
          by_cases h : off ≤ r ∧ r < off + num
          · rw [if_pos h, if_pos ⟨rfl, h⟩]
          · rw [if_neg h, if_neg (fun hh => h hh.2)]
        · have hne2 : d.id - (cfg.scrmfs_max_chunks : Int) ≠
              dj.id - (cfg.scrmfs_max_chunks : Int) := by
            intro h
            exact hjc (hdis c j d dj hc hj hd hdj (by omega)).symm
          rw [copy_to_storage_other_block cfg _ _ _ hne2 off r buf ptr num hfit hr,
            if_neg (fun hh => hjc hh.1)]

/-! ## Write and read of a byte range -/

theorem write_loop_unfold (cfg : scrmfs_config) (m : scrmfs_filemeta_t) (buf : Nat → UInt8)
    (count chunk_id ptr processed : Nat) (rc : scrmfs_rc) (stor : chunk_storage) :
    scrmfs_fid_store_fixed_write_loop cfg m buf count chunk_id ptr processed rc stor =
      if processed < count ∧ rc = SCRMFS_SUCCESS then
        match scrmfs_chunk_write cfg m stor (chunk_id + 1) 0 buf ptr
            (if count - processed > scrmfs_chunk_size cfg then scrmfs_chunk_size cfg
              else count - processed) with
        | none => none
        | some (rc1, stor1) =>
          scrmfs_fid_store_fixed_write_loop cfg m buf count (chunk_id + 1)
            (ptr + (if count - processed > scrmfs_chunk_size cfg then scrmfs_chunk_size cfg
              else count - processed))
            (processed + (if count - processed > scrmfs_chunk_size cfg then
              scrmfs_chunk_size cfg else count - processed)) rc1 stor1
      else some (rc, stor) := by
  rw [scrmfs_fid_store_fixed_write_loop]

theorem read_loop_unfold (cfg : scrmfs_config) (m : scrmfs_filemeta_t) (stor : chunk_storage)
    (count chunk_id ptr processed : Nat) (rc : scrmfs_rc) (buf : Nat → UInt8) :
    scrmfs_fid_store_fixed_read_loop cfg m stor count chunk_id ptr processed rc buf =
      if processed < count ∧ rc = SCRMFS_SUCCESS then
        match scrmfs_chunk_read cfg m stor (chunk_id + 1) 0 buf ptr
            (if count - processed > scrmfs_chunk_size cfg then scrmfs_chunk_size cfg
              else count - processed) with
        | none => none
        | some (rc1, buf1) =>
          scrmfs_fid_store_fixed_read_loop cfg m stor count (chunk_id + 1)
            (ptr + (if count - processed > scrmfs_chunk_size cfg then scrmfs_chunk_size cfg
              else count - processed))
            (processed + (if count - processed > scrmfs_chunk_size cfg then
              scrmfs_chunk_size cfg else count - processed)) rc1 buf1
      else some (rc, buf) := by
  rw [scrmfs_fid_store_fixed_read_loop]

theorem div_mod_of_block (cs q x : Nat) (h1 : q * cs ≤ x) (h2 : x < q * cs + cs) :
    x / cs = q ∧ x % cs = x - q * cs := by
  have hq : x / cs = q := Nat.div_eq_of_lt_le h1 (by rw [Nat.succ_mul]; exact h2)
  refine ⟨hq, ?_⟩
  have h := Nat.div_add_mod x cs
  rw [hq, Nat.mul_comm] at h
  omega

theorem block_of_div (cs x : Nat) (hcs : 0 < cs) :
    (x / cs) * cs ≤ x ∧ x < (x / cs) * cs + cs ∧ x % cs = x - (x / cs) * cs := by
  have h := Nat.div_add_mod x cs
  have h2 := Nat.mod_lt x hcs
  rw [Nat.mul_comm] at h
  omega

theorem chunk_index_lt (cfg : scrmfs_config) (m : scrmfs_filemeta_t) (x : Nat)
    (hx : x < capacity cfg m) : x / scrmfs_chunk_size cfg < m.chunks := by
  apply Nat.div_lt_of_lt_mul
  unfold capacity at hx
  rw [Nat.mul_comm]
  exact hx

theorem segment_length (cs count p : Nat) (hcs : 0 < cs) (hp : p < count) :
    0 < (if count - p > cs then cs else count - p) ∧
      (if count - p > cs then cs else count - p) ≤ cs ∧
      p + (if count - p > cs then cs else count - p) ≤ count ∧
      (p + (if count - p > cs then cs else count - p) < count →
        (if count - p > cs then cs else count - p) = cs) := by
  split <;> omega

/-- The effect of the loop of `scrmfs_fid_store_fixed_write` entered at a
chunk boundary with `p` bytes written so far. -/
theorem write_loop_spec (cfg : scrmfs_config) (m : scrmfs_filemeta_t)
    (hv : allocated_encoded cfg m) (hdis : distinct_ids m) (buf : Nat → UInt8)
    (pos count : Nat) (hbound : pos + count ≤ capacity cfg m) :
    ∀ (n c p : Nat) (stor : chunk_storage), count - p ≤ n → p ≤ count →
      (p < count → pos + p = c * scrmfs_chunk_size cfg + scrmfs_chunk_size cfg) →
      ∃ stor1, scrmfs_fid_store_fixed_write_loop cfg m buf count c p p SCRMFS_SUCCESS stor =
          some (SCRMFS_SUCCESS, stor1) ∧
        ∀ x, x < capacity cfg m →
          file_byte cfg m stor1 x =
            if pos + p ≤ x ∧ x < pos + count then buf (x - pos) else file_byte cfg m stor x := by
  have hcs := scrmfs_chunk_size_pos cfg
  intro n
  induction n with
  | zero =>
    intro c p stor hn hp _
    rw [write_loop_unfold, if_neg (by omega)]
    refine ⟨stor, rfl, fun x _ => ?_⟩
    rw [if_neg (by omega)]
  | succ n ih =>
    intro c p stor hn hp hblock
    by_cases hlt : p < count
    · obtain ⟨hnum0, hnum1, hnum2, hnum3⟩ := segment_length (scrmfs_chunk_size cfg) count p hcs hlt
      have hb := hblock hlt
      have hsucc : (c + 1) * scrmfs_chunk_size cfg =
          c * scrmfs_chunk_size cfg + scrmfs_chunk_size cfg := Nat.succ_mul _ _
      have hc1 : c + 1 < m.chunks := by
        apply Nat.lt_of_mul_lt_mul_right (a := scrmfs_chunk_size cfg)
        unfold capacity at hbound
        omega
      obtain ⟨stor2, hw, hbytes⟩ := chunk_write_spec cfg m stor hv hdis (c + 1) 0 buf p
        (if count - p > scrmfs_chunk_size cfg then scrmfs_chunk_size cfg else count - p)
        hc1 (by omega)
      rw [write_loop_unfold, if_pos ⟨hlt, rfl⟩, hw]
      simp only
      obtain ⟨stor1, hl, hf⟩ := ih (c + 1)
        (p + (if count - p > scrmfs_chunk_size cfg then scrmfs_chunk_size cfg else count - p))
        stor2 (by omega) hnum2 (fun h => by rw [hsucc]; have := hnum3 h; omega)
      refine ⟨stor1, hl, fun x hx => ?_⟩
      rw [hf x hx]
      obtain ⟨hx1, hx2, hx3⟩ := block_of_div (scrmfs_chunk_size cfg) x hcs
      by_cases h2 : pos + (p + (if count - p > scrmfs_chunk_size cfg then
          scrmfs_chunk_size cfg else count - p)) ≤ x ∧ x < pos + count
      · rw [if_pos h2, if_pos ⟨by omega, h2.2⟩]
      · rw [if_neg h2]
        unfold file_byte
        rw [hbytes _ _ (chunk_index_lt cfg m x hx) (Nat.mod_lt x hcs)]
        by_cases h3 : pos + p ≤ x ∧ x < pos + count
        · obtain ⟨hq, hr⟩ := div_mod_of_block (scrmfs_chunk_size cfg) (c + 1) x
            (by omega) (by omega)
          rw [if_pos ⟨hq, Nat.zero_le _, by omega⟩, if_pos h3]
          congr 1
          omega
        · rw [if_neg h3, if_neg]
          rintro ⟨hq, -, hr⟩
          rw [hq] at hx1 hx3
          apply h3
          omega
    · rw [write_loop_unfold, if_neg (fun h => hlt h.1)]
      refine ⟨stor, rfl, fun x _ => ?_⟩
      rw [if_neg (by omega)]

theorem pos_shiftRight_chunk_bits (cfg : scrmfs_config) (pos : Nat) :
    pos >>> cfg.scrmfs_chunk_bits = pos / scrmfs_chunk_size cfg := by
  rw [Nat.shiftRight_eq_div_pow, scrmfs_chunk_size_eq]

theorem pos_and_chunk_mask (cfg : scrmfs_config) (pos : Nat) :
    pos &&& scrmfs_chunk_mask cfg = pos % scrmfs_chunk_size cfg := by
  unfold scrmfs_chunk_mask
  rw [scrmfs_chunk_size_eq, Nat.and_pow_two_sub_one_eq_mod]

/-- The effect of a write inside the capacity of a file with valid, distinct
descriptors: success, the bytes `pos .. pos + count - 1` of the file are those
of the buffer, every other byte of the file is as before. -/
theorem fid_write_spec (cfg : scrmfs_config) (m : scrmfs_filemeta_t) (stor : chunk_storage)
    (hv : allocated_encoded cfg m) (hdis : distinct_ids m) (pos count : Nat)
    (buf : Nat → UInt8) (hpos : pos < capacity cfg m)
    (hbound : pos + count ≤ capacity cfg m) :
    ∃ stor1, scrmfs_fid_store_fixed_write cfg m stor pos buf count =
        some (SCRMFS_SUCCESS, stor1) ∧
      ∀ x, x < capacity cfg m →
        file_byte cfg m stor1 x =
          if pos ≤ x ∧ x < pos + count then buf (x - pos) else file_byte cfg m stor x := by
  have hcs := scrmfs_chunk_size_pos cfg
  obtain ⟨hp1, hp2, hp3⟩ := block_of_div (scrmfs_chunk_size cfg) pos hcs
  have hc := chunk_index_lt cfg m pos hpos
  unfold scrmfs_fid_store_fixed_write
  simp only [pos_shiftRight_chunk_bits, pos_and_chunk_mask]
  by_cases hfit : count ≤ scrmfs_chunk_size cfg - pos % scrmfs_chunk_size cfg
  · rw [if_pos hfit]
    obtain ⟨stor1, hw, hbytes⟩ := chunk_write_spec cfg m stor hv hdis
      (pos / scrmfs_chunk_size cfg) (pos % scrmfs_chunk_size cfg) buf 0 count hc (by omega)
    refine ⟨stor1, hw, fun x hx => ?_⟩
    obtain ⟨hx1, hx2, hx3⟩ := block_of_div (scrmfs_chunk_size cfg) x hcs
    unfold file_byte
    rw [hbytes _ _ (chunk_index_lt cfg m x hx) (Nat.mod_lt x hcs)]
    by_cases h3 : pos ≤ x ∧ x < pos + count
    · obtain ⟨hq, hr⟩ := div_mod_of_block (scrmfs_chunk_size cfg)
        (pos / scrmfs_chunk_size cfg) x (by omega) (by omega)
      rw [if_pos ⟨hq, by omega, by omega⟩, if_pos h3]
      congr 1
      omega
    · rw [if_neg h3, if_neg]
      rintro ⟨hq, hr1, hr2⟩
      rw [hq] at hx1 hx3
      apply h3
      omega
  · rw [if_neg hfit]
    obtain ⟨stor2, hw, hbytes⟩ := chunk_write_spec cfg m stor hv hdis
      (pos / scrmfs_chunk_size cfg) (pos % scrmfs_chunk_size cfg) buf 0
      (scrmfs_chunk_size cfg - pos % scrmfs_chunk_size cfg) hc (by omega)
    rw [hw]
    simp only
    obtain ⟨stor1, hl, hf⟩ := write_loop_spec cfg m hv hdis buf pos count hbound
      (count - (scrmfs_chunk_size cfg - pos % scrmfs_chunk_size cfg))
      (pos / scrmfs_chunk_size cfg) (scrmfs_chunk_size cfg - pos % scrmfs_chunk_size cfg)
      stor2 (le_refl _) (by omega) (fun _ => by omega)
    refine ⟨stor1, hl, fun x hx => ?_⟩
    obtain ⟨hx1, hx2, hx3⟩ := block_of_div (scrmfs_chunk_size cfg) x hcs
    rw [hf x hx]
    by_cases h2 : pos + (scrmfs_chunk_size cfg - pos % scrmfs_chunk_size cfg) ≤ x ∧
        x < pos + count
    · rw [if_pos h2, if_pos ⟨by omega, h2.2⟩]
    · rw [if_neg h2]
      unfold file_byte
      rw [hbytes _ _ (chunk_index_lt cfg m x hx) (Nat.mod_lt x hcs)]
      by_cases h3 : pos ≤ x ∧ x < pos + count
      · obtain ⟨hq, hr⟩ := div_mod_of_block (scrmfs_chunk_size cfg)
          (pos / scrmfs_chunk_size cfg) x (by omega) (by omega)
        rw [if_pos ⟨hq, by omega, by omega⟩, if_pos h3]
        congr 1
        omega
      · rw [if_neg h3, if_neg]
        rintro ⟨hq, hr1, hr2⟩
        rw [hq] at hx1 hx3
        apply h3
        omega

/-- The effect of the loop of `scrmfs_fid_store_fixed_read` entered at a chunk
boundary with `p` bytes read so far. -/
theorem read_loop_spec (cfg : scrmfs_config) (m : scrmfs_filemeta_t) (stor : chunk_storage)
    (hv : allocated_encoded cfg m) (pos count : Nat)
    (hbound : pos + count ≤ capacity cfg m) :
    ∀ (n c p : Nat) (buf : Nat → UInt8), count - p ≤ n → p ≤ count →
      (p < count → pos + p = c * scrmfs_chunk_size cfg + scrmfs_chunk_size cfg) →
      scrmfs_fid_store_fixed_read_loop cfg m stor count c p p SCRMFS_SUCCESS buf =
        some (SCRMFS_SUCCESS,
          fun k => if p ≤ k ∧ k < count then file_byte cfg m stor (pos + k) else buf k) := by
  have hcs := scrmfs_chunk_size_pos cfg
  intro n
  induction n with
  | zero =>
    intro c p buf hn hp _
    rw [read_loop_unfold, if_neg (by omega)]
    congr 2
    funext k
    rw [if_neg (by omega)]
  | succ n ih =>
    intro c p buf hn hp hblock
    by_cases hlt : p < count
    · obtain ⟨hnum0, hnum1, hnum2, hnum3⟩ := segment_length (scrmfs_chunk_size cfg) count p hcs hlt
      have hb := hblock hlt
      have hsucc : (c + 1) * scrmfs_chunk_size cfg =
          c * scrmfs_chunk_size cfg + scrmfs_chunk_size cfg := Nat.succ_mul _ _
      have hc1 : c + 1 < m.chunks := by
        apply Nat.lt_of_mul_lt_mul_right (a := scrmfs_chunk_size cfg)
        unfold capacity at hbound
        omega
      rw [read_loop_unfold, if_pos ⟨hlt, rfl⟩, chunk_read_spec cfg m stor hv (c + 1) 0 buf p _ hc1]
      simp only
      rw [ih (c + 1) _ _ (by omega) hnum2 (fun h => by rw [hsucc]; have := hnum3 h; omega)]
      congr 2
      funext k
      by_cases h2 : p + (if count - p > scrmfs_chunk_size cfg then scrmfs_chunk_size cfg
          else count - p) ≤ k ∧ k < count
      · rw [if_pos h2, if_pos ⟨by omega, h2.2⟩]
      · rw [if_neg h2]
        by_cases h3 : p ≤ k ∧ k < count
        · rw [if_pos ⟨h3.1, by omega⟩, if_pos h3]
          obtain ⟨hq, hr⟩ := div_mod_of_block (scrmfs_chunk_size cfg) (c + 1) (pos + k)
            (by omega) (by omega)
          unfold file_byte
          rw [hq, hr]
          congr 1
          omega
        · rw [if_neg h3, if_neg (by omega)]
    · rw [read_loop_unfold, if_neg (fun h => hlt h.1)]
      congr 2
      funext k
      rw [if_neg (by omega)]

/-- The effect of a read inside the capacity of a file with valid
descriptors: success, the first `count` bytes of the buffer are the bytes
`pos .. pos + count - 1` of the file, the rest of the buffer is as before. -/
theorem fid_read_spec (cfg : scrmfs_config) (m : scrmfs_filemeta_t) (stor : chunk_storage)
    (hv : allocated_encoded cfg m) (pos count : Nat) (buf : Nat → UInt8)
    (hpos : pos < capacity cfg m) (hbound : pos + count ≤ capacity cfg m) :
    scrmfs_fid_store_fixed_read cfg m stor pos buf count =
      some (SCRMFS_SUCCESS,
        fun k => if k < count then file_byte cfg m stor (pos + k) else buf k) := by
  have hcs := scrmfs_chunk_size_pos cfg
  obtain ⟨hp1, hp2, hp3⟩ := block_of_div (scrmfs_chunk_size cfg) pos hcs
  have hc := chunk_index_lt cfg m pos hpos
  unfold scrmfs_fid_store_fixed_read
  simp only [pos_shiftRight_chunk_bits, pos_and_chunk_mask]
  by_cases hfit : count ≤ scrmfs_chunk_size cfg - pos % scrmfs_chunk_size cfg
  · rw [if_pos hfit, chunk_read_spec cfg m stor hv _ _ buf 0 count hc]
    congr 2
    funext k
    by_cases hk : k < count
    · rw [if_pos ⟨Nat.zero_le _, by omega⟩, if_pos hk]
      obtain ⟨hq, hr⟩ := div_mod_of_block (scrmfs_chunk_size cfg)
        (pos / scrmfs_chunk_size cfg) (pos + k) (by omega) (by omega)
      unfold file_byte
      rw [hq, hr]
      congr 1
      omega
    · rw [if_neg (by omega), if_neg hk]
  · rw [if_neg hfit, chunk_read_spec cfg m stor hv _ _ buf 0 _ hc]
    simp only
    rw [read_loop_spec cfg m stor hv pos count hbound
      (count - (scrmfs_chunk_size cfg - pos % scrmfs_chunk_size cfg))
      (pos / scrmfs_chunk_size cfg) (scrmfs_chunk_size cfg - pos % scrmfs_chunk_size cfg)
      _ (le_refl _) (by omega) (fun _ => by omega)]
    congr 2
    funext k
    by_cases h2 : scrmfs_chunk_size cfg - pos % scrmfs_chunk_size cfg ≤ k ∧ k < count
    · rw [if_pos h2, if_pos h2.2]
    · rw [if_neg h2]
      by_cases hk : k < count
      · rw [if_pos ⟨Nat.zero_le _, by omega⟩, if_pos hk]
        obtain ⟨hq, hr⟩ := div_mod_of_block (scrmfs_chunk_size cfg)
          (pos / scrmfs_chunk_size cfg) (pos + k) (by omega) (by omega)
        unfold file_byte
        rw [hq, hr]
        congr 1
        omega
      · rw [if_neg (by omega), if_neg hk]

/-! ## Round trip of write and read -/

/-- C1 (as stated, refuted): the file with one memory chunk `{MemoryPool, 0}`
(`chunk_size = 4`, `max_memory_chunks = 2`) satisfies the hypotheses of the
round trip for `position = 4`, `count = 0` (`4 + 0 <= 1 * 4`), yet
`scrmfs_fid_store_fixed_write(4, data, 0)` looks at descriptor 1, which is
unset, and returns `IOError`, not success. -/
theorem C1_round_trip_refuted :
    allocated_encoded scenario_config one_chunk_file ∧ distinct_ids one_chunk_file ∧
      4 + 0 ≤ capacity scenario_config one_chunk_file ∧
      scrmfs_fid_store_fixed_write scenario_config one_chunk_file zero_storage 4 zero_buffer 0 =
        some ( SCRMFS_ERR_IO, zero_storage) ∧
      ¬ ∃ stor1, scrmfs_fid_store_fixed_write scenario_config one_chunk_file zero_storage 4
          zero_buffer 0 = some (SCRMFS_SUCCESS, stor1) := by
  have hw : scrmfs_fid_store_fixed_write scenario_config one_chunk_file zero_storage 4
      zero_buffer 0 = some ( SCRMFS_ERR_IO, zero_storage) := by
    simp [scrmfs_fid_store_fixed_write, scrmfs_chunk_write, scenario_config, one_chunk_file,
      unset_descriptor, scrmfs_chunk_size, scrmfs_chunk_mask]
  refine ⟨?_, ?_, by decide, hw, ?_⟩
  · intro i hi
    have hi0 : i = 0 := by
      simp only [one_chunk_file] at hi
      omega
    subst hi0
    refine ⟨{ location := CHUNK_LOCATION_MEMFS, id := 0 }, rfl, Or.inl rfl, ?_⟩
    simp [tier_encoding, scenario_config]
  · intro i j di dj hi hj _ _ _
    simp only [one_chunk_file] at hi hj
    omega
  · rintro ⟨stor1, h⟩
    rw [hw] at h
    cases h

/-- C1 (amended): for every file whose descriptors below `chunk_count` are
allocated, satisfy the tier-id encoding and have pairwise distinct physical
ids, for every position inside the capacity (`position < chunk_count *
chunk_size`, which `position + count <= chunk_count * chunk_size` gives
whenever `count > 0`), every `count` with `position + count <= chunk_count *
chunk_size` and every data, `scrmfs_fid_store_fixed_write(position, data,
count)` returns success and a following `scrmfs_fid_store_fixed_read(position,
out, count)` returns success with the first `count` bytes of `out` equal to
those of `data` (and the rest of `out` untouched), whatever chunks and tiers
the range spans. -/
theorem C1_round_trip_amended (cfg : scrmfs_config) (m : scrmfs_filemeta_t)
    (stor : chunk_storage) (pos count : Nat) (data : Nat → UInt8)
    (hv : allocated_encoded cfg m) (hdis : distinct_ids m)
    (hpos : pos < capacity cfg m) (hbound : pos + count ≤ capacity cfg m) :
    ∃ stor1, scrmfs_fid_store_fixed_write cfg m stor pos data count =
        some (SCRMFS_SUCCESS, stor1) ∧
      ∀ out0 : Nat → UInt8, ∃ out,
        scrmfs_fid_store_fixed_read cfg m stor1 pos out0 count = some (SCRMFS_SUCCESS, out) ∧
        (∀ k, k < count → out k = data k) ∧ (∀ k, count ≤ k → out k = out0 k) := by
  obtain ⟨stor1, hw, hbytes⟩ := fid_write_spec cfg m stor hv hdis pos count data hpos hbound
  refine ⟨stor1, hw, fun out0 => ⟨_, fid_read_spec cfg m stor1 hv pos count out0 hpos hbound,
    ?_, ?_⟩⟩
  · intro k hk
    rw [if_pos hk, hbytes (pos + k) (by omega), if_pos ⟨by omega, by omega⟩]
    congr 1
    omega
  · intro k hk
    rw [if_neg (by omega)]

/-- C1 (witness): the three-chunk file of the concrete scenario (two memory
chunks, one spillover chunk) with `position = 3` and `count = 9`, a range over
all three chunks and both tiers. -/
theorem C1_round_trip_amended_witness :
    allocated_encoded scenario_config scenario_three_chunks.fmeta ∧
      distinct_ids scenario_three_chunks.fmeta ∧
      3 < capacity scenario_config scenario_three_chunks.fmeta ∧
      3 + 9 ≤ capacity scenario_config scenario_three_chunks.fmeta ∧
      ∃ stor1, scrmfs_fid_store_fixed_write scenario_config scenario_three_chunks.fmeta
          zero_storage 3 (fun k => UInt8.ofNat (65 + k)) 9 = some (SCRMFS_SUCCESS, stor1) ∧
        ∀ out0 : Nat → UInt8, ∃ out,
          scrmfs_fid_store_fixed_read scenario_config scenario_three_chunks.fmeta stor1 3
              out0 9 = some (SCRMFS_SUCCESS, out) ∧
            (∀ k, k < 9 → out k = UInt8.ofNat (65 + k)) ∧ (∀ k, 9 ≤ k → out k = out0 k) := by
  have hv : allocated_encoded scenario_config scenario_three_chunks.fmeta := by
    intro i hi
    simp only [scenario_three_chunks] at hi
    have h3 : i = 0 ∨ i = 1 ∨ i = 2 := by omega
    rcases h3 with h | h | h <;> subst h
    · exact ⟨{ location := CHUNK_LOCATION_MEMFS, id := 0 }, rfl, Or.inl rfl,
        by simp [tier_encoding, scenario_config]⟩
    · exact ⟨{ location := CHUNK_LOCATION_MEMFS, id := 1 }, rfl, Or.inl rfl,
        by simp [tier_encoding, scenario_config]⟩
    · exact ⟨{ location := CHUNK_LOCATION_SPILLOVER, id := 2 }, rfl, Or.inr rfl,
        by simp [tier_encoding, scenario_config]⟩
  have hdis : distinct_ids scenario_three_chunks.fmeta := by
    intro i j di dj hi hj h1 h2 h
    simp only [scenario_three_chunks] at hi hj h1 h2
    have hi3 : i = 0 ∨ i = 1 ∨ i = 2 := by omega
    have hj3 : j = 0 ∨ j = 1 ∨ j = 2 := by omega
    rcases hi3 with hi3 | hi3 | hi3 <;> rcases hj3 with hj3 | hj3 | hj3 <;> subst hi3 <;>
      subst hj3 <;> simp at h1 h2 <;> subst h1 <;> subst h2 <;> simp at h ⊢
  exact ⟨hv, hdis, by decide, by decide,
    C1_round_trip_amended scenario_config scenario_three_chunks.fmeta zero_storage 3 9
      (fun k => UInt8.ofNat (65 + k)) hv hdis (by decide) (by decide)⟩

/-! ## Release of a chunk -/

theorem set_of_getElem? {α : Type} (l : List α) (i : Nat) (d : α) (hd : l[i]? = some d) :
    l.set i d = l := by
  apply List.ext_getElem?
  intro j
  rw [List.getElem?_set]
  split
  · rename_i hij
    subst hij
    rw [hd, if_pos (lt_length_of_getElem? hd)]
  · rfl

theorem alloc_memfs_pop (cfg : scrmfs_config) (st : fixed_state) (i : Nat) (id : Int)
    (rest : List Int) (hm : cfg.scrmfs_use_memfs = true)
    (hs : st.free_chunk_stack = id :: rest) (hid : 0 ≤ id)
    (hslot : i < st.fmeta.chunk_meta.length) :
    scrmfs_chunk_alloc cfg st i = some (SCRMFS_SUCCESS,
      { fmeta := { chunks := st.fmeta.chunks,
                   chunk_meta := st.fmeta.chunk_meta.set i
                     { location := CHUNK_LOCATION_MEMFS, id := id } },
        free_chunk_stack := rest,
        free_spillchunk_stack := st.free_spillchunk_stack }) := by
  unfold scrmfs_chunk_alloc
  rw [hs]
  simp [hm, scrmfs_stack_pop, hid, store_chunkmeta, hslot]

/-- C11 (the code at the failing input): with `max_memory_chunks = 2`, freeing
the descriptor `{SpilloverDevice, 2}` in slot 2 succeeds and unsets the
descriptor, but the spillover free stack `[1]` is left as it is, the local id
0 is not pushed; the following allocation for the slot (memory stack empty)
takes the local id 1 and yields `{SpilloverDevice, 3}`, not physical id 2
again. -/
theorem C11_spill_free_does_not_recycle :
    scrmfs_chunk_free scenario_three_chunks 2 =
      some (SCRMFS_SUCCESS,
        { fmeta := { chunks := 3,
                     chunk_meta := [{ location := CHUNK_LOCATION_MEMFS, id := 0 },
                                    { location := CHUNK_LOCATION_MEMFS, id := 1 },
                                    { location := CHUNK_LOCATION_NULL, id := 2 }] },
          free_chunk_stack := [],
          free_spillchunk_stack := [1] }) ∧
    scrmfs_chunk_alloc scenario_config
        { fmeta := { chunks := 3,
                     chunk_meta := [{ location := CHUNK_LOCATION_MEMFS, id := 0 },
                                    { location := CHUNK_LOCATION_MEMFS, id := 1 },
                                    { location := CHUNK_LOCATION_NULL, id := 2 }] },
          free_chunk_stack := [],
          free_spillchunk_stack := [1] } 2 =
      some (SCRMFS_SUCCESS,
        { fmeta := { chunks := 3,
                     chunk_meta := [{ location := CHUNK_LOCATION_MEMFS, id := 0 },
                                    { location := CHUNK_LOCATION_MEMFS, id := 1 },
                                    { location := CHUNK_LOCATION_SPILLOVER, id := 3 }] },
          free_chunk_stack := [],
          free_spillchunk_stack := [] }) := by
  constructor
  · simp [scrmfs_chunk_free, scenario_three_chunks]
  · simp [scrmfs_chunk_alloc, scrmfs_chunk_alloc_spill, scrmfs_stack_pop, store_chunkmeta,
      scenario_config]

/-- C12: with the memory tier enabled, for every state of the memory free
stack and every slot holding a descriptor `{MemoryPool, X}` (`X` an id, hence
non-negative), `scrmfs_chunk_free` succeeds and puts `X` on top of the memory
free stack, and `scrmfs_chunk_alloc` called next on the slot succeeds, yields
the descriptor `{MemoryPool, X}` again and leaves the memory free stack as it
was before the free; the whole state is the one before the free. -/
theorem C12_lifo_reuse_memory (cfg : scrmfs_config) (st : fixed_state) (chunk_id : Nat)
    (X : Int) (hm : cfg.scrmfs_use_memfs = true)
    (hd : st.fmeta.chunk_meta[chunk_id]? = some { location := CHUNK_LOCATION_MEMFS, id := X })
    (hX : 0 ≤ X) :
    ∃ st1 st2, scrmfs_chunk_free st chunk_id = some (SCRMFS_SUCCESS, st1) ∧
      st1.free_chunk_stack = X :: st.free_chunk_stack ∧
      scrmfs_chunk_alloc cfg st1 chunk_id = some (SCRMFS_SUCCESS, st2) ∧
      st2.fmeta.chunk_meta[chunk_id]? = some { location := CHUNK_LOCATION_MEMFS, id := X } ∧
      st2.free_chunk_stack = st.free_chunk_stack ∧
      st2 = st := by
  have hlen := lt_length_of_getElem? hd
  have hfree := scrmfs_chunk_free_spec st chunk_id _ hd
  simp only [true_or, if_true, freed_memfs_ids_singleton] at hfree
  have hal := alloc_memfs_pop cfg
    { fmeta := { chunks := st.fmeta.chunks,
                 chunk_meta := st.fmeta.chunk_meta.set chunk_id
                   (freed_descriptor { location := CHUNK_LOCATION_MEMFS, id := X }) },
      free_chunk_stack := [X] ++ st.free_chunk_stack,
      free_spillchunk_stack := st.free_spillchunk_stack } chunk_id X st.free_chunk_stack hm rfl hX
    (by simp only [List.length_set]; exact hlen)
  simp only [List.set_set, set_of_getElem? _ _ _ hd] at hal
  exact ⟨_, _, hfree, rfl, hal, hd, rfl, rfl⟩

/-- C12 (witness): in the extended state of the concrete scenario slot 1
holds `{MemoryPool, 1}`; free then allocate gives the state back. -/
theorem C12_lifo_reuse_memory_witness :
    scenario_config.scrmfs_use_memfs = true ∧
      scenario_extended.fmeta.chunk_meta[1]? =
        some { location := CHUNK_LOCATION_MEMFS, id := 1 } ∧
      ∃ st1 st2, scrmfs_chunk_free scenario_extended 1 = some (SCRMFS_SUCCESS, st1) ∧
        scrmfs_chunk_alloc scenario_config st1 1 = some (SCRMFS_SUCCESS, st2) ∧
        st2 = scenario_extended := by
  refine ⟨rfl, rfl, ?_⟩
  obtain ⟨st1, st2, h1, -, h2, -, -, h3⟩ :=
    C12_lifo_reuse_memory scenario_config scenario_extended 1 1 rfl rfl (by decide)
  exact ⟨st1, st2, h1, h2, h3⟩

/-- C13: for every slot whose descriptor has a location other than the memory
pool and the spillover device (unset, or the reserved container value),
`scrmfs_chunk_free` returns `IOError` and leaves the whole state unchanged:
the descriptor with its location and physical id, the memory free stack and
the spillover free stack. -/
theorem C13_invalid_free_rejected (st : fixed_state) (chunk_id : Nat) (d : scrmfs_chunkmeta_t)
    (hd : st.fmeta.chunk_meta[chunk_id]? = some d)
    (h1 : d.location ≠ CHUNK_LOCATION_MEMFS) (h2 : d.location ≠ CHUNK_LOCATION_SPILLOVER) :
    ∃ st1, scrmfs_chunk_free st chunk_id = some ( SCRMFS_ERR_IO, st1) ∧
      st1.fmeta.chunk_meta[chunk_id]? = some d ∧
      st1.fmeta = st.fmeta ∧
      st1.free_chunk_stack = st.free_chunk_stack ∧
      st1.free_spillchunk_stack = st.free_spillchunk_stack ∧
      st1 = st := by
  refine ⟨st, ?_, hd, rfl, rfl, rfl, rfl⟩
  unfold scrmfs_chunk_free
  rw [hd]
  simp only
  rw [if_neg h1, if_neg h2]

/-- C13 (witness): slot 2 of the extended state of the concrete scenario is
unset; freeing it is refused with `IOError` and changes nothing. -/
theorem C13_invalid_free_rejected_witness :
    scenario_extended.fmeta.chunk_meta[2]? = some unset_descriptor ∧
      unset_descriptor.location ≠ CHUNK_LOCATION_MEMFS ∧
      unset_descriptor.location ≠ CHUNK_LOCATION_SPILLOVER ∧
      ∃ st1, scrmfs_chunk_free scenario_extended 2 = some ( SCRMFS_ERR_IO, st1) ∧
        st1 = scenario_extended := by
  refine ⟨rfl, by decide, by decide, ?_⟩
  obtain ⟨st1, h, -, -, -, -, h2⟩ :=
    C13_invalid_free_rejected scenario_extended 2 unset_descriptor rfl (by decide) (by decide)
  exact ⟨st1, h, h2⟩

/-! ## The address maps -/

/-- C17: for a slot holding the physical id `p` and an offset below the chunk
size, `scrmfs_compute_chunk_buf` returns the pool address (as a byte offset
from the pool base `scrmfs_chunks`) `p * chunk_size + offset` when `p` is in
`0 .. max_memory_chunks - 1`, and `scrmfs_compute_spill_offset` returns
`(p - max_memory_chunks) * chunk_size + offset`, inside the bytes
`N * chunk_size .. (N + 1) * chunk_size - 1` of the device for
`N = p - max_memory_chunks`, when `p` is in `max_memory_chunks ..
max_memory_chunks + max_spill_chunks - 1`; an id of the other tier is
rejected (`NULL`, here `none`, respectively `-1`); both maps are injective on
(physical id, offset); and with the header's constants (`chunk_bits = 24`, 16
memory chunks, 64 spillover chunks) the shifted values fit a 32-bit `int`. -/
theorem C17_chunk_address_maps (cfg : scrmfs_config) (m : scrmfs_filemeta_t)
    (logical_id : Nat) (d : scrmfs_chunkmeta_t) (off : Nat)
    (hd : m.chunk_meta[logical_id]? = some d) (hoff : off < scrmfs_chunk_size cfg) :
    (0 ≤ d.id → d.id < (cfg.scrmfs_max_chunks : Int) →
      scrmfs_compute_chunk_buf cfg m logical_id off =
        some (d.id * (scrmfs_chunk_size cfg : Int) + (off : Int))) ∧
    ((cfg.scrmfs_max_chunks : Int) ≤ d.id →
      d.id < (cfg.scrmfs_max_chunks : Int) + (cfg.scrmfs_spillover_max_chunks : Int) →
      scrmfs_compute_spill_offset cfg m logical_id off =
          (d.id - (cfg.scrmfs_max_chunks : Int)) * (scrmfs_chunk_size cfg : Int) + (off : Int) ∧
        (d.id - (cfg.scrmfs_max_chunks : Int)) * (scrmfs_chunk_size cfg : Int) ≤
          scrmfs_compute_spill_offset cfg m logical_id off ∧
        scrmfs_compute_spill_offset cfg m logical_id off <
          (d.id - (cfg.scrmfs_max_chunks : Int) + 1) * (scrmfs_chunk_size cfg : Int)) ∧
    ((cfg.scrmfs_max_chunks : Int) ≤ d.id →
      scrmfs_compute_chunk_buf cfg m logical_id off = none) ∧
    (d.id < (cfg.scrmfs_max_chunks : Int) →
      scrmfs_compute_spill_offset cfg m logical_id off = -1) ∧
    (∀ (m2 : scrmfs_filemeta_t) (logical_id2 : Nat) (d2 : scrmfs_chunkmeta_t) (off2 : Nat),
      m2.chunk_meta[logical_id2]? = some d2 → off2 < scrmfs_chunk_size cfg →
      d.id < (cfg.scrmfs_max_chunks : Int) → d2.id < (cfg.scrmfs_max_chunks : Int) →
      scrmfs_compute_chunk_buf cfg m logical_id off =
        scrmfs_compute_chunk_buf cfg m2 logical_id2 off2 →
      d.id = d2.id ∧ off = off2) ∧
    (∀ (m2 : scrmfs_filemeta_t) (logical_id2 : Nat) (d2 : scrmfs_chunkmeta_t) (off2 : Nat),
      m2.chunk_meta[logical_id2]? = some d2 → off2 < scrmfs_chunk_size cfg →
      (cfg.scrmfs_max_chunks : Int) ≤ d.id → (cfg.scrmfs_max_chunks : Int) ≤ d2.id →
      scrmfs_compute_spill_offset cfg m logical_id off =
        scrmfs_compute_spill_offset cfg m2 logical_id2 off2 →
      d.id = d2.id ∧ off = off2) ∧
    (SCRMFS_MAX_CHUNKS = 16 ∧ SCRMFS_MAX_SPILL_CHUNKS = 64 ∧
      (∀ p : Int, 0 ≤ p → p < (SCRMFS_MAX_CHUNKS : Int) →
        int32_wrap (p * 2 ^ SCRMFS_CHUNK_BITS) = p * 2 ^ SCRMFS_CHUNK_BITS) ∧
      (∀ p : Int, (SCRMFS_MAX_CHUNKS : Int) ≤ p →
        p < (SCRMFS_MAX_CHUNKS : Int) + (SCRMFS_MAX_SPILL_CHUNKS : Int) →
        int32_wrap ((p - (SCRMFS_MAX_CHUNKS : Int)) * 2 ^ SCRMFS_CHUNK_BITS) =
          (p - (SCRMFS_MAX_CHUNKS : Int)) * 2 ^ SCRMFS_CHUNK_BITS)) := by
  have hcs := scrmfs_chunk_size_pos cfg
  have hblock : ∀ (x y : Int) (r s : Nat), r < scrmfs_chunk_size cfg →
      s < scrmfs_chunk_size cfg →
      shl_chunk_bits cfg x + (r : Int) = shl_chunk_bits cfg y + (s : Int) → x = y ∧ r = s := by
    intro x y r s hr hs h
    rw [shl_chunk_bits_eq, shl_chunk_bits_eq] at h
    have hxy : x = y := block_number_unique (scrmfs_chunk_size cfg : Int) x y
      (x * (scrmfs_chunk_size cfg : Int) + (r : Int)) (by omega) (by omega) (by omega) (by omega)
    subst hxy
    exact ⟨rfl, by omega⟩
  refine ⟨?_, ?_, ?_, ?_, ?_, ?_, ?_⟩
  · intro _ hlt
    rw [compute_chunk_buf_memfs cfg m logical_id off d hd hlt, shl_chunk_bits_eq]
  · intro hge _
    rw [compute_spill_offset_spill cfg m logical_id off d hd hge, shl_chunk_bits_eq]
    have e : (d.id - (cfg.scrmfs_max_chunks : Int) + 1) * (scrmfs_chunk_size cfg : Int) =
        (d.id - (cfg.scrmfs_max_chunks : Int)) * (scrmfs_chunk_size cfg : Int) +
          (scrmfs_chunk_size cfg : Int) := by ring
    rw [e]
    exact ⟨rfl, by omega, by omega⟩
  · intro hge
    unfold scrmfs_compute_chunk_buf
    rw [hd]
    simp only
    rw [if_neg (by omega)]
  · intro hlt
    unfold scrmfs_compute_spill_offset
    rw [hd]
    simp only
    rw [if_pos hlt]
  · intro m2 l2 d2 off2 hd2 hoff2 h1 h2 heq
    rw [compute_chunk_buf_memfs cfg m logical_id off d hd h1,
      compute_chunk_buf_memfs cfg m2 l2 off2 d2 hd2 h2] at heq
    exact hblock _ _ _ _ hoff hoff2 (Option.some.inj heq)
  · intro m2 l2 d2 off2 hd2 hoff2 h1 h2 heq
    rw [compute_spill_offset_spill cfg m logical_id off d hd h1,
      compute_spill_offset_spill cfg m2 l2 off2 d2 hd2 h2] at heq
    obtain ⟨h3, h4⟩ := hblock _ _ _ _ hoff hoff2 heq
    exact ⟨by omega, h4⟩
  · have h16 : SCRMFS_MAX_CHUNKS = 16 := by decide
    have h64 : SCRMFS_MAX_SPILL_CHUNKS = 64 := by decide
    refine ⟨h16, h64, ?_, ?_⟩
    · intro p h0 h1
      rw [h16] at h1
      unfold int32_wrap SCRMFS_CHUNK_BITS
      omega
    · intro p h0 h1
      rw [h16, h64] at h1
      rw [h16]
      unfold int32_wrap SCRMFS_CHUNK_BITS
      omega

/-- C17 (witness): in the three-chunk file of the concrete scenario slot 2
holds the spillover id 2; offset 3 is below the chunk size 4, and the device
offset of that byte is 3. -/
theorem C17_chunk_address_maps_witness :
    scenario_three_chunks.fmeta.chunk_meta[2]? =
        some { location := CHUNK_LOCATION_SPILLOVER, id := 2 } ∧
      3 < scrmfs_chunk_size scenario_config ∧
      scrmfs_compute_spill_offset scenario_config scenario_three_chunks.fmeta 2 3 = 3 ∧
      scrmfs_compute_chunk_buf scenario_config scenario_three_chunks.fmeta 2 3 = none := by
  have h := C17_chunk_address_maps scenario_config scenario_three_chunks.fmeta 2
    { location := CHUNK_LOCATION_SPILLOVER, id := 2 } 3 rfl (by decide)
  refine ⟨rfl, by decide, ?_, h.2.2.1 (by decide)⟩
  have h2 := (h.2.1 (by decide) (by decide)).1
  rw [h2]
  decide

/-! ## Shrink followed by extend -/

/-- The extend loop on a memory free stack that starts with the non-negative
ids `ids`, asked for `ids.length` chunks: it pops them one after the other
into the next slots. -/
theorem extend_loop_pops (cfg : scrmfs_config) (hm : cfg.scrmfs_use_memfs = true) :
    ∀ (ids : List Int) (st : fixed_state) (rest : List Int),
      st.free_chunk_stack = ids ++ rest → (∀ x ∈ ids, 0 ≤ x) →
      st.fmeta.chunks + ids.length ≤ cfg.scrmfs_max_chunks →
      st.fmeta.chunks + ids.length ≤ st.fmeta.chunk_meta.length →
      ∃ st1, scrmfs_fid_store_fixed_extend_loop cfg st
          ((ids.length * scrmfs_chunk_size cfg : Nat) : Int) = some (SCRMFS_SUCCESS, st1) ∧
        st1.fmeta.chunks = st.fmeta.chunks + ids.length ∧
        st1.free_chunk_stack = rest ∧
        st1.free_spillchunk_stack = st.free_spillchunk_stack ∧
        ∀ i, st1.fmeta.chunk_meta[i]? =
          if st.fmeta.chunks ≤ i ∧ i < st.fmeta.chunks + ids.length then
            (ids[i - st.fmeta.chunks]?).map
              (fun x => ({ location := CHUNK_LOCATION_MEMFS, id := x } : scrmfs_chunkmeta_t))
          else st.fmeta.chunk_meta[i]? := by
  have hcs := scrmfs_chunk_size_pos cfg
  intro ids
  induction ids with
  | nil =>
    intro st rest hs _ _ _
    rw [extend_loop_unfold, if_neg (by simp)]
    refine ⟨st, rfl, rfl, hs, rfl, fun i => ?_⟩
    rw [if_neg (by simp)]
  | cons x xs ih =>
    intro st rest hs hpos hmax hlen
    simp only [List.length_cons] at hmax hlen ⊢
    have hal := alloc_memfs_pop cfg st st.fmeta.chunks x (xs ++ rest) hm hs
      (hpos x (List.mem_cons_self _ _)) (by omega)
    have hadd : (((xs.length + 1) * scrmfs_chunk_size cfg : Nat) : Int) > 0 := by
      have : 0 < (xs.length + 1) * scrmfs_chunk_size cfg := Nat.mul_pos (by omega) hcs
      omega
    rw [extend_loop_unfold, if_pos hadd, if_neg (by omega), hal]
    simp only [ne_eq, not_true_eq_false, if_false]
    have hsub : (((xs.length + 1) * scrmfs_chunk_size cfg : Nat) : Int) -
        (scrmfs_chunk_size cfg : Int) = ((xs.length * scrmfs_chunk_size cfg : Nat) : Int) := by
      rw [Nat.succ_mul]
      push_cast
      omega
    rw [hsub]
    obtain ⟨st1, h1, hc, hms, hss, hds⟩ := ih
      (incr_chunks
        { fmeta := { chunks := st.fmeta.chunks,
                     chunk_meta := st.fmeta.chunk_meta.set st.fmeta.chunks
                       { location := CHUNK_LOCATION_MEMFS, id := x } },
          free_chunk_stack := xs ++ rest,
          free_spillchunk_stack := st.free_spillchunk_stack })
      rest rfl (fun y hy => hpos y (List.mem_cons_of_mem _ hy))
      (by simp only [incr_chunks_chunks]; omega)
      (by simp only [incr_chunks_chunks, incr_chunks_chunk_meta, List.length_set]; omega)
    simp only [incr_chunks_chunks, incr_chunks_chunk_meta, incr_chunks_free_spillchunk_stack]
      at hc hss hds
    refine ⟨st1, h1, by omega, hms, hss, fun i => ?_⟩
    rw [hds i]
    by_cases hi : st.fmeta.chunks + 1 ≤ i ∧ i < st.fmeta.chunks + 1 + xs.length
    · rw [if_pos hi, if_pos ⟨by omega, by omega⟩]
      have e : i - st.fmeta.chunks = (i - (st.fmeta.chunks + 1)) + 1 := by omega
      rw [e, List.getElem?_cons_succ]
    · rw [if_neg hi]
      by_cases hic : i = st.fmeta.chunks
      · subst hic
        rw [List.getElem?_set_self (by omega), if_pos ⟨le_refl _, by omega⟩]
        simp
      · rw [List.getElem?_set_ne (fun h => hic h.symm), if_neg (by omega)]

theorem freed_memfs_ids_of_memfs (l : List scrmfs_chunkmeta_t)
    (h : ∀ d ∈ l, d.location = CHUNK_LOCATION_MEMFS) :
    freed_memfs_ids l = l.map (fun d => d.id) := by
  unfold freed_memfs_ids
  rw [List.filter_eq_self.mpr]
  intro d hd
  simp [h d hd]

/-- C20: with the memory tier enabled, for every file with `chunk_count = n`
at most the per-file maximum whose descriptors below `n` are all in the memory
pool (with ids, hence non-negative), and every target length,
`scrmfs_fid_store_fixed_shrink(target_length)` followed by
`scrmfs_fid_store_fixed_extend(n * chunk_size)` succeeds and yields
`chunk_count = n`, the same descriptor at every index below `n` and the memory
free stack of before the shrink; the whole state is the one before the
shrink. -/
theorem C20_shrink_extend_restores (cfg : scrmfs_config) (st : fixed_state) (length : Int)
    (hm : cfg.scrmfs_use_memfs = true)
    (hn : st.fmeta.chunks ≤ cfg.scrmfs_max_chunks)
    (hlive : ∀ i, i < st.fmeta.chunks → ∃ d, st.fmeta.chunk_meta[i]? = some d ∧
      d.location = CHUNK_LOCATION_MEMFS ∧ 0 ≤ d.id) :
    ∃ st1 st2, scrmfs_fid_store_fixed_shrink cfg st length = some (SCRMFS_SUCCESS, st1) ∧
      scrmfs_fid_store_fixed_extend cfg st1
          ((st.fmeta.chunks * scrmfs_chunk_size cfg : Nat) : Int) =
        some (SCRMFS_SUCCESS, st2) ∧
      st2.fmeta.chunks = st.fmeta.chunks ∧
      (∀ i, i < st.fmeta.chunks → st2.fmeta.chunk_meta[i]? = st.fmeta.chunk_meta[i]?) ∧
      st2.free_chunk_stack = st.free_chunk_stack ∧
      st2 = st := by
  have hcs := scrmfs_chunk_size_pos cfg
  have hlen : st.fmeta.chunks ≤ st.fmeta.chunk_meta.length := by
    rcases Nat.eq_zero_or_pos st.fmeta.chunks with h | h
    · omega
    · obtain ⟨d, hd, -⟩ := hlive (st.fmeta.chunks - 1) (by omega)
      have := lt_length_of_getElem? hd
      omega
  have ht := shrink_num_chunks cfg length
  obtain ⟨st1, h1, hc, hl, hds, hms, hss⟩ :=
    shrink_loop_spec _ ht st.fmeta.chunks st rfl hlen
  have hshrink : scrmfs_fid_store_fixed_shrink cfg st length = some (SCRMFS_SUCCESS, st1) := by
    unfold scrmfs_fid_store_fixed_shrink
    simp only
    rw [h1]
  have hcle : st1.fmeta.chunks ≤ st.fmeta.chunks := by omega
  rw [← hc] at hds hms
  have hslice : ∀ d ∈ (st.fmeta.chunk_meta.take st.fmeta.chunks).drop st1.fmeta.chunks,
      d.location = CHUNK_LOCATION_MEMFS ∧ 0 ≤ d.id := by
    intro d hd
    obtain ⟨j, hj⟩ := List.mem_iff_getElem?.mp hd
    rw [List.getElem?_drop, List.getElem?_take] at hj
    split at hj
    · rename_i hlt
      obtain ⟨d2, hd2, hp⟩ := hlive _ hlt
      rw [hd2] at hj
      cases hj
      exact hp
    · cases hj
  rw [freed_memfs_ids_of_memfs _ (fun d hd => (hslice d hd).1)] at hms
  have hidlen : (((st.fmeta.chunk_meta.take st.fmeta.chunks).drop st1.fmeta.chunks).map
      (fun d => d.id)).length = st.fmeta.chunks - st1.fmeta.chunks := by
    rw [List.length_map, List.length_drop, List.length_take]
    omega
  obtain ⟨st2, h2, hc2, hms2, hss2, hds2⟩ := extend_loop_pops cfg hm _ st1 st.free_chunk_stack
    hms (fun x hx => by
      obtain ⟨d, hd, hx2⟩ := List.mem_map.mp hx
      rw [← hx2]
      exact (hslice d hd).2)
    (by rw [hidlen]; omega) (by rw [hidlen, hl]; omega)
  rw [hidlen] at h2 hc2 hds2
  have hdesc : ∀ i : Nat, st2.fmeta.chunk_meta[i]? = st.fmeta.chunk_meta[i]? := by
    intro i
    rw [hds2 i]
    by_cases hi : st1.fmeta.chunks ≤ i ∧ i < st1.fmeta.chunks + (st.fmeta.chunks - st1.fmeta.chunks)
    · rw [if_pos hi]
      obtain ⟨d, hd, hloc, -⟩ := hlive i (by omega)
      rw [List.getElem?_map, List.getElem?_drop, List.getElem?_take,
        if_pos (by omega)]
      have e : st1.fmeta.chunks + (i - st1.fmeta.chunks) = i := by omega
      rw [e, hd]
      simp only [Option.map_some']
      congr 1
      cases d
      simp only at hloc
      rw [hloc]
    · rw [if_neg hi]
      cases hget : st.fmeta.chunk_meta[i]? with
      | none =>
        have : st.fmeta.chunk_meta.length ≤ i := by
          by_contra hlt
          obtain ⟨d, hd⟩ := getElem?_exists st.fmeta.chunk_meta i (by omega)
          rw [hd] at hget
          cases hget
        rw [List.getElem?_eq_none (by omega)]
      | some d =>
        rw [hds i d hget, if_neg (by omega)]
  have hst2 : st2 = st := by
    have hcm : st2.fmeta.chunk_meta = st.fmeta.chunk_meta := List.ext_getElem? hdesc
    have hch : st2.fmeta.chunks = st.fmeta.chunks := by omega
    cases st2 with
    | mk fm2 ms2 ss2 =>
      cases st with
      | mk fm ms ss =>
        cases fm2
        cases fm
        simp only at hcm hch hms2 hss2 hss
        subst hcm
        subst hch
        subst hms2
        rw [hss2, hss]
  have hext : scrmfs_fid_store_fixed_extend cfg st1
      ((st.fmeta.chunks * scrmfs_chunk_size cfg : Nat) : Int) = some (SCRMFS_SUCCESS, st2) := by
    unfold scrmfs_fid_store_fixed_extend
    simp only [shiftLeft_chunk_bits]
    by_cases hlt : st1.fmeta.chunks < st.fmeta.chunks
    · have hmul : st1.fmeta.chunks * scrmfs_chunk_size cfg <
          st.fmeta.chunks * scrmfs_chunk_size cfg := Nat.mul_lt_mul_of_pos_right hlt hcs
      rw [if_pos (by omega)]
      have e : ((st.fmeta.chunks * scrmfs_chunk_size cfg : Nat) : Int) -
          ((st1.fmeta.chunks * scrmfs_chunk_size cfg : Nat) : Int) =
          (((st.fmeta.chunks - st1.fmeta.chunks) * scrmfs_chunk_size cfg : Nat) : Int) := by
        rw [Nat.sub_mul]
        omega
      rw [e]
      exact h2
    · have heq : st1.fmeta.chunks = st.fmeta.chunks := by omega
      rw [heq, if_neg (by omega)]
      have hz : st.fmeta.chunks - st1.fmeta.chunks = 0 := by omega
      rw [hz, Nat.zero_mul, extend_loop_unfold, if_neg (by simp)] at h2
      exact h2
  exact ⟨st1, st2, hshrink, hext, by rw [hst2], fun i _ => hdesc i, by rw [hst2], hst2⟩

/-- C20 (witness): the extended state of the concrete scenario (two memory
chunks, the per-file maximum) shrunk to length 0 and extended again to its two
chunks is the state it was. -/
theorem C20_shrink_extend_restores_witness :
    scenario_config.scrmfs_use_memfs = true ∧
      scenario_extended.fmeta.chunks ≤ scenario_config.scrmfs_max_chunks ∧
      (∀ i, i < scenario_extended.fmeta.chunks →
        ∃ d, scenario_extended.fmeta.chunk_meta[i]? = some d ∧
          d.location = CHUNK_LOCATION_MEMFS ∧ 0 ≤ d.id) ∧
      ∃ st1 st2, scrmfs_fid_store_fixed_shrink scenario_config scenario_extended 0 =
          some (SCRMFS_SUCCESS, st1) ∧
        scrmfs_fid_store_fixed_extend scenario_config st1
            ((scenario_extended.fmeta.chunks * scrmfs_chunk_size scenario_config : Nat) : Int) =
          some (SCRMFS_SUCCESS, st2) ∧
        st2 = scenario_extended := by
  have hlive : ∀ i, i < scenario_extended.fmeta.chunks →
      ∃ d, scenario_extended.fmeta.chunk_meta[i]? = some d ∧
        d.location = CHUNK_LOCATION_MEMFS ∧ 0 ≤ d.id := by
    intro i hi
    simp only [scenario_extended] at hi
    have h2 : i = 0 ∨ i = 1 := by omega
    rcases h2 with h | h <;> subst h
    · exact ⟨{ location := CHUNK_LOCATION_MEMFS, id := 0 }, rfl, rfl, by decide⟩
    · exact ⟨{ location := CHUNK_LOCATION_MEMFS, id := 1 }, rfl, rfl, by decide⟩
  refine ⟨rfl, by decide, hlive, ?_⟩
  obtain ⟨st1, st2, h1, h2, -, -, -, h3⟩ :=
    C20_shrink_extend_restores scenario_config scenario_extended 0 rfl (by decide) hlive
  exact ⟨st1, st2, h1, h2, h3⟩

/-! ## The segments of a byte range -/

theorem fixed_loop_segments_unfold (cfg : scrmfs_config) (count chunk_id ptr processed : Nat) :
    fixed_loop_segments cfg count chunk_id ptr processed =
      if processed < count then
        { chunk_id := chunk_id + 1, chunk_offset := 0, ptr := ptr,
          count := (if count - processed > scrmfs_chunk_size cfg then scrmfs_chunk_size cfg
            else count - processed) } ::
          fixed_loop_segments cfg count (chunk_id + 1)
            (ptr + (if count - processed > scrmfs_chunk_size cfg then scrmfs_chunk_size cfg
              else count - processed))
            (processed + (if count - processed > scrmfs_chunk_size cfg then
              scrmfs_chunk_size cfg else count - processed))
      else [] := by
  rw [fixed_loop_segments]

theorem read_loop_failed (cfg : scrmfs_config) (m : scrmfs_filemeta_t) (stor : chunk_storage)
    (count chunk_id ptr processed : Nat) (rc : scrmfs_rc) (buf : Nat → UInt8)
    (hrc : rc ≠ SCRMFS_SUCCESS) :
    scrmfs_fid_store_fixed_read_loop cfg m stor count chunk_id ptr processed rc buf =
      some (rc, buf) := by
  rw [read_loop_unfold, if_neg (fun h => hrc h.2)]

theorem write_loop_failed (cfg : scrmfs_config) (m : scrmfs_filemeta_t) (buf : Nat → UInt8)
    (count chunk_id ptr processed : Nat) (rc : scrmfs_rc) (stor : chunk_storage)
    (hrc : rc ≠ SCRMFS_SUCCESS) :
    scrmfs_fid_store_fixed_write_loop cfg m buf count chunk_id ptr processed rc stor =
      some (rc, stor) := by
  rw [write_loop_unfold, if_neg (fun h => hrc h.2)]

theorem read_loop_eq_segments (cfg : scrmfs_config) (m : scrmfs_filemeta_t)
    (stor : chunk_storage) (count : Nat) :
    ∀ (n chunk_id ptr processed : Nat) (buf : Nat → UInt8), count - processed ≤ n →
      scrmfs_fid_store_fixed_read_loop cfg m stor count chunk_id ptr processed
          SCRMFS_SUCCESS buf =
        read_segments cfg m stor (fixed_loop_segments cfg count chunk_id ptr processed) buf := by
  have hcs := scrmfs_chunk_size_pos cfg
  intro n
  induction n with
  | zero =>
    intro c q p buf hn
    rw [read_loop_unfold, fixed_loop_segments_unfold, if_neg (by omega), if_neg (by omega)]
    rfl
  | succ n ih =>
    intro c q p buf hn
    rw [read_loop_unfold, fixed_loop_segments_unfold]
    by_cases hlt : p < count
    · obtain ⟨hnum0, -, -, -⟩ := segment_length (scrmfs_chunk_size cfg) count p hcs hlt
      rw [if_pos ⟨hlt, rfl⟩, if_pos hlt]
      simp only [read_segments]
      cases hcall : scrmfs_chunk_read cfg m stor (c + 1) 0 buf q
          (if count - p > scrmfs_chunk_size cfg then scrmfs_chunk_size cfg else count - p) with
      | none => rfl
      | some r =>
        obtain ⟨rc1, buf1⟩ := r
        simp only
        by_cases hrc : rc1 = SCRMFS_SUCCESS
        · subst hrc
          rw [if_pos rfl]
          exact ih _ _ _ _ (by omega)
        · rw [if_neg hrc]
          exact read_loop_failed cfg m stor count _ _ _ rc1 buf1 hrc
    · rw [if_neg (fun h => hlt h.1), if_neg hlt]
      rfl

theorem write_loop_eq_segments (cfg : scrmfs_config) (m : scrmfs_filemeta_t)
    (buf : Nat → UInt8) (count : Nat) :
    ∀ (n chunk_id ptr processed : Nat) (stor : chunk_storage), count - processed ≤ n →
      scrmfs_fid_store_fixed_write_loop cfg m buf count chunk_id ptr processed
          SCRMFS_SUCCESS stor =
        write_segments cfg m buf (fixed_loop_segments cfg count chunk_id ptr processed) stor := by
  have hcs := scrmfs_chunk_size_pos cfg
  intro n
  induction n with
  | zero =>
    intro c q p stor hn
    rw [write_loop_unfold, fixed_loop_segments_unfold, if_neg (by omega), if_neg (by omega)]
    rfl
  | succ n ih =>
    intro c q p stor hn
    rw [write_loop_unfold, fixed_loop_segments_unfold]
    by_cases hlt : p < count
    · obtain ⟨hnum0, -, -, -⟩ := segment_length (scrmfs_chunk_size cfg) count p hcs hlt
      rw [if_pos ⟨hlt, rfl⟩, if_pos hlt]
      simp only [write_segments]
      cases hcall : scrmfs_chunk_write cfg m stor (c + 1) 0 buf q
          (if count - p > scrmfs_chunk_size cfg then scrmfs_chunk_size cfg else count - p) with
      | none => rfl
      | some r =>
        obtain ⟨rc1, stor1⟩ := r
        simp only
        by_cases hrc : rc1 = SCRMFS_SUCCESS
        · subst hrc
          rw [if_pos rfl]
          exact ih _ _ _ _ (by omega)
        · rw [if_neg hrc]
          exact write_loop_failed cfg m buf count _ _ _ rc1 stor1 hrc
    · rw [if_neg (fun h => hlt h.1), if_neg hlt]
      rfl

/-- The read of a byte range is the run of its segments. -/
theorem read_eq_segments (cfg : scrmfs_config) (m : scrmfs_filemeta_t) (stor : chunk_storage)
    (pos : Nat) (buf : Nat → UInt8) (count : Nat) :
    scrmfs_fid_store_fixed_read cfg m stor pos buf count =
      read_segments cfg m stor (fixed_segments cfg pos count) buf := by
  unfold scrmfs_fid_store_fixed_read fixed_segments
  simp only
  split
  · simp only [read_segments]
    cases hcall : scrmfs_chunk_read cfg m stor (pos >>> cfg.scrmfs_chunk_bits)
        (pos &&& scrmfs_chunk_mask cfg) buf 0 count with
    | none => rfl
    | some r =>
      obtain ⟨rc1, buf1⟩ := r
      simp only
      by_cases hrc : rc1 = SCRMFS_SUCCESS
      · rw [if_pos hrc, hrc]
      · rw [if_neg hrc]
  · simp only [read_segments]
    cases hcall : scrmfs_chunk_read cfg m stor (pos >>> cfg.scrmfs_chunk_bits)
        (pos &&& scrmfs_chunk_mask cfg) buf 0
        (scrmfs_chunk_size cfg - (pos &&& scrmfs_chunk_mask cfg)) with
    | none => rfl
    | some r =>
      obtain ⟨rc1, buf1⟩ := r
      simp only
      by_cases hrc : rc1 = SCRMFS_SUCCESS
      · subst hrc
        rw [if_pos rfl]
        exact read_loop_eq_segments cfg m stor count _ _ _ _ _ (le_refl _)
      · rw [if_neg hrc]
        exact read_loop_failed cfg m stor count _ _ _ rc1 buf1 hrc

/-- The write of a byte range is the run of its segments. -/
theorem write_eq_segments (cfg : scrmfs_config) (m : scrmfs_filemeta_t) (stor : chunk_storage)
    (pos : Nat) (buf : Nat → UInt8) (count : Nat) :
    scrmfs_fid_store_fixed_write cfg m stor pos buf count =
      write_segments cfg m buf (fixed_segments cfg pos count) stor := by
  unfold scrmfs_fid_store_fixed_write fixed_segments
  simp only
  split
  · simp only [write_segments]
    cases hcall : scrmfs_chunk_write cfg m stor (pos >>> cfg.scrmfs_chunk_bits)
        (pos &&& scrmfs_chunk_mask cfg) buf 0 count with
    | none => rfl
    | some r =>
      obtain ⟨rc1, stor1⟩ := r
      simp only
      by_cases hrc : rc1 = SCRMFS_SUCCESS
      · rw [if_pos hrc, hrc]
      · rw [if_neg hrc]
  · simp only [write_segments]
    cases hcall : scrmfs_chunk_write cfg m stor (pos >>> cfg.scrmfs_chunk_bits)
        (pos &&& scrmfs_chunk_mask cfg) buf 0
        (scrmfs_chunk_size cfg - (pos &&& scrmfs_chunk_mask cfg)) with
    | none => rfl
    | some r =>
      obtain ⟨rc1, stor1⟩ := r
      simp only
      by_cases hrc : rc1 = SCRMFS_SUCCESS
      · subst hrc
        rw [if_pos rfl]
        exact write_loop_eq_segments cfg m buf count _ _ _ _ _ (le_refl _)
      · rw [if_neg hrc]
        exact write_loop_failed cfg m buf count _ _ _ rc1 stor1 hrc

theorem fixed_loop_segments_getElem? (cfg : scrmfs_config) (count : Nat) :
    ∀ (n c q p i : Nat), count - p ≤ n →
      (fixed_loop_segments cfg count c q p)[i]? =
        if p + i * scrmfs_chunk_size cfg < count then
          some { chunk_id := c + 1 + i, chunk_offset := 0,
                 ptr := q + i * scrmfs_chunk_size cfg,
                 count := loop_num cfg count (p + i * scrmfs_chunk_size cfg) }
        else none := by
  have hcs := scrmfs_chunk_size_pos cfg
  intro n
  induction n with
  | zero =>
    intro c q p i hn
    rw [fixed_loop_segments_unfold, if_neg (by omega), if_neg (by omega)]
    rfl
  | succ n ih =>
    intro c q p i hn
    rw [fixed_loop_segments_unfold]
    by_cases hlt : p < count
    · rw [if_pos hlt]
      have hsm : ∀ j : Nat, (j + 1) * scrmfs_chunk_size cfg =
          j * scrmfs_chunk_size cfg + scrmfs_chunk_size cfg := fun j => Nat.succ_mul _ _
      by_cases hfull : count - p > scrmfs_chunk_size cfg
      · simp only [if_pos hfull]
        cases i with
        | zero =>
          rw [List.getElem?_cons_zero, if_pos (by omega)]
          simp only [Nat.zero_mul, Nat.add_zero, loop_num, if_pos hfull]
        | succ j =>
          rw [List.getElem?_cons_succ, ih _ _ _ _ (by omega)]
          have e1 : p + scrmfs_chunk_size cfg + j * scrmfs_chunk_size cfg =
              p + (j + 1) * scrmfs_chunk_size cfg := by have := hsm j; omega
          have e2 : q + scrmfs_chunk_size cfg + j * scrmfs_chunk_size cfg =
              q + (j + 1) * scrmfs_chunk_size cfg := by have := hsm j; omega
          have e3 : c + 1 + 1 + j = c + 1 + (j + 1) := by omega
          rw [e1, e2, e3]
      · simp only [if_neg hfull]
        cases i with
        | zero =>
          rw [List.getElem?_cons_zero, if_pos (by omega)]
          simp only [Nat.zero_mul, Nat.add_zero, loop_num, if_neg hfull]
        | succ j =>
          rw [List.getElem?_cons_succ, ih _ _ _ _ (by omega)]
          have := hsm j
          rw [if_neg (by omega), if_neg (by omega)]
    · rw [if_neg hlt, if_neg (by omega)]
      rfl

theorem fixed_loop_segments_sum (cfg : scrmfs_config) (count : Nat) :
    ∀ (n c q p : Nat), count - p ≤ n → p ≤ count →
      ((fixed_loop_segments cfg count c q p).map (fun s => s.count)).sum = count - p := by
  have hcs := scrmfs_chunk_size_pos cfg
  intro n
  induction n with
  | zero =>
    intro c q p hn hp
    rw [fixed_loop_segments_unfold, if_neg (by omega)]
    simp only [List.map_nil, List.sum_nil]
    omega
  | succ n ih =>
    intro c q p hn hp
    rw [fixed_loop_segments_unfold]
    by_cases hlt : p < count
    · obtain ⟨hnum0, hnum1, hnum2, hnum3⟩ :=
        segment_length (scrmfs_chunk_size cfg) count p hcs hlt
      rw [if_pos hlt, List.map_cons, List.sum_cons, ih _ _ _ (by omega) hnum2]
      simp only
      omega
    · rw [if_neg hlt]
      simp only [List.map_nil, List.sum_nil]
      omega

/-- The first segment of a byte range. -/
theorem fixed_segments_zero (cfg : scrmfs_config) (pos count : Nat) :
    (fixed_segments cfg pos count)[0]? =
      some { chunk_id := pos / scrmfs_chunk_size cfg,
             chunk_offset := pos % scrmfs_chunk_size cfg, ptr := 0,
             count := if count ≤ scrmfs_chunk_size cfg - pos % scrmfs_chunk_size cfg then count
               else scrmfs_chunk_size cfg - pos % scrmfs_chunk_size cfg } := by
  unfold fixed_segments
  simp only [pos_shiftRight_chunk_bits, pos_and_chunk_mask]
  split <;> simp

/-- The further segments of a byte range: segment `i + 1` starts at offset 0
of the chunk `pos / chunk_size + 1 + i`, with `remaining + i * chunk_size`
bytes done. -/
theorem fixed_segments_succ (cfg : scrmfs_config) (pos count i : Nat) :
    (fixed_segments cfg pos count)[i + 1]? =
      if scrmfs_chunk_size cfg - pos % scrmfs_chunk_size cfg + i * scrmfs_chunk_size cfg < count
      then
        some { chunk_id := pos / scrmfs_chunk_size cfg + 1 + i, chunk_offset := 0,
               ptr := scrmfs_chunk_size cfg - pos % scrmfs_chunk_size cfg +
                 i * scrmfs_chunk_size cfg,
               count := loop_num cfg count
                 (scrmfs_chunk_size cfg - pos % scrmfs_chunk_size cfg +
                   i * scrmfs_chunk_size cfg) }
      else none := by
  unfold fixed_segments
  simp only [pos_shiftRight_chunk_bits, pos_and_chunk_mask]
  split
  · rename_i hle
    rw [List.getElem?_cons_succ, if_neg (by omega)]
    rfl
  · rw [List.getElem?_cons_succ, fixed_loop_segments_getElem? cfg count _ _ _ _ _ (le_refl _)]

theorem fixed_segments_sum (cfg : scrmfs_config) (pos count : Nat) :
    ((fixed_segments cfg pos count).map (fun s => s.count)).sum = count := by
  unfold fixed_segments
  simp only [pos_shiftRight_chunk_bits, pos_and_chunk_mask]
  split
  · simp
  · rename_i hgt
    rw [List.map_cons, List.sum_cons,
      fixed_loop_segments_sum cfg count _ _ _ _ (le_refl _) (by omega)]
    simp only
    omega

/-- What every segment of a byte range satisfies, by its index: the chunks
are consecutive from `pos / chunk_size`, the segment stays inside its chunk,
its first byte is the file byte `pos + ptr`, it lies inside the `count` bytes
of the buffer, and all segments but the first start at offset 0 with at least
one byte. -/
theorem fixed_segments_facts (cfg : scrmfs_config) (pos count i : Nat) (s : chunk_segment)
    (hs : (fixed_segments cfg pos count)[i]? = some s) :
    s.chunk_id = pos / scrmfs_chunk_size cfg + i ∧
      s.chunk_offset + s.count ≤ scrmfs_chunk_size cfg ∧
      s.chunk_id * scrmfs_chunk_size cfg + s.chunk_offset = pos + s.ptr ∧
      s.ptr + s.count ≤ count ∧
      (i = 0 → s.chunk_offset = pos % scrmfs_chunk_size cfg ∧ s.ptr = 0) ∧
      (0 < i → s.chunk_offset = 0 ∧ 0 < s.count) := by
  have hcs := scrmfs_chunk_size_pos cfg
  obtain ⟨hp1, hp2, hp3⟩ := block_of_div (scrmfs_chunk_size cfg) pos hcs
  cases i with
  | zero =>
    rw [fixed_segments_zero] at hs
    cases hs
    refine ⟨by simp, ?_, by simp; omega, ?_, fun _ => by simp, fun h => absurd h (by omega)⟩
    · simp only; split <;> omega
    · simp only; split <;> omega
  | succ j =>
    rw [fixed_segments_succ] at hs
    split at hs
    · rename_i hlt
      cases hs
      simp only
      have hsm : (pos / scrmfs_chunk_size cfg + 1 + j) * scrmfs_chunk_size cfg =
          pos / scrmfs_chunk_size cfg * scrmfs_chunk_size cfg + scrmfs_chunk_size cfg +
            j * scrmfs_chunk_size cfg := by
        rw [Nat.add_mul, Nat.add_mul, Nat.one_mul]
      have hnum : 0 < loop_num cfg count
            (scrmfs_chunk_size cfg - pos % scrmfs_chunk_size cfg +
              j * scrmfs_chunk_size cfg) ∧
          loop_num cfg count
            (scrmfs_chunk_size cfg - pos % scrmfs_chunk_size cfg +
              j * scrmfs_chunk_size cfg) ≤ scrmfs_chunk_size cfg ∧
          scrmfs_chunk_size cfg - pos % scrmfs_chunk_size cfg + j * scrmfs_chunk_size cfg +
            loop_num cfg count
              (scrmfs_chunk_size cfg - pos % scrmfs_chunk_size cfg +
                j * scrmfs_chunk_size cfg) ≤ count := by
        unfold loop_num
        split <;> omega
      refine ⟨by omega, by omega, by omega, hnum.2.2, fun h => absurd h (by omega),
        fun _ => ⟨trivial, hnum.1⟩⟩
    · cases hs

/-- Every byte of the buffer lies in a segment. -/
theorem fixed_segments_cover (cfg : scrmfs_config) (pos count k : Nat) (hk : k < count) :
    ∃ (i : Nat) (s : chunk_segment),
      (fixed_segments cfg pos count)[i]? = some s ∧ s.ptr ≤ k ∧ k < s.ptr + s.count := by
  have hcs := scrmfs_chunk_size_pos cfg
  obtain ⟨hp1, hp2, hp3⟩ := block_of_div (scrmfs_chunk_size cfg) pos hcs
  by_cases hfirst : k < scrmfs_chunk_size cfg - pos % scrmfs_chunk_size cfg
  · refine ⟨0, _, fixed_segments_zero cfg pos count, Nat.zero_le _, ?_⟩
    simp only
    split <;> omega
  · obtain ⟨hj1, hj2, hj3⟩ := block_of_div (scrmfs_chunk_size cfg)
      (k - (scrmfs_chunk_size cfg - pos % scrmfs_chunk_size cfg)) hcs
    have hseg := fixed_segments_succ cfg pos count
      ((k - (scrmfs_chunk_size cfg - pos % scrmfs_chunk_size cfg)) / scrmfs_chunk_size cfg)
    rw [if_pos (by omega)] at hseg
    refine ⟨_, _, hseg, ?_, ?_⟩
    · simp only
      omega
    · simp only
      unfold loop_num
      split <;> omega

/-- Consecutive segments are consecutive in the buffer, and every segment
followed by another one ends at the end of its chunk. -/
theorem fixed_segments_consecutive (cfg : scrmfs_config) (pos count i : Nat)
    (s t : chunk_segment) (hs : (fixed_segments cfg pos count)[i]? = some s)
    (ht : (fixed_segments cfg pos count)[i + 1]? = some t) :
    t.ptr = s.ptr + s.count ∧ s.chunk_offset + s.count = scrmfs_chunk_size cfg := by
  have hcs := scrmfs_chunk_size_pos cfg
  obtain ⟨hp1, hp2, hp3⟩ := block_of_div (scrmfs_chunk_size cfg) pos hcs
  rw [fixed_segments_succ] at ht
  split at ht
  · rename_i hlt
    cases ht
    cases i with
    | zero =>
      rw [fixed_segments_zero] at hs
      cases hs
      simp only [Nat.zero_mul, Nat.add_zero] at hlt ⊢
      rw [if_neg (by omega)]
      omega
    | succ j =>
      rw [fixed_segments_succ] at hs
      have hsm : (j + 1) * scrmfs_chunk_size cfg =
          j * scrmfs_chunk_size cfg + scrmfs_chunk_size cfg := Nat.succ_mul _ _
      split at hs
      · cases hs
        simp only
        unfold loop_num
        rw [if_pos (by omega)]
        omega
      · cases hs
  · cases ht

/-- C14: with `chunk_size = 2 ^ chunk_bits` and `chunk_mask = chunk_size - 1`,
for every position and count `scrmfs_fid_store_fixed_read` and
`scrmfs_fid_store_fixed_write` issue their chunk-level calls along the same
segment sequence `fixed_segments`, one call per segment for as long as no
call fails. The sequence is the single segment
`(position >> chunk_bits, position & chunk_mask, count)` when
`count ≤ chunk_size - (position & chunk_mask)`; otherwise it is a first
segment for the remaining bytes of the first chunk followed by segments at
offset 0 of the consecutive chunk ids, each non-empty, at most `chunk_size`
long and exactly `chunk_size` long unless it is the last. Every segment has
`offset + length ≤ chunk_size`, the lengths sum to `count`, the first byte of
a segment with buffer offset `ptr` is the file byte `position + ptr`, and
every buffer byte `k < count` lies in a segment. -/
theorem C14_segment_decomposition (cfg : scrmfs_config) (m : scrmfs_filemeta_t)
    (stor : chunk_storage) (buf : Nat → UInt8) (pos count : Nat) :
    scrmfs_chunk_size cfg = 2 ^ cfg.scrmfs_chunk_bits ∧
      scrmfs_chunk_mask cfg = scrmfs_chunk_size cfg - 1 ∧
      scrmfs_fid_store_fixed_read cfg m stor pos buf count =
        read_segments cfg m stor (fixed_segments cfg pos count) buf ∧
      scrmfs_fid_store_fixed_write cfg m stor pos buf count =
        write_segments cfg m buf (fixed_segments cfg pos count) stor ∧
      (count ≤ scrmfs_chunk_size cfg - (pos &&& scrmfs_chunk_mask cfg) →
        fixed_segments cfg pos count =
          [{ chunk_id := pos >>> cfg.scrmfs_chunk_bits,
             chunk_offset := pos &&& scrmfs_chunk_mask cfg, ptr := 0, count := count }]) ∧
      (scrmfs_chunk_size cfg - (pos &&& scrmfs_chunk_mask cfg) < count →
        ∃ rest : List chunk_segment,
          fixed_segments cfg pos count =
            { chunk_id := pos >>> cfg.scrmfs_chunk_bits,
              chunk_offset := pos &&& scrmfs_chunk_mask cfg, ptr := 0,
              count := scrmfs_chunk_size cfg - (pos &&& scrmfs_chunk_mask cfg) } :: rest ∧
          ∀ (i : Nat) (s : chunk_segment), rest[i]? = some s →
            s.chunk_id = (pos >>> cfg.scrmfs_chunk_bits) + 1 + i ∧ s.chunk_offset = 0 ∧
              0 < s.count ∧ s.count ≤ scrmfs_chunk_size cfg ∧
              (i + 1 < rest.length → s.count = scrmfs_chunk_size cfg)) ∧
      (∀ s ∈ fixed_segments cfg pos count,
        s.chunk_offset + s.count ≤ scrmfs_chunk_size cfg) ∧
      ((fixed_segments cfg pos count).map (fun s => s.count)).sum = count ∧
      (∀ s ∈ fixed_segments cfg pos count,
        s.chunk_id * scrmfs_chunk_size cfg + s.chunk_offset = pos + s.ptr) ∧
      (∀ k : Nat, k < count →
        ∃ s ∈ fixed_segments cfg pos count, s.ptr ≤ k ∧ k < s.ptr + s.count) := by
  refine ⟨scrmfs_chunk_size_eq cfg, rfl, read_eq_segments cfg m stor pos buf count,
    write_eq_segments cfg m stor pos buf count, ?_, ?_, ?_, fixed_segments_sum cfg pos count,
    ?_, ?_⟩
  · intro hle
    unfold fixed_segments
    simp only
    rw [if_pos hle]
  · intro hgt
    refine ⟨fixed_loop_segments cfg count (pos >>> cfg.scrmfs_chunk_bits)
      (scrmfs_chunk_size cfg - (pos &&& scrmfs_chunk_mask cfg))
      (scrmfs_chunk_size cfg - (pos &&& scrmfs_chunk_mask cfg)), ?_, ?_⟩
    · unfold fixed_segments
      simp only
      rw [if_neg (by omega)]
    · intro i s hs
      have hsegs : fixed_segments cfg pos count =
          { chunk_id := pos >>> cfg.scrmfs_chunk_bits,
            chunk_offset := pos &&& scrmfs_chunk_mask cfg, ptr := 0,
            count := scrmfs_chunk_size cfg - (pos &&& scrmfs_chunk_mask cfg) } ::
          fixed_loop_segments cfg count (pos >>> cfg.scrmfs_chunk_bits)
            (scrmfs_chunk_size cfg - (pos &&& scrmfs_chunk_mask cfg))
            (scrmfs_chunk_size cfg - (pos &&& scrmfs_chunk_mask cfg)) := by
        unfold fixed_segments
        simp only
        rw [if_neg (by omega)]
      have hs1 : (fixed_segments cfg pos count)[i + 1]? = some s := by
        rw [hsegs, List.getElem?_cons_succ]
        exact hs
      obtain ⟨h1, h2, _, _, _, h6⟩ := fixed_segments_facts cfg pos count (i + 1) s hs1
      obtain ⟨h7, h8⟩ := h6 (by omega)
      refine ⟨?_, h7, h8, by omega, ?_⟩
      · rw [h1, pos_shiftRight_chunk_bits]
        omega
      · intro hlen
        obtain ⟨t, ht⟩ := getElem?_exists _ (i + 1) hlen
        have ht1 : (fixed_segments cfg pos count)[i + 1 + 1]? = some t := by
          rw [hsegs, List.getElem?_cons_succ]
          exact ht
        have := (fixed_segments_consecutive cfg pos count (i + 1) s t hs1 ht1).2
        omega
  · intro s hs
    obtain ⟨i, hi⟩ := List.mem_iff_getElem?.mp hs
    exact (fixed_segments_facts cfg pos count i s hi).2.1
  · intro s hs
    obtain ⟨i, hi⟩ := List.mem_iff_getElem?.mp hs
    exact (fixed_segments_facts cfg pos count i s hi).2.2.1
  · intro k hk
    obtain ⟨i, s, hs, h1, h2⟩ := fixed_segments_cover cfg pos count k hk
    exact ⟨s, List.getElem?_mem hs, h1, h2⟩

/-- A chunk-level read returns success exactly for a descriptor the call can
serve, whatever the offset, the buffer and the length. -/
theorem chunk_read_success_iff (cfg : scrmfs_config) (m : scrmfs_filemeta_t)
    (stor : chunk_storage) (c off : Nat) (b : Nat → UInt8) (p n : Nat) :
    (∃ b1, scrmfs_chunk_read cfg m stor c off b p n = some (SCRMFS_SUCCESS, b1)) ↔
      chunk_call_succeeds cfg m c := by
  unfold chunk_call_succeeds scrmfs_chunk_read scrmfs_compute_chunk_buf
  cases hd : m.chunk_meta[c]? with
  | none => simp
  | some d =>
    simp only [Option.some.injEq, exists_eq_left']
    by_cases hm : d.location = CHUNK_LOCATION_MEMFS
    · simp only [if_pos hm]
      by_cases hid : d.id < (cfg.scrmfs_max_chunks : Int)
      · simp [if_pos hid, hm, hid]
      · simp [if_neg hid, hm, hid]
    · simp only [if_neg hm]
      by_cases hsp : d.location = CHUNK_LOCATION_SPILLOVER
      · simp [if_pos hsp, hsp]
      · simp [if_neg hsp, hm, hsp]

/-- A chunk-level write returns success exactly for a descriptor the call can
serve. -/
theorem chunk_write_success_iff (cfg : scrmfs_config) (m : scrmfs_filemeta_t)
    (stor : chunk_storage) (c off : Nat) (b : Nat → UInt8) (p n : Nat) :
    (∃ s1, scrmfs_chunk_write cfg m stor c off b p n = some (SCRMFS_SUCCESS, s1)) ↔
      chunk_call_succeeds cfg m c := by
  unfold chunk_call_succeeds scrmfs_chunk_write scrmfs_compute_chunk_buf
  cases hd : m.chunk_meta[c]? with
  | none => simp
  | some d =>
    simp only [Option.some.injEq, exists_eq_left']
    by_cases hm : d.location = CHUNK_LOCATION_MEMFS
    · simp only [if_pos hm]
      by_cases hid : d.id < (cfg.scrmfs_max_chunks : Int)
      · simp [if_pos hid, hm, hid]
      · simp [if_neg hid, hm, hid]
    · simp only [if_neg hm]
      by_cases hsp : d.location = CHUNK_LOCATION_SPILLOVER
      · simp [if_pos hsp, hsp]
      · simp [if_neg hsp, hm, hsp]

/-- A failing chunk-level read returns the I/O error, leaves the buffer as it
was, and found a descriptor that is not allocated. -/
theorem chunk_read_failure (cfg : scrmfs_config) (m : scrmfs_filemeta_t)
    (stor : chunk_storage) (c off : Nat) (b : Nat → UInt8) (p n : Nat) (rc : scrmfs_rc)
    (b1 : Nat → UInt8) (h : scrmfs_chunk_read cfg m stor c off b p n = some (rc, b1))
    (hrc : rc ≠ SCRMFS_SUCCESS) :
    rc = SCRMFS_ERR_IO ∧ b1 = b ∧
      ∃ d, m.chunk_meta[c]? = some d ∧ ¬ is_allocated d := by
  unfold scrmfs_chunk_read at h
  cases hd : m.chunk_meta[c]? with
  | none => rw [hd] at h; cases h
  | some d =>
    rw [hd] at h
    simp only at h
    by_cases hm : d.location = CHUNK_LOCATION_MEMFS
    · rw [if_pos hm] at h
      cases hb : scrmfs_compute_chunk_buf cfg m c off with
      | none => rw [hb] at h; cases h
      | some a =>
        rw [hb] at h
        cases h
        exact absurd rfl hrc
    · rw [if_neg hm] at h
      by_cases hsp : d.location = CHUNK_LOCATION_SPILLOVER
      · rw [if_pos hsp] at h
        cases h
        exact absurd rfl hrc
      · rw [if_neg hsp] at h
        cases h
        refine ⟨rfl, rfl, d, rfl, ?_⟩
        unfold is_allocated
        simp [hm, hsp]

/-- A failing chunk-level write returns the I/O error, leaves the storage as
it was, and found a descriptor that is not allocated. -/
theorem chunk_write_failure (cfg : scrmfs_config) (m : scrmfs_filemeta_t)
    (stor : chunk_storage) (c off : Nat) (b : Nat → UInt8) (p n : Nat) (rc : scrmfs_rc)
    (s1 : chunk_storage) (h : scrmfs_chunk_write cfg m stor c off b p n = some (rc, s1))
    (hrc : rc ≠ SCRMFS_SUCCESS) :
    rc = SCRMFS_ERR_IO ∧ s1 = stor ∧
      ∃ d, m.chunk_meta[c]? = some d ∧ ¬ is_allocated d := by
  unfold scrmfs_chunk_write at h
  cases hd : m.chunk_meta[c]? with
  | none => rw [hd] at h; cases h
  | some d =>
    rw [hd] at h
    simp only at h
    by_cases hm : d.location = CHUNK_LOCATION_MEMFS
    · rw [if_pos hm] at h
      cases hb : scrmfs_compute_chunk_buf cfg m c off with
      | none => rw [hb] at h; cases h
      | some a =>
        rw [hb] at h
        cases h
        exact absurd rfl hrc
    · rw [if_neg hm] at h
      by_cases hsp : d.location = CHUNK_LOCATION_SPILLOVER
      · rw [if_pos hsp] at h
        cases h
        exact absurd rfl hrc
      · rw [if_neg hsp] at h
        cases h
        refine ⟨rfl, rfl, d, rfl, ?_⟩
        unfold is_allocated
        simp [hm, hsp]

/-- A chunk-level read of a descriptor that is not allocated fails. -/
theorem chunk_read_not_allocated (cfg : scrmfs_config) (m : scrmfs_filemeta_t)
    (stor : chunk_storage) (c off : Nat) (b : Nat → UInt8) (p n : Nat)
    (d : scrmfs_chunkmeta_t) (hd : m.chunk_meta[c]? = some d)
    (hna : ¬ is_allocated d) :
    scrmfs_chunk_read cfg m stor c off b p n = some ( SCRMFS_ERR_IO, b) := by
  unfold is_allocated at hna
  unfold scrmfs_chunk_read
  rw [hd]
  simp only
  rw [if_neg (fun h => hna (Or.inl h)), if_neg (fun h => hna (Or.inr h))]

/-- A chunk-level write to a descriptor that is not allocated fails. -/
theorem chunk_write_not_allocated (cfg : scrmfs_config) (m : scrmfs_filemeta_t)
    (stor : chunk_storage) (c off : Nat) (b : Nat → UInt8) (p n : Nat)
    (d : scrmfs_chunkmeta_t) (hd : m.chunk_meta[c]? = some d)
    (hna : ¬ is_allocated d) :
    scrmfs_chunk_write cfg m stor c off b p n = some ( SCRMFS_ERR_IO, stor) := by
  unfold is_allocated at hna
  unfold scrmfs_chunk_write
  rw [hd]
  simp only
  rw [if_neg (fun h => hna (Or.inl h)), if_neg (fun h => hna (Or.inr h))]

/-- One step of the run of reads over a segment list. -/
theorem read_segments_cons (cfg : scrmfs_config) (m : scrmfs_filemeta_t)
    (stor : chunk_storage) (s : chunk_segment) (rest : List chunk_segment)
    (buf : Nat → UInt8) :
    read_segments cfg m stor (s :: rest) buf =
      match scrmfs_chunk_read cfg m stor s.chunk_id s.chunk_offset buf s.ptr s.count with
      | none => none
      | some (rc, buf1) =>
        if rc = SCRMFS_SUCCESS then read_segments cfg m stor rest buf1 else some (rc, buf1) :=
  rfl

/-- One step of the run of writes over a segment list. -/
theorem write_segments_cons (cfg : scrmfs_config) (m : scrmfs_filemeta_t)
    (buf : Nat → UInt8) (s : chunk_segment) (rest : List chunk_segment)
    (stor : chunk_storage) :
    write_segments cfg m buf (s :: rest) stor =
      match scrmfs_chunk_write cfg m stor s.chunk_id s.chunk_offset buf s.ptr s.count with
      | none => none
      | some (rc, stor1) =>
        if rc = SCRMFS_SUCCESS then write_segments cfg m buf rest stor1 else some (rc, stor1) :=
  rfl

/-- Once the first segments have succeeded, the run goes on with the rest. -/
theorem read_segments_append (cfg : scrmfs_config) (m : scrmfs_filemeta_t)
    (stor : chunk_storage) (rest : List chunk_segment) :
    ∀ (pre : List chunk_segment) (buf b1 : Nat → UInt8),
      read_segments cfg m stor pre buf = some (SCRMFS_SUCCESS, b1) →
      read_segments cfg m stor (pre ++ rest) buf = read_segments cfg m stor rest b1 := by
  intro pre
  induction pre with
  | nil =>
    intro buf b1 h
    simp only [read_segments, Option.some.injEq, Prod.mk.injEq, true_and] at h
    rw [List.nil_append, h]
  | cons s pre ih =>
    intro buf b1 h
    rw [List.cons_append, read_segments_cons]
    rw [read_segments_cons] at h
    cases hc : scrmfs_chunk_read cfg m stor s.chunk_id s.chunk_offset buf s.ptr s.count with
    | none => rw [hc] at h; cases h
    | some r =>
      obtain ⟨rc, b2⟩ := r
      rw [hc] at h
      simp only at h ⊢
      by_cases hrc : rc = SCRMFS_SUCCESS
      · rw [if_pos hrc] at h ⊢
        exact ih _ _ h
      · rw [if_neg hrc] at h
        cases h
        exact absurd rfl hrc

/-- Once the first segments have succeeded, the run goes on with the rest. -/
theorem write_segments_append (cfg : scrmfs_config) (m : scrmfs_filemeta_t)
    (buf : Nat → UInt8) (rest : List chunk_segment) :
    ∀ (pre : List chunk_segment) (stor s1 : chunk_storage),
      write_segments cfg m buf pre stor = some (SCRMFS_SUCCESS, s1) →
      write_segments cfg m buf (pre ++ rest) stor = write_segments cfg m buf rest s1 := by
  intro pre
  induction pre with
  | nil =>
    intro stor s1 h
    simp only [write_segments, Option.some.injEq, Prod.mk.injEq, true_and] at h
    rw [List.nil_append, h]
  | cons s pre ih =>
    intro stor s1 h
    rw [List.cons_append, write_segments_cons]
    rw [write_segments_cons] at h
    cases hc : scrmfs_chunk_write cfg m stor s.chunk_id s.chunk_offset buf s.ptr s.count with
    | none => rw [hc] at h; cases h
    | some r =>
      obtain ⟨rc, b2⟩ := r
      rw [hc] at h
      simp only at h ⊢
      by_cases hrc : rc = SCRMFS_SUCCESS
      · rw [if_pos hrc] at h ⊢
        exact ih _ _ h
      · rw [if_neg hrc] at h
        cases h
        exact absurd rfl hrc

/-- The run over a segment list succeeds exactly when every segment names a
descriptor the chunk-level call can serve. -/
theorem read_segments_success_iff (cfg : scrmfs_config) (m : scrmfs_filemeta_t)
    (stor : chunk_storage) :
    ∀ (segs : List chunk_segment) (buf : Nat → UInt8),
      (∃ out, read_segments cfg m stor segs buf = some (SCRMFS_SUCCESS, out)) ↔
        ∀ s ∈ segs, chunk_call_succeeds cfg m s.chunk_id := by
  intro segs
  induction segs with
  | nil =>
    intro buf
    simp [read_segments]
  | cons s segs ih =>
    intro buf
    rw [read_segments_cons]
    constructor
    · rintro ⟨out, h⟩
      cases hc : scrmfs_chunk_read cfg m stor s.chunk_id s.chunk_offset buf s.ptr s.count with
      | none => rw [hc] at h; cases h
      | some r =>
        obtain ⟨rc, b2⟩ := r
        rw [hc] at h
        simp only at h
        by_cases hrc : rc = SCRMFS_SUCCESS
        · rw [if_pos hrc] at h
          subst hrc
          intro t ht
          rcases List.mem_cons.mp ht with rfl | ht
          · exact (chunk_read_success_iff cfg m stor _ _ _ _ _).mp ⟨b2, hc⟩
          · exact (ih b2).mp ⟨out, h⟩ t ht
        · rw [if_neg hrc] at h
          cases h
          exact absurd rfl hrc
    · intro hall
      obtain ⟨b2, hc⟩ := (chunk_read_success_iff cfg m stor s.chunk_id s.chunk_offset buf
        s.ptr s.count).mpr (hall s (List.mem_cons_self _ _))
      rw [hc]
      simp only [if_true]
      exact (ih b2).mpr (fun t ht => hall t (List.mem_cons_of_mem _ ht))

/-- The run over a segment list succeeds exactly when every segment names a
descriptor the chunk-level call can serve. -/
theorem write_segments_success_iff (cfg : scrmfs_config) (m : scrmfs_filemeta_t)
    (buf : Nat → UInt8) :
    ∀ (segs : List chunk_segment) (stor : chunk_storage),
      (∃ out, write_segments cfg m buf segs stor = some (SCRMFS_SUCCESS, out)) ↔
        ∀ s ∈ segs, chunk_call_succeeds cfg m s.chunk_id := by
  intro segs
  induction segs with
  | nil =>
    intro stor
    simp [write_segments]
  | cons s segs ih =>
    intro stor
    rw [write_segments_cons]
    constructor
    · rintro ⟨out, h⟩
      cases hc : scrmfs_chunk_write cfg m stor s.chunk_id s.chunk_offset buf s.ptr s.count with
      | none => rw [hc] at h; cases h
      | some r =>
        obtain ⟨rc, b2⟩ := r
        rw [hc] at h
        simp only at h
        by_cases hrc : rc = SCRMFS_SUCCESS
        · rw [if_pos hrc] at h
          subst hrc
          intro t ht
          rcases List.mem_cons.mp ht with rfl | ht
          · exact (chunk_write_success_iff cfg m stor _ _ _ _ _).mp ⟨b2, hc⟩
          · exact (ih b2).mp ⟨out, h⟩ t ht
        · rw [if_neg hrc] at h
          cases h
          exact absurd rfl hrc
    · intro hall
      obtain ⟨b2, hc⟩ := (chunk_write_success_iff cfg m stor s.chunk_id s.chunk_offset buf
        s.ptr s.count).mpr (hall s (List.mem_cons_self _ _))
      rw [hc]
      simp only [if_true]
      exact (ih b2).mpr (fun t ht => hall t (List.mem_cons_of_mem _ ht))

/-- The run stops at a failing segment: its error is the result and the
buffer is the one the earlier segments left. -/
theorem read_segments_stop (cfg : scrmfs_config) (m : scrmfs_filemeta_t)
    (stor : chunk_storage) (pre post : List chunk_segment) (s : chunk_segment)
    (buf b1 b2 : Nat → UInt8) (rc : scrmfs_rc)
    (hpre : read_segments cfg m stor pre buf = some (SCRMFS_SUCCESS, b1))
    (hs : scrmfs_chunk_read cfg m stor s.chunk_id s.chunk_offset b1 s.ptr s.count =
      some (rc, b2))
    (hrc : rc ≠ SCRMFS_SUCCESS) :
    read_segments cfg m stor (pre ++ s :: post) buf = some (rc, b2) := by
  rw [read_segments_append cfg m stor _ pre buf b1 hpre, read_segments_cons, hs]
  simp only
  rw [if_neg hrc]

/-- The run stops at a failing segment: its error is the result and the
storage is the one the earlier segments left. -/
theorem write_segments_stop (cfg : scrmfs_config) (m : scrmfs_filemeta_t)
    (buf : Nat → UInt8) (pre post : List chunk_segment) (s : chunk_segment)
    (stor s1 s2 : chunk_storage) (rc : scrmfs_rc)
    (hpre : write_segments cfg m buf pre stor = some (SCRMFS_SUCCESS, s1))
    (hs : scrmfs_chunk_write cfg m s1 s.chunk_id s.chunk_offset buf s.ptr s.count =
      some (rc, s2))
    (hrc : rc ≠ SCRMFS_SUCCESS) :
    write_segments cfg m buf (pre ++ s :: post) stor = some (rc, s2) := by
  rw [write_segments_append cfg m buf _ pre stor s1 hpre, write_segments_cons, hs]
  simp only
  rw [if_neg hrc]

/-- C15: stop on the first error. Let the segment sequence of a read or write
be `pre ++ s :: post`, where the calls for `pre` all succeed and the call for
`s` returns an error `rc`. Then `scrmfs_fid_store_fixed_read` returns `rc`
with the buffer exactly as the calls for `pre` left it, and
`scrmfs_fid_store_fixed_write` returns `rc` with the pool and the device
exactly as the calls for `pre` left them; the result is the run over
`pre ++ [s]` alone, so no call is issued for a segment of `post`. Both
functions return success if and only if every segment succeeds, a segment
succeeding exactly when the chunk-level call on its chunk returns success. -/
theorem C15_stop_on_first_error (cfg : scrmfs_config) (m : scrmfs_filemeta_t)
    (stor : chunk_storage) (buf : Nat → UInt8) (pos count : Nat) :
    (∀ (pre post : List chunk_segment) (s : chunk_segment) (b1 b2 : Nat → UInt8)
        (rc : scrmfs_rc),
        fixed_segments cfg pos count = pre ++ s :: post →
        read_segments cfg m stor pre buf = some (SCRMFS_SUCCESS, b1) →
        scrmfs_chunk_read cfg m stor s.chunk_id s.chunk_offset b1 s.ptr s.count =
          some (rc, b2) →
        rc ≠ SCRMFS_SUCCESS →
        scrmfs_fid_store_fixed_read cfg m stor pos buf count = some (rc, b1) ∧
          scrmfs_fid_store_fixed_read cfg m stor pos buf count =
            read_segments cfg m stor (pre ++ [s]) buf) ∧
      (∀ (pre post : List chunk_segment) (s : chunk_segment) (s1 s2 : chunk_storage)
        (rc : scrmfs_rc),
        fixed_segments cfg pos count = pre ++ s :: post →
        write_segments cfg m buf pre stor = some (SCRMFS_SUCCESS, s1) →
        scrmfs_chunk_write cfg m s1 s.chunk_id s.chunk_offset buf s.ptr s.count =
          some (rc, s2) →
        rc ≠ SCRMFS_SUCCESS →
        scrmfs_fid_store_fixed_write cfg m stor pos buf count = some (rc, s1) ∧
          scrmfs_fid_store_fixed_write cfg m stor pos buf count =
            write_segments cfg m buf (pre ++ [s]) stor) ∧
      ((∃ out, scrmfs_fid_store_fixed_read cfg m stor pos buf count =
          some (SCRMFS_SUCCESS, out)) ↔
        ∀ s ∈ fixed_segments cfg pos count, chunk_call_succeeds cfg m s.chunk_id) ∧
      ((∃ out, scrmfs_fid_store_fixed_write cfg m stor pos buf count =
          some (SCRMFS_SUCCESS, out)) ↔
        ∀ s ∈ fixed_segments cfg pos count, chunk_call_succeeds cfg m s.chunk_id) ∧
      (∀ (c off p n : Nat) (b : Nat → UInt8) (st : chunk_storage),
        ((∃ b1, scrmfs_chunk_read cfg m st c off b p n = some (SCRMFS_SUCCESS, b1)) ↔
          chunk_call_succeeds cfg m c) ∧
        ((∃ st1, scrmfs_chunk_write cfg m st c off b p n = some (SCRMFS_SUCCESS, st1)) ↔
          chunk_call_succeeds cfg m c)) := by
  refine ⟨?_, ?_, ?_, ?_, ?_⟩
  · intro pre post s b1 b2 rc hsegs hpre hs hrc
    obtain ⟨_, hb, _⟩ := chunk_read_failure cfg m stor _ _ _ _ _ rc b2 hs hrc
    subst hb
    rw [read_eq_segments, hsegs,
      read_segments_stop cfg m stor pre post s buf b2 b2 rc hpre hs hrc,
      read_segments_stop cfg m stor pre [] s buf b2 b2 rc hpre hs hrc]
    exact ⟨rfl, rfl⟩
  · intro pre post s s1 s2 rc hsegs hpre hs hrc
    obtain ⟨_, hb, _⟩ := chunk_write_failure cfg m s1 _ _ _ _ _ rc s2 hs hrc
    subst hb
    rw [write_eq_segments, hsegs,
      write_segments_stop cfg m buf pre post s stor s2 s2 rc hpre hs hrc,
      write_segments_stop cfg m buf pre [] s stor s2 s2 rc hpre hs hrc]
    exact ⟨rfl, rfl⟩
  · rw [read_eq_segments]
    exact read_segments_success_iff cfg m stor _ buf
  · rw [write_eq_segments]
    exact write_segments_success_iff cfg m buf _ stor
  · intro c off p n b st
    exact ⟨chunk_read_success_iff cfg m st c off b p n,
      chunk_write_success_iff cfg m st c off b p n⟩

/-- The run of reads over segments of live chunks, each inside its chunk and
with its first byte at the file byte `pos + ptr`: it succeeds, the buffer
bytes covered by a segment hold the file bytes, the others are as before. -/
theorem read_segments_live_spec (cfg : scrmfs_config) (m : scrmfs_filemeta_t)
    (stor : chunk_storage) (hv : allocated_encoded cfg m) (pos : Nat) :
    ∀ (segs : List chunk_segment) (buf : Nat → UInt8),
      (∀ s ∈ segs, s.chunk_id < m.chunks ∧
        s.chunk_offset + s.count ≤ scrmfs_chunk_size cfg ∧
        s.chunk_id * scrmfs_chunk_size cfg + s.chunk_offset = pos + s.ptr) →
      ∃ out, read_segments cfg m stor segs buf = some (SCRMFS_SUCCESS, out) ∧
        ∀ k : Nat,
          ((∃ s ∈ segs, s.ptr ≤ k ∧ k < s.ptr + s.count) →
            out k = file_byte cfg m stor (pos + k)) ∧
          ((¬ ∃ s ∈ segs, s.ptr ≤ k ∧ k < s.ptr + s.count) → out k = buf k) := by
  intro segs
  induction segs with
  | nil =>
    intro buf _
    refine ⟨buf, rfl, fun k => ⟨?_, fun _ => rfl⟩⟩
    rintro ⟨s, hs, _⟩
    cases hs
  | cons s rest ih =>
    intro buf hall
    obtain ⟨hc, hfit, hbyte⟩ := hall s (List.mem_cons_self _ _)
    have hrd := chunk_read_spec cfg m stor hv s.chunk_id s.chunk_offset buf s.ptr s.count hc
    obtain ⟨out, hout, hbytes⟩ := ih _ (fun t ht => hall t (List.mem_cons_of_mem _ ht))
    refine ⟨out, ?_, fun k => ?_⟩
    · rw [read_segments_cons, hrd]
      simp only [if_true]
      exact hout
    · have hs_byte : s.ptr ≤ k ∧ k < s.ptr + s.count →
          chunk_byte cfg m stor s.chunk_id (s.chunk_offset + (k - s.ptr)) =
            file_byte cfg m stor (pos + k) := by
        intro hk
        obtain ⟨hq, hr⟩ := div_mod_of_block (scrmfs_chunk_size cfg) s.chunk_id (pos + k)
          (by omega) (by omega)
        unfold file_byte
        rw [hq, hr]
        congr 1
        omega
      by_cases hrest : ∃ t ∈ rest, t.ptr ≤ k ∧ k < t.ptr + t.count
      · refine ⟨fun _ => (hbytes k).1 hrest, fun hno => ?_⟩
        obtain ⟨t, ht, hk⟩ := hrest
        exact absurd ⟨t, List.mem_cons_of_mem _ ht, hk⟩ hno
      · rw [(hbytes k).2 hrest]
        by_cases hk : s.ptr ≤ k ∧ k < s.ptr + s.count
        · refine ⟨fun _ => ?_, fun hno => absurd ⟨s, List.mem_cons_self _ _, hk⟩ hno⟩
          rw [if_pos hk]
          exact hs_byte hk
        · refine ⟨fun hex => ?_, fun _ => ?_⟩
          · obtain ⟨t, ht, htk⟩ := hex
            rcases List.mem_cons.mp ht with rfl | ht
            · exact absurd htk hk
            · exact absurd ⟨t, ht, htk⟩ hrest
          · rw [if_neg hk]

/-- The only pool bytes a chunk-level write changes lie in the transferred
range of a memory chunk, the only device bytes in that of a spillover
chunk. -/
theorem chunk_write_frame (cfg : scrmfs_config) (m : scrmfs_filemeta_t)
    (stor : chunk_storage) (c off : Nat) (b : Nat → UInt8) (p n : Nat) (rc : scrmfs_rc)
    (s1 : chunk_storage) (h : scrmfs_chunk_write cfg m stor c off b p n = some (rc, s1)) :
    (∀ a : Int, s1.scrmfs_chunks a ≠ stor.scrmfs_chunks a →
      ∃ d, m.chunk_meta[c]? = some d ∧ d.location = CHUNK_LOCATION_MEMFS ∧
        shl_chunk_bits cfg d.id + (off : Int) ≤ a ∧
        a < shl_chunk_bits cfg d.id + (off : Int) + (n : Int)) ∧
      (∀ a : Int, s1.scrmfs_spilloverblock a ≠ stor.scrmfs_spilloverblock a →
        ∃ d, m.chunk_meta[c]? = some d ∧ d.location = CHUNK_LOCATION_SPILLOVER ∧
          (cfg.scrmfs_max_chunks : Int) ≤ d.id ∧
          shl_chunk_bits cfg (d.id - (cfg.scrmfs_max_chunks : Int)) + (off : Int) ≤ a ∧
          a < shl_chunk_bits cfg (d.id - (cfg.scrmfs_max_chunks : Int)) + (off : Int) +
            (n : Int)) := by
  unfold scrmfs_chunk_write at h
  cases hd : m.chunk_meta[c]? with
  | none => rw [hd] at h; cases h
  | some d =>
    rw [hd] at h
    simp only at h
    by_cases hm : d.location = CHUNK_LOCATION_MEMFS
    · rw [if_pos hm] at h
      unfold scrmfs_compute_chunk_buf at h
      rw [hd] at h
      simp only at h
      by_cases hid : d.id < (cfg.scrmfs_max_chunks : Int)
      · rw [if_pos hid] at h
        cases h
        refine ⟨fun a ha => ⟨d, rfl, hm, ?_⟩, fun a ha => absurd rfl ha⟩
        simp only [copy_to_storage] at ha
        by_cases hr : shl_chunk_bits cfg d.id + (off : Int) ≤ a ∧
            a < shl_chunk_bits cfg d.id + (off : Int) + (n : Int)
        · exact hr
        · rw [if_neg hr] at ha
          exact absurd rfl ha
      · rw [if_neg hid] at h
        cases h
    · rw [if_neg hm] at h
      by_cases hsp : d.location = CHUNK_LOCATION_SPILLOVER
      · rw [if_pos hsp] at h
        cases h
        refine ⟨fun a ha => absurd rfl ha, fun a ha => ⟨d, rfl, hsp, ?_⟩⟩
        simp only [pwrite, scrmfs_compute_spill_offset, hd] at ha
        by_cases hid : d.id < (cfg.scrmfs_max_chunks : Int)
        · rw [if_pos hid] at ha
          simp at ha
        · rw [if_neg hid] at ha
          by_cases hneg : shl_chunk_bits cfg (d.id - (cfg.scrmfs_max_chunks : Int)) +
              (off : Int) < 0
          · rw [if_pos hneg] at ha
            exact absurd rfl ha
          · rw [if_neg hneg] at ha
            simp only [copy_to_storage] at ha
            by_cases hr : shl_chunk_bits cfg (d.id - (cfg.scrmfs_max_chunks : Int)) +
                (off : Int) ≤ a ∧
                a < shl_chunk_bits cfg (d.id - (cfg.scrmfs_max_chunks : Int)) + (off : Int) +
                  (n : Int)
            · exact ⟨by omega, hr.1, hr.2⟩
            · rw [if_neg hr] at ha
              exact absurd rfl ha
      · rw [if_neg hsp] at h
        cases h
        exact ⟨fun a ha => absurd rfl ha, fun a ha => absurd rfl ha⟩

/-- The only pool and device bytes a run of writes changes lie in the
transferred range of one of its segments. -/
theorem write_segments_frame (cfg : scrmfs_config) (m : scrmfs_filemeta_t)
    (buf : Nat → UInt8) :
    ∀ (segs : List chunk_segment) (stor s1 : chunk_storage) (rc : scrmfs_rc),
      write_segments cfg m buf segs stor = some (rc, s1) →
      (∀ a : Int, s1.scrmfs_chunks a ≠ stor.scrmfs_chunks a →
        ∃ s ∈ segs, ∃ d, m.chunk_meta[s.chunk_id]? = some d ∧
          d.location = CHUNK_LOCATION_MEMFS ∧
          shl_chunk_bits cfg d.id + (s.chunk_offset : Int) ≤ a ∧
          a < shl_chunk_bits cfg d.id + (s.chunk_offset : Int) + (s.count : Int)) ∧
      (∀ a : Int, s1.scrmfs_spilloverblock a ≠ stor.scrmfs_spilloverblock a →
        ∃ s ∈ segs, ∃ d, m.chunk_meta[s.chunk_id]? = some d ∧
          d.location = CHUNK_LOCATION_SPILLOVER ∧
          (cfg.scrmfs_max_chunks : Int) ≤ d.id ∧
          shl_chunk_bits cfg (d.id - (cfg.scrmfs_max_chunks : Int)) +
            (s.chunk_offset : Int) ≤ a ∧
          a < shl_chunk_bits cfg (d.id - (cfg.scrmfs_max_chunks : Int)) +
            (s.chunk_offset : Int) + (s.count : Int)) := by
  intro segs
  induction segs with
  | nil =>
    intro stor s1 rc h
    simp only [write_segments, Option.some.injEq, Prod.mk.injEq] at h
    rw [← h.2]
    exact ⟨fun a ha => absurd rfl ha, fun a ha => absurd rfl ha⟩
  | cons s rest ih =>
    intro stor s1 rc h
    rw [write_segments_cons] at h
    cases hc : scrmfs_chunk_write cfg m stor s.chunk_id s.chunk_offset buf s.ptr s.count with
    | none => rw [hc] at h; cases h
    | some r =>
      obtain ⟨rc1, s2⟩ := r
      rw [hc] at h
      simp only at h
      obtain ⟨hf1, hf2⟩ := chunk_write_frame cfg m stor _ _ _ _ _ rc1 s2 hc
      by_cases hrc : rc1 = SCRMFS_SUCCESS
      · rw [if_pos hrc] at h
        obtain ⟨hr1, hr2⟩ := ih s2 s1 rc h
        constructor
        · intro a ha
          by_cases hmid : s2.scrmfs_chunks a = stor.scrmfs_chunks a
          · obtain ⟨t, ht, hrest⟩ := hr1 a (by rw [hmid]; exact ha)
            exact ⟨t, List.mem_cons_of_mem _ ht, hrest⟩
          · exact ⟨s, List.mem_cons_self _ _, hf1 a hmid⟩
        · intro a ha
          by_cases hmid : s2.scrmfs_spilloverblock a = stor.scrmfs_spilloverblock a
          · obtain ⟨t, ht, hrest⟩ := hr2 a (by rw [hmid]; exact ha)
            exact ⟨t, List.mem_cons_of_mem _ ht, hrest⟩
          · exact ⟨s, List.mem_cons_self _ _, hf2 a hmid⟩
      · rw [if_neg hrc] at h
        cases h
        exact ⟨fun a ha => ⟨s, List.mem_cons_self _ _, hf1 a ha⟩,
          fun a ha => ⟨s, List.mem_cons_self _ _, hf2 a ha⟩⟩

/-- The last byte of a non-empty range lies in the segment of the chunk
`(pos + count - 1) / chunk_size`. -/
theorem fixed_segments_last (cfg : scrmfs_config) (pos count : Nat) (hcount : 0 < count) :
    ∃ (i : Nat) (s : chunk_segment), (fixed_segments cfg pos count)[i]? = some s ∧
      pos / scrmfs_chunk_size cfg + i = (pos + count - 1) / scrmfs_chunk_size cfg := by
  obtain ⟨i, s, hs, h1, h2⟩ := fixed_segments_cover cfg pos count (count - 1) (by omega)
  obtain ⟨f1, f2, f3, f4, _, _⟩ := fixed_segments_facts cfg pos count i s hs
  refine ⟨i, s, hs, ?_⟩
  obtain ⟨hq, _⟩ := div_mod_of_block (scrmfs_chunk_size cfg) s.chunk_id (pos + count - 1)
    (by omega) (by omega)
  rw [hq, ← f1]

/-- A non-empty range that ends beyond the capacity splits into segments of
live chunks, covering exactly the bytes below the capacity, and a next
segment whose chunk is at or beyond the chunk count and not beyond the chunk
of the last byte. -/
theorem fixed_segments_out_of_range (cfg : scrmfs_config) (m : scrmfs_filemeta_t)
    (pos count : Nat) (hcount : 0 < count) (hout : capacity cfg m < pos + count) :
    ∃ (pre post : List chunk_segment) (s : chunk_segment),
      fixed_segments cfg pos count = pre ++ s :: post ∧
      (∀ t ∈ pre, t.chunk_id < m.chunks) ∧
      m.chunks ≤ s.chunk_id ∧
      s.chunk_id ≤ (pos + count - 1) / scrmfs_chunk_size cfg ∧
      (∀ k : Nat, (∃ t ∈ pre, t.ptr ≤ k ∧ k < t.ptr + t.count) ↔
        (k < count ∧ pos + k < capacity cfg m)) := by
  have hcs := scrmfs_chunk_size_pos cfg
  obtain ⟨il, sl, hsl, hil⟩ := fixed_segments_last cfg pos count hcount
  have hlast : m.chunks ≤ (pos + count - 1) / scrmfs_chunk_size cfg := by
    apply (Nat.le_div_iff_mul_le hcs).mpr
    unfold capacity at hout
    omega
  have hlen : m.chunks - pos / scrmfs_chunk_size cfg < (fixed_segments cfg pos count).length := by
    have := lt_length_of_getElem? hsl
    omega
  have hsplit : fixed_segments cfg pos count =
      (fixed_segments cfg pos count).take (m.chunks - pos / scrmfs_chunk_size cfg) ++
        (fixed_segments cfg pos count)[m.chunks - pos / scrmfs_chunk_size cfg] ::
          (fixed_segments cfg pos count).drop (m.chunks - pos / scrmfs_chunk_size cfg + 1) := by
    rw [← List.drop_eq_getElem_cons hlen, List.take_append_drop]
  have hst := fixed_segments_facts cfg pos count (m.chunks - pos / scrmfs_chunk_size cfg) _
    (List.getElem?_eq_getElem hlen)
  have hpre : ∀ t ∈ (fixed_segments cfg pos count).take
      (m.chunks - pos / scrmfs_chunk_size cfg),
      ∃ i, i < m.chunks - pos / scrmfs_chunk_size cfg ∧
        (fixed_segments cfg pos count)[i]? = some t := by
    intro t ht
    obtain ⟨i, hi⟩ := List.mem_iff_getElem?.mp ht
    rw [List.getElem?_take] at hi
    by_cases hlt : i < m.chunks - pos / scrmfs_chunk_size cfg
    · rw [if_pos hlt] at hi
      exact ⟨i, hlt, hi⟩
    · rw [if_neg hlt] at hi
      cases hi
  refine ⟨_, _, _, hsplit, ?_, by omega, by omega, ?_⟩
  · intro t ht
    obtain ⟨i, hlt, hi⟩ := hpre t ht
    have := (fixed_segments_facts cfg pos count i t hi).1
    omega
  · intro k
    constructor
    · rintro ⟨t, ht, hk1, hk2⟩
      obtain ⟨i, hlt, hi⟩ := hpre t ht
      obtain ⟨f1, f2, f3, f4, _, _⟩ := fixed_segments_facts cfg pos count i t hi
      have hle : (t.chunk_id + 1) * scrmfs_chunk_size cfg ≤
          m.chunks * scrmfs_chunk_size cfg := Nat.mul_le_mul_right _ (by omega)
      rw [Nat.succ_mul] at hle
      unfold capacity
      omega
    · rintro ⟨hk, hcap⟩
      obtain ⟨i, t, hi, hk1, hk2⟩ := fixed_segments_cover cfg pos count k hk
      obtain ⟨f1, f2, f3, f4, _, _⟩ := fixed_segments_facts cfg pos count i t hi
      have hlt : t.chunk_id < m.chunks := by
        apply Nat.lt_of_mul_lt_mul_right (a := scrmfs_chunk_size cfg)
        unfold capacity at hcap
        omega
      refine ⟨t, ?_, hk1, hk2⟩
      apply List.getElem?_mem (n := i)
      rw [List.getElem?_take, if_pos (by omega)]
      exact hi

/-- The only pool and device bytes a write changes are those backing the file
offsets `pos .. pos + count - 1`: a changed pool byte is the byte
`x mod chunk_size` of the memory chunk named by the descriptor
`x / chunk_size`, for an offset `x` of the range, and likewise on the
device. -/
theorem write_frame_offsets (cfg : scrmfs_config) (m : scrmfs_filemeta_t)
    (stor : chunk_storage) (pos count : Nat) (buf : Nat → UInt8) (rc : scrmfs_rc)
    (stor1 : chunk_storage)
    (hw : scrmfs_fid_store_fixed_write cfg m stor pos buf count = some (rc, stor1)) :
    (∀ a : Int, stor1.scrmfs_chunks a ≠ stor.scrmfs_chunks a →
      ∃ (x : Nat) (d : scrmfs_chunkmeta_t), pos ≤ x ∧ x < pos + count ∧
        m.chunk_meta[x / scrmfs_chunk_size cfg]? = some d ∧
        d.location = CHUNK_LOCATION_MEMFS ∧
        a = shl_chunk_bits cfg d.id + ((x % scrmfs_chunk_size cfg : Nat) : Int)) ∧
      (∀ a : Int, stor1.scrmfs_spilloverblock a ≠ stor.scrmfs_spilloverblock a →
        ∃ (x : Nat) (d : scrmfs_chunkmeta_t), pos ≤ x ∧ x < pos + count ∧
          m.chunk_meta[x / scrmfs_chunk_size cfg]? = some d ∧
          d.location = CHUNK_LOCATION_SPILLOVER ∧ (cfg.scrmfs_max_chunks : Int) ≤ d.id ∧
          a = shl_chunk_bits cfg (d.id - (cfg.scrmfs_max_chunks : Int)) +
            ((x % scrmfs_chunk_size cfg : Nat) : Int)) := by
  rw [write_eq_segments] at hw
  obtain ⟨hf1, hf2⟩ := write_segments_frame cfg m buf _ stor stor1 rc hw
  have key : ∀ (s : chunk_segment) (base a : Int), s ∈ fixed_segments cfg pos count →
      base + (s.chunk_offset : Int) ≤ a → a < base + (s.chunk_offset : Int) + (s.count : Int) →
      ∃ x : Nat, pos ≤ x ∧ x < pos + count ∧ x / scrmfs_chunk_size cfg = s.chunk_id ∧
        a = base + ((x % scrmfs_chunk_size cfg : Nat) : Int) := by
    intro s base a hs h1 h2
    obtain ⟨i, hi⟩ := List.mem_iff_getElem?.mp hs
    obtain ⟨_, f2, f3, f4, _, _⟩ := fixed_segments_facts cfg pos count i s hi
    obtain ⟨hq, hr⟩ := div_mod_of_block (scrmfs_chunk_size cfg) s.chunk_id
      (s.chunk_id * scrmfs_chunk_size cfg + (a - base).toNat) (by omega) (by omega)
    refine ⟨s.chunk_id * scrmfs_chunk_size cfg + (a - base).toNat, by omega, by omega, hq, ?_⟩
    rw [hr]
    omega
  constructor
  · intro a ha
    obtain ⟨s, hs, d, hd, hl, h1, h2⟩ := hf1 a ha
    obtain ⟨x, hx1, hx2, hx3, hx4⟩ := key s _ a hs h1 h2
    exact ⟨x, d, hx1, hx2, by rw [hx3]; exact hd, hl, hx4⟩
  · intro a ha
    obtain ⟨s, hs, d, hd, hl, hid, h1, h2⟩ := hf2 a ha
    obtain ⟨x, hx1, hx2, hx3, hx4⟩ := key s _ a hs h1 h2
    exact ⟨x, d, hx1, hx2, by rw [hx3]; exact hd, hl, hid, hx4⟩

/-- A live descriptor that satisfies the tier-id encoding is one the
chunk-level call can serve. -/
theorem chunk_call_succeeds_of_live (cfg : scrmfs_config) (m : scrmfs_filemeta_t)
    (hv : allocated_encoded cfg m) (c : Nat) (hc : c < m.chunks) :
    chunk_call_succeeds cfg m c := by
  obtain ⟨d, hd, hal, henc⟩ := hv c hc
  refine ⟨d, hd, ?_⟩
  rcases hal with hl | hl
  · exact Or.inl ⟨hl, henc.1.mp hl⟩
  · exact Or.inr hl

/-- C16: for a file whose descriptors below `chunk_count` are allocated with
ids of their tier and whose descriptors at index `chunk_count` or beyond are
unset, every position, and every `count > 0` with `position + count >
chunk_count * chunk_size` whose last chunk index lies inside the descriptor
array: `scrmfs_fid_store_fixed_read` returns the I/O error, and the buffer
holds the file bytes for the offsets of the range below the capacity and is
untouched elsewhere; `scrmfs_fid_store_fixed_write` returns the I/O error, and
every pool or device byte it changed backs a file offset of the range below
the capacity, in the chunk of a descriptor `0 .. chunk_count - 1` of this
file. -/
theorem C16_out_of_range_rejected (cfg : scrmfs_config) (m : scrmfs_filemeta_t)
    (stor : chunk_storage) (buf : Nat → UInt8) (pos count : Nat)
    (hv : allocated_encoded cfg m)
    (hunset : ∀ (i : Nat) (d : scrmfs_chunkmeta_t), m.chunks ≤ i →
      m.chunk_meta[i]? = some d → d.location = CHUNK_LOCATION_NULL)
    (hcount : 0 < count) (hout : capacity cfg m < pos + count)
    (harr : (pos + count - 1) / scrmfs_chunk_size cfg < m.chunk_meta.length) :
    (∃ out, scrmfs_fid_store_fixed_read cfg m stor pos buf count = some ( SCRMFS_ERR_IO, out) ∧
        ∀ k : Nat, out k =
          if k < count ∧ pos + k < capacity cfg m then file_byte cfg m stor (pos + k)
          else buf k) ∧
      (∃ stor1, scrmfs_fid_store_fixed_write cfg m stor pos buf count =
          some ( SCRMFS_ERR_IO, stor1) ∧
        (∀ a : Int, stor1.scrmfs_chunks a ≠ stor.scrmfs_chunks a →
          ∃ (x : Nat) (d : scrmfs_chunkmeta_t), pos ≤ x ∧ x < pos + count ∧
            x < capacity cfg m ∧ x / scrmfs_chunk_size cfg < m.chunks ∧
            m.chunk_meta[x / scrmfs_chunk_size cfg]? = some d ∧
            d.location = CHUNK_LOCATION_MEMFS ∧
            a = shl_chunk_bits cfg d.id + ((x % scrmfs_chunk_size cfg : Nat) : Int)) ∧
        (∀ a : Int, stor1.scrmfs_spilloverblock a ≠ stor.scrmfs_spilloverblock a →
          ∃ (x : Nat) (d : scrmfs_chunkmeta_t), pos ≤ x ∧ x < pos + count ∧
            x < capacity cfg m ∧ x / scrmfs_chunk_size cfg < m.chunks ∧
            m.chunk_meta[x / scrmfs_chunk_size cfg]? = some d ∧
            d.location = CHUNK_LOCATION_SPILLOVER ∧
            a = shl_chunk_bits cfg (d.id - (cfg.scrmfs_max_chunks : Int)) +
              ((x % scrmfs_chunk_size cfg : Nat) : Int))) := by
  have hcs := scrmfs_chunk_size_pos cfg
  obtain ⟨pre, post, s, hsegs, hpre, hs1, hs2, hcover⟩ :=
    fixed_segments_out_of_range cfg m pos count hcount hout
  obtain ⟨d, hd⟩ := getElem?_exists m.chunk_meta s.chunk_id (by omega)
  have hna : ¬ is_allocated d := by
    have hnull := hunset s.chunk_id d hs1 hd
    unfold is_allocated
    rw [hnull]
    simp
  have hlive : ∀ (x : Nat) (dx : scrmfs_chunkmeta_t),
      m.chunk_meta[x / scrmfs_chunk_size cfg]? = some dx → is_allocated dx →
      x / scrmfs_chunk_size cfg < m.chunks ∧ x < capacity cfg m := by
    intro x dx hdx hal
    have hlt : x / scrmfs_chunk_size cfg < m.chunks := by
      by_contra hge
      have hnull := hunset _ dx (by omega) hdx
      unfold is_allocated at hal
      rw [hnull] at hal
      simp at hal
    refine ⟨hlt, ?_⟩
    obtain ⟨_, hx2, _⟩ := block_of_div (scrmfs_chunk_size cfg) x hcs
    have hle : (x / scrmfs_chunk_size cfg + 1) * scrmfs_chunk_size cfg ≤
        m.chunks * scrmfs_chunk_size cfg := Nat.mul_le_mul_right _ (by omega)
    rw [Nat.succ_mul] at hle
    unfold capacity
    omega
  constructor
  · obtain ⟨b1, hb1, hbytes⟩ := read_segments_live_spec cfg m stor hv pos pre buf (by
      intro t ht
      have hmem : t ∈ fixed_segments cfg pos count := by
        rw [hsegs]
        exact List.mem_append_left _ ht
      obtain ⟨i, hi⟩ := List.mem_iff_getElem?.mp hmem
      obtain ⟨_, f2, f3, _⟩ := fixed_segments_facts cfg pos count i t hi
      exact ⟨hpre t ht, f2, f3⟩)
    refine ⟨b1, ?_, fun k => ?_⟩
    · rw [read_eq_segments, hsegs]
      exact read_segments_stop cfg m stor pre post s buf b1 b1 _ hb1
        (chunk_read_not_allocated cfg m stor _ _ _ _ _ d hd hna) (by decide)
    · by_cases hk : k < count ∧ pos + k < capacity cfg m
      · rw [if_pos hk]
        exact (hbytes k).1 ((hcover k).mpr hk)
      · rw [if_neg hk]
        exact (hbytes k).2 (fun hex => hk ((hcover k).mp hex))
  · obtain ⟨s1, hs1w⟩ := (write_segments_success_iff cfg m buf pre stor).mpr
      (fun t ht => chunk_call_succeeds_of_live cfg m hv t.chunk_id (hpre t ht))
    have hw : scrmfs_fid_store_fixed_write cfg m stor pos buf count =
        some ( SCRMFS_ERR_IO, s1) := by
      rw [write_eq_segments, hsegs]
      exact write_segments_stop cfg m buf pre post s stor s1 s1 _ hs1w
        (chunk_write_not_allocated cfg m s1 _ _ _ _ _ d hd hna) (by decide)
    obtain ⟨hf1, hf2⟩ := write_frame_offsets cfg m stor pos count buf _ s1 hw
    refine ⟨s1, hw, ?_, ?_⟩
    · intro a ha
      obtain ⟨x, dx, hx1, hx2, hdx, hl, hax⟩ := hf1 a ha
      obtain ⟨hx3, hx4⟩ := hlive x dx hdx (Or.inl hl)
      exact ⟨x, dx, hx1, hx2, hx4, hx3, hdx, hl, hax⟩
    · intro a ha
      obtain ⟨x, dx, hx1, hx2, hdx, hl, _, hax⟩ := hf2 a ha
      obtain ⟨hx3, hx4⟩ := hlive x dx hdx (Or.inr hl)
      exact ⟨x, dx, hx1, hx2, hx4, hx3, hdx, hl, hax⟩

/-- C16 (witness): the file of the concrete scenario after its extension (two
memory chunks, a third descriptor slot unset, capacity 8) with `position = 6`
and `count = 4`: the range ends at offset 10, in the chunk index 2 of the
three descriptor slots. -/
theorem C16_out_of_range_rejected_witness :
    allocated_encoded scenario_config scenario_extended.fmeta ∧
      (∀ (i : Nat) (d : scrmfs_chunkmeta_t), scenario_extended.fmeta.chunks ≤ i →
        scenario_extended.fmeta.chunk_meta[i]? = some d →
        d.location = CHUNK_LOCATION_NULL) ∧
      0 < 4 ∧ capacity scenario_config scenario_extended.fmeta < 6 + 4 ∧
      (6 + 4 - 1) / scrmfs_chunk_size scenario_config <
        scenario_extended.fmeta.chunk_meta.length ∧
      (∃ out, scrmfs_fid_store_fixed_read scenario_config scenario_extended.fmeta
            zero_storage 6 zero_buffer 4 = some ( SCRMFS_ERR_IO, out) ∧
        ∀ k : Nat, out k =
          if k < 4 ∧ 6 + k < capacity scenario_config scenario_extended.fmeta then
            file_byte scenario_config scenario_extended.fmeta zero_storage (6 + k)
          else zero_buffer k) ∧
      (∃ stor1, scrmfs_fid_store_fixed_write scenario_config scenario_extended.fmeta
            zero_storage 6 zero_buffer 4 = some ( SCRMFS_ERR_IO, stor1) ∧
        (∀ a : Int, stor1.scrmfs_chunks a ≠ zero_storage.scrmfs_chunks a →
          ∃ (x : Nat) (d : scrmfs_chunkmeta_t), 6 ≤ x ∧ x < 6 + 4 ∧
            x < capacity scenario_config scenario_extended.fmeta ∧
            x / scrmfs_chunk_size scenario_config < scenario_extended.fmeta.chunks ∧
            scenario_extended.fmeta.chunk_meta[x / scrmfs_chunk_size scenario_config]? =
              some d ∧
            d.location = CHUNK_LOCATION_MEMFS ∧
            a = shl_chunk_bits scenario_config d.id +
              ((x % scrmfs_chunk_size scenario_config : Nat) : Int)) ∧
        (∀ a : Int, stor1.scrmfs_spilloverblock a ≠ zero_storage.scrmfs_spilloverblock a →
          ∃ (x : Nat) (d : scrmfs_chunkmeta_t), 6 ≤ x ∧ x < 6 + 4 ∧
            x < capacity scenario_config scenario_extended.fmeta ∧
            x / scrmfs_chunk_size scenario_config < scenario_extended.fmeta.chunks ∧
            scenario_extended.fmeta.chunk_meta[x / scrmfs_chunk_size scenario_config]? =
              some d ∧
            d.location = CHUNK_LOCATION_SPILLOVER ∧
            a = shl_chunk_bits scenario_config
                (d.id - (scenario_config.scrmfs_max_chunks : Int)) +
              ((x % scrmfs_chunk_size scenario_config : Nat) : Int))) := by
  have hv : allocated_encoded scenario_config scenario_extended.fmeta := by
    intro i hi
    simp only [scenario_extended] at hi
    have h2 : i = 0 ∨ i = 1 := by omega
    rcases h2 with h | h <;> subst h
    · exact ⟨{ location := CHUNK_LOCATION_MEMFS, id := 0 }, rfl, Or.inl rfl,
        by simp [tier_encoding, scenario_config]⟩
    · exact ⟨{ location := CHUNK_LOCATION_MEMFS, id := 1 }, rfl, Or.inl rfl,
        by simp [tier_encoding, scenario_config]⟩
  have hunset : ∀ (i : Nat) (d : scrmfs_chunkmeta_t), scenario_extended.fmeta.chunks ≤ i →
      scenario_extended.fmeta.chunk_meta[i]? = some d → d.location = CHUNK_LOCATION_NULL := by
    intro i d hi hd
    simp only [scenario_extended] at hi hd
    have hlt := lt_length_of_getElem? hd
    simp only [List.length_cons, List.length_nil] at hlt
    have h2 : i = 2 := by omega
    subst h2
    simp [unset_descriptor] at hd
    rw [← hd]
  exact ⟨hv, hunset, by decide, by decide, by decide,
    C16_out_of_range_rejected scenario_config scenario_extended.fmeta zero_storage zero_buffer
      6 4 hv hunset (by decide) (by decide) (by decide)⟩

/-- A successful write of at least one byte to a file whose descriptors at or
beyond the chunk count are unset lies inside the capacity. -/
theorem write_success_in_range (cfg : scrmfs_config) (m : scrmfs_filemeta_t)
    (stor : chunk_storage) (pos count : Nat) (buf : Nat → UInt8) (stor1 : chunk_storage)
    (hunset : ∀ (i : Nat) (d : scrmfs_chunkmeta_t), m.chunks ≤ i →
      m.chunk_meta[i]? = some d → d.location = CHUNK_LOCATION_NULL)
    (hcount : 0 < count)
    (hw : scrmfs_fid_store_fixed_write cfg m stor pos buf count =
      some (SCRMFS_SUCCESS, stor1)) :
    pos + count ≤ capacity cfg m := by
  have hcs := scrmfs_chunk_size_pos cfg
  have hall := (write_segments_success_iff cfg m buf (fixed_segments cfg pos count) stor).mp
    ⟨stor1, by rw [← write_eq_segments]; exact hw⟩
  obtain ⟨i, s, hs, hi⟩ := fixed_segments_last cfg pos count hcount
  obtain ⟨d, hd, hal⟩ := hall s (List.getElem?_mem hs)
  have hid := (fixed_segments_facts cfg pos count i s hs).1
  have hlt : s.chunk_id < m.chunks := by
    by_contra hge
    have hnull := hunset _ d (by omega) hd
    rw [hnull] at hal
    simp at hal
  obtain ⟨_, hx2, _⟩ := block_of_div (scrmfs_chunk_size cfg) (pos + count - 1) hcs
  have hle : ((pos + count - 1) / scrmfs_chunk_size cfg + 1) * scrmfs_chunk_size cfg ≤
      m.chunks * scrmfs_chunk_size cfg := Nat.mul_le_mul_right _ (by omega)
  rw [Nat.succ_mul] at hle
  unfold capacity
  omega

/-- The bytes of a file are the same in two storages that agree byte by
byte. -/
theorem file_byte_congr (cfg : scrmfs_config) (m : scrmfs_filemeta_t)
    (stor stor1 : chunk_storage)
    (h1 : ∀ a : Int, stor1.scrmfs_chunks a = stor.scrmfs_chunks a)
    (h2 : ∀ a : Int, stor1.scrmfs_spilloverblock a = stor.scrmfs_spilloverblock a) (x : Nat) :
    file_byte cfg m stor1 x = file_byte cfg m stor x := by
  unfold file_byte chunk_byte
  cases m.chunk_meta[x / scrmfs_chunk_size cfg]? with
  | none => rfl
  | some d =>
    simp only
    rw [h1, h2]

/-- C19: a successful `scrmfs_fid_store_fixed_write(position, data, count)`
on a file whose live descriptors are allocated with pairwise distinct ids of
their tier, the range lying inside the capacity (which the success gives for
`count > 0` when the descriptors at or beyond `chunk_count` are unset, the
file metadata invariant). Every pool byte that changed is the byte
`x mod chunk_size` of the memory chunk of the descriptor `x / chunk_size` for
a file offset `x` of `position .. position + count - 1`, every device byte
that changed likewise for a spillover chunk; every file byte of the range
holds the data and every other byte of the file is as before. The chunk
count, the descriptors and the free stacks are no result of the write, nor of
the read, which returns the buffer alone. -/
theorem C19_write_frame (cfg : scrmfs_config) (m : scrmfs_filemeta_t) (stor : chunk_storage)
    (pos count : Nat) (data : Nat → UInt8) (stor1 : chunk_storage)
    (hv : allocated_encoded cfg m) (hdis : distinct_ids m)
    (hrange : pos + count ≤ capacity cfg m ∨
      ∀ (i : Nat) (d : scrmfs_chunkmeta_t), m.chunks ≤ i →
        m.chunk_meta[i]? = some d → d.location = CHUNK_LOCATION_NULL)
    (hw : scrmfs_fid_store_fixed_write cfg m stor pos data count =
      some (SCRMFS_SUCCESS, stor1)) :
    (∀ a : Int, stor1.scrmfs_chunks a ≠ stor.scrmfs_chunks a →
        ∃ (x : Nat) (d : scrmfs_chunkmeta_t), pos ≤ x ∧ x < pos + count ∧
          x < capacity cfg m ∧
          m.chunk_meta[x / scrmfs_chunk_size cfg]? = some d ∧
          d.location = CHUNK_LOCATION_MEMFS ∧
          a = shl_chunk_bits cfg d.id + ((x % scrmfs_chunk_size cfg : Nat) : Int)) ∧
      (∀ a : Int, stor1.scrmfs_spilloverblock a ≠ stor.scrmfs_spilloverblock a →
        ∃ (x : Nat) (d : scrmfs_chunkmeta_t), pos ≤ x ∧ x < pos + count ∧
          x < capacity cfg m ∧
          m.chunk_meta[x / scrmfs_chunk_size cfg]? = some d ∧
          d.location = CHUNK_LOCATION_SPILLOVER ∧
          a = shl_chunk_bits cfg (d.id - (cfg.scrmfs_max_chunks : Int)) +
            ((x % scrmfs_chunk_size cfg : Nat) : Int)) ∧
      (∀ x : Nat, x < capacity cfg m →
        file_byte cfg m stor1 x =
          if pos ≤ x ∧ x < pos + count then data (x - pos) else file_byte cfg m stor x) := by
  obtain ⟨hf1, hf2⟩ := write_frame_offsets cfg m stor pos count data _ stor1 hw
  have hbound : count = 0 ∨ pos + count ≤ capacity cfg m := by
    rcases hrange with h | h
    · exact Or.inr h
    · by_cases hc : count = 0
      · exact Or.inl hc
      · exact Or.inr (write_success_in_range cfg m stor pos count data stor1 h (by omega) hw)
  have hcap : ∀ x : Nat, pos ≤ x → x < pos + count → x < capacity cfg m := by
    intro x h1 h2
    rcases hbound with h | h <;> omega
  refine ⟨?_, ?_, ?_⟩
  · intro a ha
    obtain ⟨x, d, hx1, hx2, hd, hl, hax⟩ := hf1 a ha
    exact ⟨x, d, hx1, hx2, hcap x hx1 hx2, hd, hl, hax⟩
  · intro a ha
    obtain ⟨x, d, hx1, hx2, hd, hl, _, hax⟩ := hf2 a ha
    exact ⟨x, d, hx1, hx2, hcap x hx1 hx2, hd, hl, hax⟩
  · intro x hx
    by_cases hc : count = 0
    · rw [if_neg (by omega)]
      apply file_byte_congr
      · intro a
        by_contra hne
        obtain ⟨y, _, hy1, hy2, _⟩ := hf1 a hne
        omega
      · intro a
        by_contra hne
        obtain ⟨y, _, hy1, hy2, _⟩ := hf2 a hne
        omega
    · have hb : pos + count ≤ capacity cfg m := by
        rcases hbound with h | h
        · exact absurd h hc
        · exact h
      obtain ⟨stor2, hw2, hbytes⟩ := fid_write_spec cfg m stor hv hdis pos count data
        (by omega) hb
      rw [hw] at hw2
      cases hw2
      exact hbytes x hx

/-- C19 (witness): the one-chunk file with `position = 1` and `count = 2`, a
write inside its only chunk, in the memory pool. -/
theorem C19_write_frame_witness :
    allocated_encoded scenario_config one_chunk_file ∧ distinct_ids one_chunk_file ∧
      (1 + 2 ≤ capacity scenario_config one_chunk_file ∨
        ∀ (i : Nat) (d : scrmfs_chunkmeta_t), one_chunk_file.chunks ≤ i →
          one_chunk_file.chunk_meta[i]? = some d → d.location = CHUNK_LOCATION_NULL) ∧
      scrmfs_fid_store_fixed_write scenario_config one_chunk_file zero_storage 1
          (fun k => UInt8.ofNat (65 + k)) 2 =
        some (SCRMFS_SUCCESS,
          { scrmfs_chunks := copy_to_storage zero_storage.scrmfs_chunks 1
              (fun k => UInt8.ofNat (65 + k)) 0 2,
            scrmfs_spilloverblock := zero_storage.scrmfs_spilloverblock }) ∧
      (∀ a : Int,
        copy_to_storage zero_storage.scrmfs_chunks 1 (fun k => UInt8.ofNat (65 + k)) 0 2 a ≠
          zero_storage.scrmfs_chunks a →
        ∃ (x : Nat) (d : scrmfs_chunkmeta_t), 1 ≤ x ∧ x < 1 + 2 ∧
          x < capacity scenario_config one_chunk_file ∧
          one_chunk_file.chunk_meta[x / scrmfs_chunk_size scenario_config]? = some d ∧
          d.location = CHUNK_LOCATION_MEMFS ∧
          a = shl_chunk_bits scenario_config d.id +
            ((x % scrmfs_chunk_size scenario_config : Nat) : Int)) ∧
      (∀ a : Int, zero_storage.scrmfs_spilloverblock a ≠ zero_storage.scrmfs_spilloverblock a →
        ∃ (x : Nat) (d : scrmfs_chunkmeta_t), 1 ≤ x ∧ x < 1 + 2 ∧
          x < capacity scenario_config one_chunk_file ∧
          one_chunk_file.chunk_meta[x / scrmfs_chunk_size scenario_config]? = some d ∧
          d.location = CHUNK_LOCATION_SPILLOVER ∧
          a = shl_chunk_bits scenario_config
              (d.id - (scenario_config.scrmfs_max_chunks : Int)) +
            ((x % scrmfs_chunk_size scenario_config : Nat) : Int)) ∧
      (∀ x : Nat, x < capacity scenario_config one_chunk_file →
        file_byte scenario_config one_chunk_file
            { scrmfs_chunks := copy_to_storage zero_storage.scrmfs_chunks 1
                (fun k => UInt8.ofNat (65 + k)) 0 2,
              scrmfs_spilloverblock := zero_storage.scrmfs_spilloverblock } x =
          if 1 ≤ x ∧ x < 1 + 2 then (fun k => UInt8.ofNat (65 + k)) (x - 1)
          else file_byte scenario_config one_chunk_file zero_storage x) := by
  have hv : allocated_encoded scenario_config one_chunk_file := by
    intro i hi
    simp only [one_chunk_file] at hi
    have h0 : i = 0 := by omega
    subst h0
    exact ⟨{ location := CHUNK_LOCATION_MEMFS, id := 0 }, rfl, Or.inl rfl,
      by simp [tier_encoding, scenario_config]⟩
  have hdis : distinct_ids one_chunk_file := by
    intro i j di dj hi hj _ _ _
    simp only [one_chunk_file] at hi hj
    omega
  have hw : scrmfs_fid_store_fixed_write scenario_config one_chunk_file zero_storage 1
      (fun k => UInt8.ofNat (65 + k)) 2 =
      some (SCRMFS_SUCCESS,
        { scrmfs_chunks := copy_to_storage zero_storage.scrmfs_chunks 1
            (fun k => UInt8.ofNat (65 + k)) 0 2,
          scrmfs_spilloverblock := zero_storage.scrmfs_spilloverblock }) := by
    rfl
  exact ⟨hv, hdis, Or.inl (by decide), hw,
    C19_write_frame scenario_config one_chunk_file zero_storage 1 2
      (fun k => UInt8.ofNat (65 + k)) _ hv hdis (Or.inl (by decide)) hw⟩

theorem chunkmeta_eq (a b : scrmfs_chunkmeta_t) (h1 : a.location = b.location)
    (h2 : a.id = b.id) : a = b := by
  cases a
  cases b
  simp only at h1 h2
  rw [h1, h2]

/-- An id that is not on a stack is not on a stack obtained by popping. -/
theorem on_free_stack_suffix (cfg : scrmfs_config) (mem mem1 spill spill1 pm ps : List Int)
    (d : scrmfs_chunkmeta_t) (hm : mem = pm ++ mem1) (hs : spill = ps ++ spill1)
    (h : ¬ on_free_stack cfg mem spill d) : ¬ on_free_stack cfg mem1 spill1 d := by
  intro hon
  apply h
  rcases hon with ⟨hl, hin⟩ | ⟨hl, hin⟩
  · exact Or.inl ⟨hl, by rw [hm]; exact List.mem_append_right _ hin⟩
  · exact Or.inr ⟨hl, by rw [hs]; exact List.mem_append_right _ hin⟩

theorem exclusive_alloc_success (cfg : scrmfs_config) (others : scrmfs_chunkmeta_t → Prop)
    (st st1 : fixed_state) (hp : exclusive_state cfg others st)
    (h : scrmfs_chunk_alloc cfg st st.fmeta.chunks = some (SCRMFS_SUCCESS, st1)) :
    exclusive_state cfg others (incr_chunks st1) := by
  obtain ⟨hn1, hn2, hinj, hlive, hoth⟩ := hp
  obtain ⟨d, pm, ps, hi, hmeta, hmem, hsp, hcase⟩ := alloc_success h
  have hmono : ∀ e, ¬ on_free_stack cfg st.free_chunk_stack st.free_spillchunk_stack e →
      ¬ on_free_stack cfg st1.free_chunk_stack st1.free_spillchunk_stack e :=
    fun e => on_free_stack_suffix cfg _ _ _ _ pm ps e hmem hsp
  rw [hmem] at hn1
  rw [hsp] at hn2
  obtain ⟨_, hn1b, hd1⟩ := List.nodup_append.mp hn1
  obtain ⟨_, hn2b, hd2⟩ := List.nodup_append.mp hn2
  have hK : on_free_stack cfg st.free_chunk_stack st.free_spillchunk_stack d := by
    rcases hcase with ⟨hl, hin, _, _⟩ | ⟨hl, hin, _⟩
    · exact Or.inl ⟨hl, by rw [hmem]; exact List.mem_append_left _ hin⟩
    · exact Or.inr ⟨hl, by rw [hsp]; exact List.mem_append_left _ hin⟩
  have hN : ¬ on_free_stack cfg st1.free_chunk_stack st1.free_spillchunk_stack d := by
    intro hon
    rcases hcase with ⟨hl, hin, _, _⟩ | ⟨hl, hin, _⟩
    · rcases hon with ⟨_, hin1⟩ | ⟨hl1, _⟩
      · exact List.disjoint_left.mp hd1 hin hin1
      · rw [hl] at hl1
        cases hl1
    · rcases hon with ⟨hl1, _⟩ | ⟨_, hin1⟩
      · rw [hl] at hl1
        cases hl1
      · exact List.disjoint_left.mp hd2 hin hin1
  have hget : ∀ (i : Nat) (e : scrmfs_chunkmeta_t), i < st.fmeta.chunks + 1 →
      (incr_chunks st1).fmeta.chunk_meta[i]? = some e →
      (i = st.fmeta.chunks ∧ e = d) ∨
        (i < st.fmeta.chunks ∧ st.fmeta.chunk_meta[i]? = some e) := by
    intro i e hlt he
    simp only [incr_chunks_chunk_meta, hmeta] at he
    by_cases hic : i = st.fmeta.chunks
    · subst hic
      rw [List.getElem?_set_self hi] at he
      cases he
      exact Or.inl ⟨rfl, rfl⟩
    · rw [List.getElem?_set_ne (fun h => hic h.symm)] at he
      exact Or.inr ⟨by omega, he⟩
  have hchunks : (incr_chunks st1).fmeta.chunks = st.fmeta.chunks + 1 := by
    simp only [incr_chunks_chunks, hmeta]
  refine ⟨hn1b, hn2b, ?_, ?_, ?_⟩
  · intro i j e hi1 hj1 he1 he2
    rw [hchunks] at hi1 hj1
    rcases hget i e hi1 he1 with ⟨hic, hed⟩ | ⟨hic, hei⟩ <;>
      rcases hget j e hj1 he2 with ⟨hjc, hed2⟩ | ⟨hjc, hej⟩
    · omega
    · subst hed
      exact absurd hK (hlive j e hjc hej).2
    · subst hed2
      exact absurd hK (hlive i e hic hei).2
    · exact hinj i j e hic hjc hei hej
  · intro i e hi1 he
    rw [hchunks] at hi1
    simp only [incr_chunks_free_chunk_stack, incr_chunks_free_spillchunk_stack]
    rcases hget i e hi1 he with ⟨_, hed⟩ | ⟨hic, hei⟩
    · subst hed
      exact ⟨fun ho => hoth e ho hK, hN⟩
    · exact ⟨(hlive i e hic hei).1, hmono e (hlive i e hic hei).2⟩
  · intro e ho
    simp only [incr_chunks_free_chunk_stack, incr_chunks_free_spillchunk_stack]
    exact hmono e (hoth e ho)

theorem exclusive_alloc_failure (cfg : scrmfs_config) (others : scrmfs_chunkmeta_t → Prop)
    (st : fixed_state) (rc : scrmfs_rc) (st1 : fixed_state)
    (hp : exclusive_state cfg others st)
    (h : scrmfs_chunk_alloc cfg st st.fmeta.chunks = some (rc, st1))
    (hrc : rc ≠ SCRMFS_SUCCESS) :
    exclusive_state cfg others st1 := by
  obtain ⟨hn1, hn2, hinj, hlive, hoth⟩ := hp
  obtain ⟨hch, hcm, ⟨pm, hmem⟩, ⟨ps, hsp⟩⟩ := alloc_failure h hrc
  have hmono : ∀ e, ¬ on_free_stack cfg st.free_chunk_stack st.free_spillchunk_stack e →
      ¬ on_free_stack cfg st1.free_chunk_stack st1.free_spillchunk_stack e :=
    fun e => on_free_stack_suffix cfg _ _ _ _ pm ps e hmem hsp
  rw [hmem] at hn1
  rw [hsp] at hn2
  have hget : ∀ (i : Nat) (e : scrmfs_chunkmeta_t), i < st.fmeta.chunks →
      st1.fmeta.chunk_meta[i]? = some e → st.fmeta.chunk_meta[i]? = some e := by
    intro i e hlt he
    rcases hcm with hsame | ⟨d, _, hset⟩
    · rw [hsame] at he
      exact he
    · rw [hset, List.getElem?_set_ne (by omega)] at he
      exact he
  refine ⟨(List.nodup_append.mp hn1).2.1, (List.nodup_append.mp hn2).2.1, ?_, ?_, ?_⟩
  · intro i j e hi1 hj1 he1 he2
    rw [hch] at hi1 hj1
    exact hinj i j e hi1 hj1 (hget i e hi1 he1) (hget j e hj1 he2)
  · intro i e hi1 he
    rw [hch] at hi1
    have := hlive i e hi1 (hget i e hi1 he)
    exact ⟨this.1, hmono e this.2⟩
  · intro e ho
    exact hmono e (hoth e ho)

theorem exclusive_free (cfg : scrmfs_config) (others : scrmfs_chunkmeta_t → Prop)
    (st : fixed_state) (rc : scrmfs_rc) (st2 : fixed_state)
    (hp : exclusive_state cfg others st) (hpos : 0 < st.fmeta.chunks)
    (hfree : scrmfs_chunk_free (decr_chunks st) (st.fmeta.chunks - 1) = some (rc, st2)) :
    exclusive_state cfg others st2 := by
  obtain ⟨hn1, hn2, hinj, hlive, hoth⟩ := hp
  cases hd : st.fmeta.chunk_meta[st.fmeta.chunks - 1]? with
  | none =>
    unfold scrmfs_chunk_free at hfree
    simp only [decr_chunks_chunk_meta, hd] at hfree
    cases hfree
  | some d =>
    rw [scrmfs_chunk_free_spec (decr_chunks st) (st.fmeta.chunks - 1) d hd] at hfree
    cases hfree
    simp only [decr_chunks_chunks, decr_chunks_chunk_meta, decr_chunks_free_chunk_stack,
      decr_chunks_free_spillchunk_stack]
    obtain ⟨hd_oth, hd_off⟩ := hlive _ d (by omega) hd
    have hkeep : ∀ e, e ≠ d →
        ¬ on_free_stack cfg st.free_chunk_stack st.free_spillchunk_stack e →
        ¬ on_free_stack cfg (freed_memfs_ids [d] ++ st.free_chunk_stack)
          st.free_spillchunk_stack e := by
      intro e hne hoff hon
      rcases hon with ⟨hl, hin⟩ | ⟨hl, hin⟩
      · rw [freed_memfs_ids_singleton] at hin
        by_cases hdl : d.location = CHUNK_LOCATION_MEMFS
        · rw [if_pos hdl] at hin
          rcases List.mem_append.mp hin with h1 | h1
          · rw [List.mem_singleton] at h1
            exact hne (chunkmeta_eq e d (by rw [hl, hdl]) h1)
          · exact hoff (Or.inl ⟨hl, h1⟩)
        · rw [if_neg hdl] at hin
          exact hoff (Or.inl ⟨hl, hin⟩)
      · exact hoff (Or.inr ⟨hl, hin⟩)
    have hget : ∀ (i : Nat) (e : scrmfs_chunkmeta_t), i < st.fmeta.chunks - 1 →
        (st.fmeta.chunk_meta.set (st.fmeta.chunks - 1) (freed_descriptor d))[i]? = some e →
        st.fmeta.chunk_meta[i]? = some e ∧ e ≠ d := by
      intro i e hlt he
      rw [List.getElem?_set_ne (by omega)] at he
      refine ⟨he, fun hed => ?_⟩
      subst hed
      have := hinj i (st.fmeta.chunks - 1) e (by omega) (by omega) he hd
      omega
    refine ⟨?_, hn2, ?_, ?_, ?_⟩
    · rw [freed_memfs_ids_singleton]
      by_cases hdl : d.location = CHUNK_LOCATION_MEMFS
      · rw [if_pos hdl]
        exact List.nodup_cons.mpr ⟨fun hin => hd_off (Or.inl ⟨hdl, hin⟩), hn1⟩
      · rw [if_neg hdl]
        exact hn1
    · intro i j e hi1 hj1 he1 he2
      have hi2 : i < st.fmeta.chunks - 1 := hi1
      have hj2 : j < st.fmeta.chunks - 1 := hj1
      exact hinj i j e (by omega) (by omega) (hget i e hi2 he1).1 (hget j e hj2 he2).1
    · intro i e hi1 he
      have hi2 : i < st.fmeta.chunks - 1 := hi1
      obtain ⟨he1, hne⟩ := hget i e hi2 he
      have := hlive i e (by omega) he1
      exact ⟨this.1, hkeep e hne this.2⟩
    · intro e ho
      exact hkeep e (fun hed => hd_oth (hed ▸ ho)) (hoth e ho)

/-- Extend keeps the state free of doubly held chunks. -/
theorem exclusive_extend (cfg : scrmfs_config) (others : scrmfs_chunkmeta_t → Prop)
    (st st1 : fixed_state) (length : Int) (rc : scrmfs_rc)
    (h : scrmfs_fid_store_fixed_extend cfg st length = some (rc, st1))
    (hp : exclusive_state cfg others st) : exclusive_state cfg others st1 :=
  extend_preserves cfg (exclusive_state cfg others) (exclusive_alloc_success cfg others)
    (exclusive_alloc_failure cfg others) h hp

/-- Shrink keeps the state free of doubly held chunks. -/
theorem exclusive_shrink (cfg : scrmfs_config) (others : scrmfs_chunkmeta_t → Prop)
    (st st1 : fixed_state) (length : Int) (rc : scrmfs_rc)
    (h : scrmfs_fid_store_fixed_shrink cfg st length = some (rc, st1))
    (hp : exclusive_state cfg others st) : exclusive_state cfg others st1 :=
  shrink_preserves cfg (exclusive_state cfg others) (exclusive_free cfg others) h hp

/-- A call on one file keeps the system free of doubly held chunks, when the
operation keeps the state it works on so, whatever the live descriptors of
the other files are. -/
theorem no_double_allocation_update (cfg : scrmfs_config) (sys : fixed_system) (fid : Nat)
    (st st1 : fixed_state) (hI : no_double_allocation cfg sys)
    (hsel : sys.select fid = some st)
    (hstep : exclusive_state cfg (other_live sys fid) st →
      exclusive_state cfg (other_live sys fid) st1) :
    no_double_allocation cfg (sys.update fid st1) := by
  obtain ⟨hn1, hn2, hdist, hoff⟩ := hI
  unfold fixed_system.select at hsel
  cases hm : sys.files[fid]? with
  | none =>
    rw [hm] at hsel
    cases hsel
  | some m =>
    rw [hm] at hsel
    cases hsel
    have hlen : fid < sys.files.length := lt_length_of_getElem? hm
    have hJ : exclusive_state cfg (other_live sys fid)
        { fmeta := m, free_chunk_stack := sys.free_chunk_stack,
          free_spillchunk_stack := sys.free_spillchunk_stack } := by
      refine ⟨hn1, hn2, ?_, ?_, ?_⟩
      · intro i j d hi hj hdi hdj
        exact (hdist fid fid i j m m d d hm hm hi hj hdi hdj rfl).2
      · intro i d hi hdi
        refine ⟨?_, hoff fid i m d hm hi hdi⟩
        rintro ⟨g, j, n, hne, hn, hj, hdj⟩
        exact hne (hdist fid g i j m n d d hm hn hi hj hdi hdj rfl).1.symm
      · rintro d ⟨g, j, n, _, hn, hj, hdj⟩
        exact hoff g j n d hn hj hdj
    obtain ⟨hm1, hm2, hinj, hlive, hoth⟩ := hstep hJ
    have hfile : ∀ (f : Nat) (n : scrmfs_filemeta_t),
        (sys.update fid st1).files[f]? = some n →
        (f = fid ∧ n = st1.fmeta) ∨ (f ≠ fid ∧ sys.files[f]? = some n) := by
      intro f n hn
      unfold fixed_system.update at hn
      simp only at hn
      by_cases hf : f = fid
      · subst hf
        rw [List.getElem?_set_self hlen] at hn
        cases hn
        exact Or.inl ⟨rfl, rfl⟩
      · rw [List.getElem?_set_ne (fun h => hf h.symm)] at hn
        exact Or.inr ⟨hf, hn⟩
    refine ⟨hm1, hm2, ?_, ?_⟩
    · intro f g i j n1 n2 d e hf hg hi hj hd he hde
      subst hde
      rcases hfile f n1 hf with ⟨hf1, hn1e⟩ | ⟨hf1, hn1e⟩ <;>
        rcases hfile g n2 hg with ⟨hg1, hn2e⟩ | ⟨hg1, hn2e⟩
      · subst hn1e
        subst hn2e
        exact ⟨by rw [hf1, hg1], hinj i j d hi hj hd he⟩
      · subst hn1e
        exact absurd ⟨g, j, n2, hg1, hn2e, hj, he⟩ (hlive i d hi hd).1
      · subst hn2e
        exact absurd ⟨f, i, n1, hf1, hn1e, hi, hd⟩ (hlive j d hj he).1
      · exact hdist f g i j n1 n2 d d hn1e hn2e hi hj hd he rfl
    · intro f i n d hf hi hd
      rcases hfile f n hf with ⟨_, hne⟩ | ⟨hf1, hne⟩
      · subst hne
        exact (hlive i d hi hd).2
      · exact hoth d ⟨f, i, n, hf1, hne, hi, hd⟩

/-- Every call of extend or shrink keeps the system free of doubly held
chunks. -/
theorem no_double_allocation_call (cfg : scrmfs_config) (sys sys1 : fixed_system)
    (c : fixed_call) (rc : scrmfs_rc) (hI : no_double_allocation cfg sys)
    (hcall : sys.call cfg c = some (rc, sys1)) : no_double_allocation cfg sys1 := by
  unfold fixed_system.call at hcall
  cases c with
  | extend fid length =>
    simp only at hcall
    cases hsel : sys.select fid with
    | none => rw [hsel] at hcall; cases hcall
    | some st =>
      rw [hsel] at hcall
      simp only at hcall
      cases hop : scrmfs_fid_store_fixed_extend cfg st length with
      | none => rw [hop] at hcall; cases hcall
      | some r =>
        obtain ⟨rc1, st1⟩ := r
        rw [hop] at hcall
        cases hcall
        exact no_double_allocation_update cfg sys fid st st1 hI hsel
          (exclusive_extend cfg _ st st1 length rc hop)
  | shrink fid length =>
    simp only at hcall
    cases hsel : sys.select fid with
    | none => rw [hsel] at hcall; cases hcall
    | some st =>
      rw [hsel] at hcall
      simp only at hcall
      cases hop : scrmfs_fid_store_fixed_shrink cfg st length with
      | none => rw [hop] at hcall; cases hcall
      | some r =>
        obtain ⟨rc1, st1⟩ := r
        rw [hop] at hcall
        cases hcall
        exact no_double_allocation_update cfg sys fid st st1 hI hsel
          (exclusive_shrink cfg _ st st1 length rc hop)

/-- The system of two files that both hold the memory chunk 0 is left as it
is by the call `extend(file 0, 4)`, which returns success. -/
theorem duplicate_system_call :
    duplicate_system.call scenario_config (fixed_call.extend 0 4) =
      some (SCRMFS_SUCCESS, duplicate_system) := by
  rfl

/-- C18 (as stated, refuted): two files of one chunk that both hold the live
descriptor `{MemoryPool, 0}`, with both free stacks empty. Each free stack
holds pairwise distinct ids and no id at all, so that none is held by a live
descriptor; yet after the call `extend(file 0, 4)`, which returns success,
the `(location, physical_id)` pairs of the live descriptors of the two files
are not pairwise distinct. -/
theorem C18_no_double_allocation_refuted :
    duplicate_system.free_chunk_stack.Nodup ∧ duplicate_system.free_spillchunk_stack.Nodup ∧
      (∀ x : Int, x ∉ duplicate_system.free_chunk_stack ∧
        x ∉ duplicate_system.free_spillchunk_stack) ∧
      live_off_stacks scenario_config duplicate_system ∧
      ∃ sys : fixed_system,
        duplicate_system.call scenario_config (fixed_call.extend 0 4) =
          some (SCRMFS_SUCCESS, sys) ∧
        fixed_reachable scenario_config duplicate_system sys ∧
        sys.files[0]? = some one_chunk_file ∧ sys.files[1]? = some one_chunk_file ∧
        one_chunk_file.chunk_meta[0]? =
          some { location := CHUNK_LOCATION_MEMFS, id := 0 } ∧
        0 < one_chunk_file.chunks ∧
        ¬ live_distinct sys := by
  refine ⟨List.nodup_nil, List.nodup_nil, fun x => ⟨List.not_mem_nil x, List.not_mem_nil x⟩,
    ?_, duplicate_system, duplicate_system_call,
    fixed_reachable.call duplicate_system duplicate_system (fixed_call.extend 0 4)
      SCRMFS_SUCCESS fixed_reachable.start duplicate_system_call,
    rfl, rfl, rfl, by decide, ?_⟩
  · intro f i m d _ _ _ hon
    rcases hon with ⟨_, hin⟩ | ⟨_, hin⟩
    · exact List.not_mem_nil _ hin
    · exact List.not_mem_nil _ hin
  · intro hdist
    have h := hdist 0 1 0 0 one_chunk_file one_chunk_file
      { location := CHUNK_LOCATION_MEMFS, id := 0 } { location := CHUNK_LOCATION_MEMFS, id := 0 }
      rfl rfl (by decide) (by decide) rfl rfl rfl
    exact absurd h.1 (by decide)

/-- C18 (amended): if initially each free stack holds pairwise distinct ids,
no live descriptor of any file has its id on the free stack of its tier (for
a spillover descriptor the id on the spillover stack is
`physical_id - max_memory_chunks`), and the `(location, physical_id)` pairs
of the live descriptors of all files are pairwise distinct, then after any
sequence of extend and shrink calls on any files, with whatever return codes,
the pairs of all live descriptors across all files are pairwise distinct,
each free stack still holds pairwise distinct ids, and no live descriptor has
its id on the free stack of its tier. -/
theorem C18_no_double_allocation_amended (cfg : scrmfs_config) (init sys : fixed_system)
    (hmem : init.free_chunk_stack.Nodup) (hspill : init.free_spillchunk_stack.Nodup)
    (hoff : live_off_stacks cfg init) (hdist : live_distinct init)
    (hr : fixed_reachable cfg init sys) :
    live_distinct sys ∧ sys.free_chunk_stack.Nodup ∧ sys.free_spillchunk_stack.Nodup ∧
      live_off_stacks cfg sys := by
  have h : no_double_allocation cfg sys := by
    induction hr with
    | start => exact ⟨hmem, hspill, hdist, hoff⟩
    | call sys0 sys1 c rc _ hcall ih => exact no_double_allocation_call cfg sys0 sys1 c rc ih hcall
  exact ⟨h.2.2.1, h.1, h.2.1, h.2.2.2⟩

/-- C18 (witness): the one-file system of the concrete scenario, whose file
has no chunk and whose stacks hold the ids 0 and 1, and the state it reaches
by the call extending the file to 10 bytes. -/
theorem C18_no_double_allocation_amended_witness :
    scenario_system.free_chunk_stack.Nodup ∧ scenario_system.free_spillchunk_stack.Nodup ∧
      live_off_stacks scenario_config scenario_system ∧ live_distinct scenario_system ∧
      fixed_reachable scenario_config scenario_system scenario_system_extended ∧
      live_distinct scenario_system_extended ∧
      scenario_system_extended.free_chunk_stack.Nodup ∧
      scenario_system_extended.free_spillchunk_stack.Nodup ∧
      live_off_stacks scenario_config scenario_system_extended := by
  have hfile : ∀ (f : Nat) (m : scrmfs_filemeta_t), scenario_system.files[f]? = some m →
      m.chunks = 0 := by
    intro f m hm
    simp only [scenario_system] at hm
    have hlt := lt_length_of_getElem? hm
    simp only [List.length_cons, List.length_nil] at hlt
    have h0 : f = 0 := by omega
    subst h0
    simp only [List.getElem?_cons_zero, Option.some.injEq] at hm
    rw [← hm]
    rfl
  have hmem : scenario_system.free_chunk_stack.Nodup := by decide
  have hspill : scenario_system.free_spillchunk_stack.Nodup := by decide
  have hoff : live_off_stacks scenario_config scenario_system := by
    intro f i m d hm hi
    rw [hfile f m hm] at hi
    omega
  have hdist : live_distinct scenario_system := by
    intro f g i j m n d e hm _ hi
    rw [hfile f m hm] at hi
    omega
  exact ⟨hmem, hspill, hoff, hdist, scenario_system_reachable,
    C18_no_double_allocation_amended scenario_config scenario_system scenario_system_extended
      hmem hspill hoff hdist scenario_system_reachable⟩

end Scrmfs
